import Mathlib

/-!
# Reactor compressor core: gain computer, heat sink, sidechain filter

A shallow embedding of the DSP classes under `Source/DSP` and the properties
its specification states about them.

Number model.  The C++ code computes in `float`.  Here a sample or a level is
an element of an arbitrary linearly ordered field `α` (instantiate `α := ℚ` to
run the definitions, `α := ℝ` for the analytic statements), so every
arithmetic operation is exact: rounding, infinities and NaN are not modelled.
Decimal literals of the source (`0.001f`, `0.7f`, ...) are read as the exact
decimal fractions.

Rounding.  Where a property depends on the rounding of `float` arithmetic (a
result that is exactly 0, the sign of a result, the order of two results), the
method is embedded a second time under the namespace `Rounded`, with every
arithmetic operation followed by a rounding function `fl`.  `roundF32` is
IEEE 754 binary32 rounding to nearest, ties to even, on the rationals, with the
subnormal range; each operation is rounded on its own (no fused multiply-add),
and the exponent range is not bounded above, so overflow to an infinity and NaN
stay outside the model.

Library code.  `juce::jmax` and `juce::jlimit` are transcribed from their JUCE
definitions.  `std::tanh` and the JUCE IIR filter are not part of the
repository; they enter the definitions as parameters (`tanh`, `makeHighPass`,
`iirProcess`).  An audio buffer is a list of channels, each a list of samples.

The level detector and the compressor core follow the same conventions:
`std::exp`, `std::sqrt`, `std::log10` and `std::pow` are parameters (`exp`, `sqrt`,
`log10`, `pow`), `juce::jmap`, `juce::Decibels::decibelsToGain` and the linear
`juce::SmoothedValue<float>` are transcribed from JUCE, and a C++ `int` is an `Int`
(the counters of the source stay far below the 32-bit range).  A stateful method
returns the object after the call, paired with the value the method returns.
-/

namespace Reactor

/-! ## JUCE helpers -/

section Juce

variable {α : Type} [LinearOrderedField α]

/-- JUCE `jmax (a, b)`, which is `(a < b) ? b : a`. -/
def jmax (a b : α) : α :=
  if a < b then b else a

/-- JUCE `jlimit (lowerLimit, upperLimit, value)`, which is
`value < lowerLimit ? lowerLimit : (upperLimit < value ? upperLimit : value)`. -/
def jlimit (lowerLimit upperLimit valueToConstrain : α) : α :=
  if valueToConstrain < lowerLimit then lowerLimit
  else if upperLimit < valueToConstrain then upperLimit
  else valueToConstrain

/-- A `juce::dsp::ProcessorDuplicator<IIR::Filter, IIR::Coefficients>`: the shared
coefficient set `state` and the per-channel delay memory of the duplicated filters. -/
structure ProcessorDuplicator (C M : Type) where
  state : C
  memory : M

/-- An audio buffer: one list of samples per channel. -/
abbrev AudioBuffer (α : Type) := List (List α)

end Juce

/-! ## GainComputer (`Source/DSP/GainComputer.h`) -/

/-- The private members of `GainComputer`. -/
structure GainComputer (α : Type) where
  threshold : α
  ratio : α
  kneeWidth : α

namespace GainComputer

variable {α : Type} [LinearOrderedField α]

/-- The member initialisers: threshold -18 dB, ratio 4:1, knee 6 dB. -/
def init : GainComputer α :=
  { threshold := -18, ratio := 4, kneeWidth := 6 }

/-- The method `setThreshold`. -/
def setThreshold (g : GainComputer α) (thresholdDb : α) : GainComputer α :=
  { g with threshold := thresholdDb }

/-- The method `setRatio`: `ratio = juce::jmax(1.0f, r)`. -/
def setRatio (g : GainComputer α) (r : α) : GainComputer α :=
  { g with ratio := jmax 1 r }

/-- The method `setKnee`: `kneeWidth = juce::jmax(0.0f, kneeDb)`. -/
def setKnee (g : GainComputer α) (kneeDb : α) : GainComputer α :=
  { g with kneeWidth := jmax 0 kneeDb }

/-- The method `computeGainReduction`, branch for branch.  (The locals `kneeRatio`
and `kneeGain` of the in-knee branch are computed but never used by the source and
are left out.) -/
def computeGainReduction (g : GainComputer α) (inputLevelDb : α) : α :=
  let outputDb : α :=
    if g.kneeWidth > 0 then
      let kneeStart := g.threshold - g.kneeWidth / 2
      let kneeEnd := g.threshold + g.kneeWidth / 2
      if inputLevelDb ≤ kneeStart then
        inputLevelDb
      else if inputLevelDb ≥ kneeEnd then
        g.threshold + (inputLevelDb - g.threshold) / g.ratio
      else
        let aboveThresh := inputLevelDb - g.threshold
        inputLevelDb - (1 - 1 / g.ratio) *
          (aboveThresh + g.kneeWidth / 2) *
          (aboveThresh + g.kneeWidth / 2) /
          (2 * g.kneeWidth)
    else
      if inputLevelDb > g.threshold then
        g.threshold + (inputLevelDb - g.threshold) / g.ratio
      else
        inputLevelDb
  let gainReductionDb := outputDb - inputLevelDb
  gainReductionDb

/-- The method `computeOutputLevel`. -/
def computeOutputLevel (g : GainComputer α) (inputLevelDb : α) : α :=
  inputLevelDb + g.computeGainReduction inputLevelDb

end GainComputer

/-! ## HeatSink (`Source/DSP/HeatSink.h`) -/

/-- The private members of `HeatSink`; `amount` is the normalised amount (0 to 1). -/
structure HeatSink (α C M : Type) where
  sampleRate : α
  amount : α
  isEnabled : Bool
  dcBlocker : ProcessorDuplicator C M

namespace HeatSink

variable {α C M : Type} [LinearOrderedField α]

/-- The member initialisers: 44100 Hz, amount 0, enabled; the filter object is given. -/
def init (dc : ProcessorDuplicator C M) : HeatSink α C M :=
  { sampleRate := 44100, amount := 0, isEnabled := true, dcBlocker := dc }

/-- The method `setAmount`: `amount = juce::jlimit(0.0f, 100.0f, amountPercent) / 100.0f`. -/
def setAmount (h : HeatSink α C M) (amountPercent : α) : HeatSink α C M :=
  { h with amount := jlimit 0 100 amountPercent / 100 }

/-- The method `setEnabled`. -/
def setEnabled (h : HeatSink α C M) (enabled : Bool) : HeatSink α C M :=
  { h with isEnabled := enabled }

/-- The method `getEnabled`. -/
def getEnabled (h : HeatSink α C M) : Bool :=
  h.isEnabled

/-- The method `getAmount`: `amount * 100.0f`. -/
def getAmount (h : HeatSink α C M) : α :=
  h.amount * 100

/-- The private method `softClip`; `tanh` stands for `std::tanh`. -/
def softClip (tanh : α → α) (x : α) : α :=
  if |x| < 1 then
    let x2 := x * x
    x * (1.5 - 0.5 * x2)
  else
    tanh x

/-- The per-sample method `process(float)`; `tanh` stands for `std::tanh`. -/
def process (tanh : α → α) (h : HeatSink α C M) (input : α) : α :=
  if !h.isEnabled || h.amount < 0.001 then
    input
  else
    let drive := 1 + h.amount * 4
    let driven := input * drive
    let clipped := softClip tanh driven
    let wetDry := 0.3 + h.amount * 0.7
    let output := input * (1 - wetDry) + clipped * wetDry
    let compensation := 1 / (1 + h.amount * 0.5)
    output * compensation

/-- The buffer method `process(AudioBuffer&)`: returns the object (whose DC-blocker
memory the call may advance) and the buffer after the call.  `iirProcess` stands for
`dcBlocker.process(context)`: from the coefficients, the delay memory and a buffer it
gives the new memory and the filtered buffer. -/
def processBuffer (tanh : α → α) (iirProcess : C → M → AudioBuffer α → M × AudioBuffer α)
    (h : HeatSink α C M) (buffer : AudioBuffer α) : HeatSink α C M × AudioBuffer α :=
  if !h.isEnabled || h.amount < 0.001 then
    (h, buffer)
  else
    let saturated := buffer.map (fun data => data.map (fun s => process tanh h s))
    let r := iirProcess h.dcBlocker.state h.dcBlocker.memory saturated
    ({ h with dcBlocker := { h.dcBlocker with memory := r.1 } }, r.2)

end HeatSink

/-! ## SidechainFilter (`Source/DSP/SidechainFilter.h`) -/

/-- The private members of `SidechainFilter`. -/
structure SidechainFilter (α C M : Type) where
  sampleRate : α
  frequency : α
  isEnabled : Bool
  highPassFilter : ProcessorDuplicator C M

namespace SidechainFilter

variable {α C M : Type} [LinearOrderedField α]

/-- The private method `updateFilter`: the coefficients become
`makeHighPass(sampleRate, frequency, 0.707f)`. -/
def updateFilter (makeHighPass : α → α → α → C) (s : SidechainFilter α C M) :
    SidechainFilter α C M :=
  { s with highPassFilter :=
      { s.highPassFilter with state := makeHighPass s.sampleRate s.frequency 0.707 } }

/-- The method `setFrequency`: `frequency = juce::jlimit(20.0f, 500.0f, freqHz)`, then
`updateFilter()`. -/
def setFrequency (makeHighPass : α → α → α → C) (s : SidechainFilter α C M) (freqHz : α) :
    SidechainFilter α C M :=
  updateFilter makeHighPass { s with frequency := jlimit 20 500 freqHz }

/-- The method `setEnabled`. -/
def setEnabled (s : SidechainFilter α C M) (enabled : Bool) : SidechainFilter α C M :=
  { s with isEnabled := enabled }

/-- The method `getFrequency`. -/
def getFrequency (s : SidechainFilter α C M) : α :=
  s.frequency

end SidechainFilter

namespace SidechainFilter

variable {α C M : Type} [LinearOrderedField α]

/-- The member initialisers: 44100 Hz, 100 Hz, disabled; the filter object is given. -/
def init (hp : ProcessorDuplicator C M) : SidechainFilter α C M :=
  { sampleRate := 44100, frequency := 100, isEnabled := false, highPassFilter := hp }

/-- The method `process`: a disabled filter returns at once; otherwise the high-pass
runs over the buffer in place.  `iirProcess` stands for `highPassFilter.process(context)`. -/
def process (iirProcess : C → M → AudioBuffer α → M × AudioBuffer α)
    (s : SidechainFilter α C M) (buffer : AudioBuffer α) :
    SidechainFilter α C M × AudioBuffer α :=
  if !s.isEnabled then
    (s, buffer)
  else
    let r := iirProcess s.highPassFilter.state s.highPassFilter.memory buffer
    ({ s with highPassFilter := { s.highPassFilter with memory := r.1 } }, r.2)

/-- What a call of `processAndCopy` leaves behind: the object, the caller's input buffer
(passed by `const&`) and the returned buffer. -/
structure CopyResult (α C M : Type) where
  filter : SidechainFilter α C M
  input : AudioBuffer α
  filtered : AudioBuffer α

/-- The method `processAndCopy`: `filtered.makeCopyOf(input)`, then `process(filtered)`
when enabled; only the copy is written. -/
def processAndCopy (iirProcess : C → M → AudioBuffer α → M × AudioBuffer α)
    (s : SidechainFilter α C M) (input : AudioBuffer α) : CopyResult α C M :=
  let filtered := input
  if s.isEnabled then
    let r := process iirProcess s filtered
    { filter := r.1, input := input, filtered := r.2 }
  else
    { filter := s, input := input, filtered := filtered }

end SidechainFilter

/-! ## More JUCE and C++ helpers -/

section Helpers

variable {α : Type} [LinearOrderedField α]

/-- The conversion `static_cast<int>` of a floating-point value: truncation toward zero. -/
def truncToInt [FloorRing α] (x : α) : Int :=
  if 0 ≤ x then ⌊x⌋ else ⌈x⌉

/-- JUCE `jmap (sourceValue, sourceRangeMin, sourceRangeMax, targetRangeMin,
targetRangeMax)`, which is `targetRangeMin + ((targetRangeMax - targetRangeMin) *
(sourceValue - sourceRangeMin)) / (sourceRangeMax - sourceRangeMin)`. -/
def jmap (sourceValue sourceRangeMin sourceRangeMax targetRangeMin targetRangeMax : α) : α :=
  targetRangeMin + ((targetRangeMax - targetRangeMin) * (sourceValue - sourceRangeMin))
    / (sourceRangeMax - sourceRangeMin)

/-- JUCE `Decibels::decibelsToGain (decibels)` with its default floor of -100 dB:
`decibels > -100 ? std::pow (10, decibels * 0.05) : 0`. -/
def decibelsToGain (pow : α → α → α) (decibels : α) : α :=
  if decibels > -100 then pow 10 (decibels * 0.05) else 0

/-- The call `buffer.getNumChannels()`. -/
def getNumChannels (buffer : AudioBuffer α) : Nat :=
  buffer.length

/-- The call `buffer.getNumSamples()`: the length of the channels (of the first one; a
buffer without channels has no samples). -/
def getNumSamples (buffer : AudioBuffer α) : Nat :=
  (buffer.head?.map List.length).getD 0

/-- The call `buffer.getSample (channel, index)`. -/
def getSample (buffer : AudioBuffer α) (channel index : Nat) : α :=
  (buffer.getD channel []).getD index 0

/-- The call `buffer.setSample (channel, index, value)`. -/
def setSample (buffer : AudioBuffer α) (channel index : Nat) (value : α) : AudioBuffer α :=
  buffer.set channel ((buffer.getD channel []).set index value)

end Helpers

/-! ## SmoothedValue (JUCE, linear smoothing) -/

/-- The members of `juce::SmoothedValue<float>` (linear smoothing type). -/
structure SmoothedValue (α : Type) where
  currentValue : α
  target : α
  countdown : Int
  step : α
  stepsToTarget : Int

namespace SmoothedValue

variable {α : Type} [LinearOrderedField α]

/-- The default constructor: value and target 0, no ramp. -/
def init : SmoothedValue α :=
  { currentValue := 0, target := 0, countdown := 0, step := 0, stepsToTarget := 0 }

/-- The method `isSmoothing`: `countdown > 0`. -/
def isSmoothing (v : SmoothedValue α) : Bool :=
  decide (v.countdown > 0)

/-- The method `setCurrentAndTargetValue`: `target = currentValue = newValue; countdown = 0`. -/
def setCurrentAndTargetValue (v : SmoothedValue α) (newValue : α) : SmoothedValue α :=
  { v with target := newValue, currentValue := newValue, countdown := 0 }

/-- The method `reset (sampleRate, rampLengthInSeconds)`:
`stepsToTarget = (int) std::floor (rampLengthInSeconds * sampleRate)`, then
`setCurrentAndTargetValue (target)`. -/
def reset [FloorRing α] (v : SmoothedValue α) (sampleRate rampLengthInSeconds : α) :
    SmoothedValue α :=
  let v1 := { v with stepsToTarget := ⌊rampLengthInSeconds * sampleRate⌋ }
  v1.setCurrentAndTargetValue v1.target

/-- The method `setTargetValue`: nothing for an unchanged target, a jump when there is
no ramp, otherwise a new ramp of `stepsToTarget` steps of size
`(target - currentValue) / countdown`. -/
def setTargetValue (v : SmoothedValue α) (newValue : α) : SmoothedValue α :=
  if newValue = v.target then
    v
  else if v.stepsToTarget ≤ 0 then
    v.setCurrentAndTargetValue newValue
  else
    { v with target := newValue, countdown := v.stepsToTarget,
             step := (newValue - v.currentValue) / (v.stepsToTarget : α) }

/-- The method `getNextValue`: the target when no ramp is running; otherwise one step
of the ramp, landing on the target at the last step. -/
def getNextValue (v : SmoothedValue α) : SmoothedValue α × α :=
  if !v.isSmoothing then
    (v, v.target)
  else
    let v1 := { v with countdown := v.countdown - 1 }
    let v2 :=
      if v1.isSmoothing then { v1 with currentValue := v1.currentValue + v1.step }
      else { v1 with currentValue := v1.target }
    (v2, v2.currentValue)

end SmoothedValue

/-! ## LevelDetector (`Source/DSP/LevelDetector.h`) -/

/-- The enumeration `LevelDetector::Mode`. -/
inductive Mode where
  | Peak
  | RMS
  | TruePeak
  deriving DecidableEq, Repr

/-- The private members of `LevelDetector`. -/
structure LevelDetector (α : Type) where
  sampleRate : α
  mode : Mode
  envelope : α
  attackCoeff : α
  releaseCoeff : α
  rmsSum : α
  rmsCount : Int

namespace LevelDetector

variable {α : Type} [LinearOrderedField α]

/-- The member initialisers. -/
def init : LevelDetector α :=
  { sampleRate := 44100, mode := Mode.Peak, envelope := 0, attackCoeff := 0.01,
    releaseCoeff := 0.001, rmsSum := 0, rmsCount := 0 }

/-- The method `reset`. -/
def reset (d : LevelDetector α) : LevelDetector α :=
  { d with envelope := 0, rmsSum := 0, rmsCount := 0 }

/-- The method `prepare`: `sampleRate = sr; reset();`. -/
def prepare (d : LevelDetector α) (sr : α) : LevelDetector α :=
  reset { d with sampleRate := sr }

/-- The method `setMode`. -/
def setMode (d : LevelDetector α) (m : Mode) : LevelDetector α :=
  { d with mode := m }

/-- The method `setAttackTime`; `exp` stands for `std::exp`. -/
def setAttackTime (exp : α → α) (d : LevelDetector α) (attackMs : α) : LevelDetector α :=
  let attackSeconds := attackMs / 1000
  { d with attackCoeff := 1 - exp (-1 / (d.sampleRate * attackSeconds)) }

/-- The method `setReleaseTime`; `exp` stands for `std::exp`. -/
def setReleaseTime (exp : α → α) (d : LevelDetector α) (releaseMs : α) : LevelDetector α :=
  let releaseSeconds := releaseMs / 1000
  { d with releaseCoeff := 1 - exp (-1 / (d.sampleRate * releaseSeconds)) }

/-- The RMS block that `process` (lines 76-91) and `processStereo` (lines 128-141)
share: add `squares` to the sum, count the sample, and either complete the window
(level `sqrt (rmsSum / rmsCount)`, accumulator zeroed) or hold the envelope as level. -/
def accumulateRms [FloorRing α] (sqrt : α → α) (d : LevelDetector α) (squares : α) :
    LevelDetector α × α :=
  let rmsSum := d.rmsSum + squares
  let rmsCount := d.rmsCount + 1
  let windowSize := truncToInt (d.sampleRate * 0.01)
  if rmsCount ≥ windowSize then
    ({ d with rmsSum := 0, rmsCount := 0 }, sqrt (rmsSum / (rmsCount : α)))
  else
    ({ d with rmsSum := rmsSum, rmsCount := rmsCount }, d.envelope)

/-- The envelope follower of both methods (lines 96-105 and 145-152): attack when the
level is above the envelope, release otherwise. -/
def follow (d : LevelDetector α) (inputLevel : α) : LevelDetector α :=
  if inputLevel > d.envelope then
    { d with envelope := d.envelope + d.attackCoeff * (inputLevel - d.envelope) }
  else
    { d with envelope := d.envelope + d.releaseCoeff * (inputLevel - d.envelope) }

/-- The conversion to dB of both methods (lines 108-112 and 155-159); `log10` stands for
`std::log10`. -/
def levelDb (log10 : α → α) (envelope : α) : α :=
  if envelope > 1e-10 then 20 * log10 envelope else -100

/-- The method `process`: the object after the call and the returned level in dB. -/
def process [FloorRing α] (sqrt log10 : α → α) (d : LevelDetector α) (input : α) :
    LevelDetector α × α :=
  let r : LevelDetector α × α :=
    match d.mode with
    | Mode.Peak => (d, |input|)
    | Mode.TruePeak => (d, |input|)
    | Mode.RMS => accumulateRms sqrt d (input * input)
  let d1 := follow r.1 r.2
  (d1, levelDb log10 d1.envelope)

/-- The method `processStereo`: the object after the call and the returned level in dB. -/
def processStereo [FloorRing α] (sqrt log10 : α → α) (d : LevelDetector α) (left right : α) :
    LevelDetector α × α :=
  let leftLevel := |left|
  let rightLevel := |right|
  let maxInput := jmax leftLevel rightLevel
  let r : LevelDetector α × α :=
    if d.mode = Mode.RMS then
      let sumSquares := left * left + right * right
      accumulateRms sqrt d (sumSquares * 0.5)
    else
      (d, maxInput)
  let d1 := follow r.1 r.2
  (d1, levelDb log10 d1.envelope)

/-- The method `getCurrentEnvelope`. -/
def getCurrentEnvelope (d : LevelDetector α) : α :=
  d.envelope

end LevelDetector

/-- One call made on a level detector by its owner: `process`, `processStereo` or
`setMode`.  Used to speak about sequences of calls. -/
inductive DetectorCall (α : Type) where
  | process (input : α)
  | processStereo (left right : α)
  | setMode (m : Mode)

namespace LevelDetector

variable {α : Type} [LinearOrderedField α] [FloorRing α]

/-- The detector after one call. -/
def step (sqrt log10 : α → α) (d : LevelDetector α) : DetectorCall α → LevelDetector α
  | DetectorCall.process input => (d.process sqrt log10 input).1
  | DetectorCall.processStereo left right => (d.processStereo sqrt log10 left right).1
  | DetectorCall.setMode m => d.setMode m

/-- The detector after a sequence of calls, first call first. -/
def run (sqrt log10 : α → α) (d : LevelDetector α) (calls : List (DetectorCall α)) :
    LevelDetector α :=
  calls.foldl (step sqrt log10) d

end LevelDetector

/-! ## CompressorCore (`Source/DSP/CompressorCore.h`) -/

/-- The enumeration `CoreMaterial` of `Source/Utils/Parameters.h`. -/
inductive CoreMaterial where
  | VCA
  | FET
  | Opto
  deriving DecidableEq, Repr

/-- The private members of `CompressorCore`. -/
structure CompressorCore (α : Type) where
  sampleRate : α
  blockSize : Int
  coreMaterial : CoreMaterial
  levelDetector : LevelDetector α
  gainComputer : GainComputer α
  attackTime : α
  releaseTime : α
  smoothedGainReduction : SmoothedValue α
  currentGainReductionDb : α

namespace CompressorCore

variable {α : Type} [LinearOrderedField α]

/-- The member initialisers. -/
def init : CompressorCore α :=
  { sampleRate := 44100, blockSize := 512, coreMaterial := CoreMaterial.VCA,
    levelDetector := LevelDetector.init, gainComputer := GainComputer.init,
    attackTime := 10, releaseTime := 100,
    smoothedGainReduction := SmoothedValue.init, currentGainReductionDb := 0 }

/-- The method `reset`. -/
def reset (c : CompressorCore α) : CompressorCore α :=
  { c with levelDetector := c.levelDetector.reset,
           smoothedGainReduction := c.smoothedGainReduction.setCurrentAndTargetValue 0,
           currentGainReductionDb := 0 }

/-- The method `prepare`. -/
def prepare [FloorRing α] (c : CompressorCore α) (sr : α) (maxBlockSize : Int) :
    CompressorCore α :=
  reset { c with sampleRate := sr, blockSize := maxBlockSize,
                 levelDetector := c.levelDetector.prepare sr,
                 gainComputer := ((c.gainComputer.setThreshold (-18)).setRatio 4).setKnee 6,
                 smoothedGainReduction := c.smoothedGainReduction.reset sr 0.005 }

/-- The method `setCoreMaterial`: stores the material and sets the detector mode. -/
def setCoreMaterial (c : CompressorCore α) (material : CoreMaterial) : CompressorCore α :=
  let c1 := { c with coreMaterial := material }
  match c1.coreMaterial with
  | CoreMaterial.VCA => { c1 with levelDetector := c1.levelDetector.setMode Mode.TruePeak }
  | CoreMaterial.FET => { c1 with levelDetector := c1.levelDetector.setMode Mode.Peak }
  | CoreMaterial.Opto => { c1 with levelDetector := c1.levelDetector.setMode Mode.RMS }

/-- The method `setThreshold`. -/
def setThreshold (c : CompressorCore α) (thresholdDb : α) : CompressorCore α :=
  { c with gainComputer := c.gainComputer.setThreshold thresholdDb }

/-- The method `setRatio`. -/
def setRatio (c : CompressorCore α) (r : α) : CompressorCore α :=
  { c with gainComputer := c.gainComputer.setRatio r }

/-- The method `setKnee`. -/
def setKnee (c : CompressorCore α) (kneeDb : α) : CompressorCore α :=
  { c with gainComputer := c.gainComputer.setKnee kneeDb }

/-- The private method `getModifiedAttack`. -/
def getModifiedAttack (c : CompressorCore α) : α :=
  match c.coreMaterial with
  | CoreMaterial.VCA => c.attackTime
  | CoreMaterial.FET => c.attackTime * 0.7
  | CoreMaterial.Opto => c.attackTime * 2.0

/-- The private method `getModifiedRelease`. -/
def getModifiedRelease (c : CompressorCore α) : α :=
  match c.coreMaterial with
  | CoreMaterial.VCA => c.releaseTime
  | CoreMaterial.FET => c.releaseTime * 0.8
  | CoreMaterial.Opto => c.releaseTime * 1.5

/-- The method `setAttack`: `attackTime = attackMs;` then
`levelDetector.setAttackTime(getModifiedAttack())`. -/
def setAttack (exp : α → α) (c : CompressorCore α) (attackMs : α) : CompressorCore α :=
  let c1 := { c with attackTime := attackMs }
  { c1 with levelDetector := c1.levelDetector.setAttackTime exp c1.getModifiedAttack }

/-- The method `setRelease`: `releaseTime = releaseMs;` then
`levelDetector.setReleaseTime(getModifiedRelease())`. -/
def setRelease (exp : α → α) (c : CompressorCore α) (releaseMs : α) : CompressorCore α :=
  let c1 := { c with releaseTime := releaseMs }
  { c1 with levelDetector := c1.levelDetector.setReleaseTime exp c1.getModifiedRelease }

/-- The method `getGainReductionDb`. -/
def getGainReductionDb (c : CompressorCore α) : α :=
  c.currentGainReductionDb

/-- The private method `applyModelCharacter`. -/
def applyModelCharacter (c : CompressorCore α) (gainReductionDb inputLevelDb : α) : α :=
  match c.coreMaterial with
  | CoreMaterial.VCA => gainReductionDb
  | CoreMaterial.FET =>
    let excessDb := jmax 0 (inputLevelDb - c.gainComputer.threshold)
    let aggressiveness := 1 + excessDb * 0.02
    gainReductionDb * aggressiveness
  | CoreMaterial.Opto =>
    let levelFactor := jmap inputLevelDb (c.gainComputer.threshold - 20)
      (c.gainComputer.threshold + 20) 0.7 1.0
    let levelFactor := jlimit 0.7 1.0 levelFactor
    gainReductionDb * levelFactor

/-- The private method `applyModelSaturation`; `tanh` stands for `std::tanh`. -/
def applyModelSaturation (tanh : α → α) (c : CompressorCore α) (input : α) : α :=
  match c.coreMaterial with
  | CoreMaterial.VCA =>
    let x := input
    if |x| > 0.9 then
      let sign : α := if x > 0 then 1 else -1
      sign * (0.9 + (|x| - 0.9) * 0.1)
    else
      x
  | CoreMaterial.FET =>
    let x := input * 1.2
    let saturation := x / (1 + |x| * 0.3)
    let saturation := if x > 0 then saturation * 1.02 else saturation * 0.98
    saturation * 0.9
  | CoreMaterial.Opto =>
    let x := input
    let tube := tanh (x * 0.8) * 1.1
    let evenHarmonic := x * x * 0.05 * (if x > 0 then 1 else -1)
    tube + evenHarmonic

/-- The detector input of one sample index (lines 123-134): the main signal's channels
0 and 1 (channel 0 twice when mono), replaced by the sidechain's when a sidechain buffer
is supplied and has more than `sample` samples. -/
def detectorInput (buffer : AudioBuffer α) (sidechainBuffer : Option (AudioBuffer α))
    (sample : Nat) : α × α :=
  let numChannels := getNumChannels buffer
  let leftIn := getSample buffer 0 sample
  let rightIn := if numChannels > 1 then getSample buffer 1 sample else leftIn
  match sidechainBuffer with
  | some sc =>
    if getNumSamples sc > sample then
      let scLeft := getSample sc 0 sample
      let scRight := if getNumChannels sc > 1 then getSample sc 1 sample else scLeft
      (scLeft, scRight)
    else
      (leftIn, rightIn)
  | none => (leftIn, rightIn)

/-- The inner channel loop of `process` (lines 156-165) at one sample index. -/
def applyGain (tanh : α → α) (c : CompressorCore α) (gainLinear : α) (sample : Nat)
    (buffer : AudioBuffer α) : AudioBuffer α :=
  (List.range (getNumChannels buffer)).foldl
    (fun b ch =>
      let input := getSample b ch sample
      let compressed := input * gainLinear
      let compressed := applyModelSaturation tanh c compressed
      setSample b ch sample compressed)
    buffer

/-- The body of the sample loop of `process` (lines 121-166) at one sample index. -/
def processSample [FloorRing α] (sqrt log10 tanh : α → α) (pow : α → α → α)
    (sidechainBuffer : Option (AudioBuffer α))
    (st : CompressorCore α × AudioBuffer α) (sample : Nat) :
    CompressorCore α × AudioBuffer α :=
  let c := st.1
  let buffer := st.2
  let sc := detectorInput buffer sidechainBuffer sample
  let det := c.levelDetector.processStereo sqrt log10 sc.1 sc.2
  let inputLevelDb := det.2
  let gainReductionDb := c.gainComputer.computeGainReduction inputLevelDb
  let gainReductionDb := c.applyModelCharacter gainReductionDb inputLevelDb
  let sm := (c.smoothedGainReduction.setTargetValue gainReductionDb).getNextValue
  let smoothedGR := sm.2
  let gainLinear := decibelsToGain pow smoothedGR
  let c1 := { c with levelDetector := det.1, smoothedGainReduction := sm.1,
                     currentGainReductionDb := smoothedGR }
  (c1, applyGain tanh c1 gainLinear sample buffer)

/-- The method `process`: the object and the main buffer after the call. -/
def process [FloorRing α] (sqrt log10 tanh : α → α) (pow : α → α → α)
    (c : CompressorCore α) (buffer : AudioBuffer α)
    (sidechainBuffer : Option (AudioBuffer α)) : CompressorCore α × AudioBuffer α :=
  (List.range (getNumSamples buffer)).foldl
    (processSample sqrt log10 tanh pow sidechainBuffer) (c, buffer)

end CompressorCore

/-! ## Rounded arithmetic (`float`)

IEEE 754 binary32 rounding on the rationals, and the methods whose properties depend on
rounding, embedded a second time with every arithmetic operation rounded. -/

/-- Rounding of a rational to the nearest integer, a tie going to the even integer. -/
def roundHalfEven (q : ℚ) : ℤ :=
  if q - ⌊q⌋ < 1 / 2 then ⌊q⌋
  else if 1 / 2 < q - ⌊q⌋ then ⌊q⌋ + 1
  else if ⌊q⌋ % 2 = 0 then ⌊q⌋
  else ⌊q⌋ + 1

/-- The binary exponent at which a binary32 value of magnitude `q` is stored: the exponent
of the binade of `q`, and -126 (the subnormal range) for magnitudes under `2 ^ (-126)`. -/
def expF32 (q : ℚ) : ℤ :=
  max (Int.log 2 q) (-126)

/-- Rounding of a magnitude to binary32: the significand has 24 bits, so the value is
rounded to the nearest multiple of `2 ^ (expF32 q - 23)`, ties to even. -/
def roundMagF32 (q : ℚ) : ℚ :=
  roundHalfEven (q / 2 ^ (expF32 q - 23)) * 2 ^ (expF32 q - 23)

/-- Rounding to the nearest binary32 value, ties to even: what a `float` operation of the
source stores for the exact result `q`.  The exponent is not bounded above: a result beyond
the largest `float` stays finite here. -/
def roundF32 (q : ℚ) : ℚ :=
  if 0 ≤ q then roundMagF32 q else -roundMagF32 (-q)

namespace Rounded

variable {α : Type} [LinearOrderedField α]

/-- The method `GainComputer::computeGainReduction` with every `float` operation followed by
the rounding `fl`, in the order in which the C++ expressions are evaluated. -/
def computeGainReduction (fl : α → α) (g : GainComputer α) (inputLevelDb : α) : α :=
  let outputDb : α :=
    if g.kneeWidth > 0 then
      let kneeStart := fl (g.threshold - fl (g.kneeWidth / 2))
      let kneeEnd := fl (g.threshold + fl (g.kneeWidth / 2))
      if inputLevelDb ≤ kneeStart then
        inputLevelDb
      else if inputLevelDb ≥ kneeEnd then
        fl (g.threshold + fl (fl (inputLevelDb - g.threshold) / g.ratio))
      else
        let aboveThresh := fl (inputLevelDb - g.threshold)
        fl (inputLevelDb - fl (fl (fl (fl (1 - fl (1 / g.ratio)) *
          fl (aboveThresh + fl (g.kneeWidth / 2))) *
          fl (aboveThresh + fl (g.kneeWidth / 2))) /
          fl (2 * g.kneeWidth)))
    else
      if inputLevelDb > g.threshold then
        fl (g.threshold + fl (fl (inputLevelDb - g.threshold) / g.ratio))
      else
        inputLevelDb
  let gainReductionDb := fl (outputDb - inputLevelDb)
  gainReductionDb

/-- The method `GainComputer::computeOutputLevel` with its addition rounded. -/
def computeOutputLevel (fl : α → α) (g : GainComputer α) (inputLevelDb : α) : α :=
  fl (inputLevelDb + computeGainReduction fl g inputLevelDb)

/-- JUCE `jmap` with every operation rounded. -/
def jmap (fl : α → α)
    (sourceValue sourceRangeMin sourceRangeMax targetRangeMin targetRangeMax : α) : α :=
  fl (targetRangeMin + fl (fl (fl (targetRangeMax - targetRangeMin) *
    fl (sourceValue - sourceRangeMin)) / fl (sourceRangeMax - sourceRangeMin)))

/-- The method `CompressorCore::applyModelCharacter` with every `float` operation rounded;
the literals `0.02f` and `0.7f` are the roundings of 0.02 and 0.7. -/
def applyModelCharacter (fl : α → α) (c : CompressorCore α)
    (gainReductionDb inputLevelDb : α) : α :=
  match c.coreMaterial with
  | CoreMaterial.VCA => gainReductionDb
  | CoreMaterial.FET =>
    let excessDb := jmax 0 (fl (inputLevelDb - c.gainComputer.threshold))
    let aggressiveness := fl (1 + fl (excessDb * fl 0.02))
    fl (gainReductionDb * aggressiveness)
  | CoreMaterial.Opto =>
    let levelFactor := jmap fl inputLevelDb (fl (c.gainComputer.threshold - 20))
      (fl (c.gainComputer.threshold + 20)) (fl 0.7) 1
    let levelFactor := jlimit (fl 0.7) 1 levelFactor
    fl (gainReductionDb * levelFactor)

end Rounded

/-! ## Properties of the gain computer -/

section GainComputerProperties

variable {α : Type} [LinearOrderedField α]

/-- In exact arithmetic: for every threshold, every knee width that is at least 0 and every
input level, a gain computer whose ratio is 1 computes a gain reduction of 0. -/
theorem computeGainReduction_ratio_one (g : GainComputer α) (x : α)
    (hratio : g.ratio = 1) (_hknee : 0 ≤ g.kneeWidth) :
    g.computeGainReduction x = 0 := by
  simp only [GainComputer.computeGainReduction, hratio]
  split_ifs <;> ring

/-- The exact-arithmetic reduction at threshold -18, ratio 1, knee 6, input -17 (inside the
knee). -/
theorem computeGainReduction_ratio_one_witness :
    (1 : ℚ) = 1 ∧ (0 : ℚ) ≤ 6 ∧
      GainComputer.computeGainReduction
        ({ threshold := -18, ratio := 1, kneeWidth := 6 } : GainComputer ℚ) (-17) = 0 :=
  ⟨rfl, by norm_num,
    computeGainReduction_ratio_one
      ({ threshold := -18, ratio := 1, kneeWidth := 6 } : GainComputer ℚ) (-17) rfl
      (by norm_num)⟩

/-- C2: with a knee width of 0 (hard knee) and a ratio of at least 1, the gain reduction
is 0 for an input at or below the threshold and `threshold + (x - threshold)/ratio - x`
for an input above it; threshold -18, ratio 4, input -12 gives -4.5 dB. -/
theorem computeGainReduction_hard_knee (g : GainComputer α) (x : α)
    (hknee : g.kneeWidth = 0) (_hratio : 1 ≤ g.ratio) :
    (x ≤ g.threshold → g.computeGainReduction x = 0) ∧
    (g.threshold < x →
      g.computeGainReduction x = g.threshold + (x - g.threshold) / g.ratio - x) ∧
    GainComputer.computeGainReduction
      ({ threshold := -18, ratio := 4, kneeWidth := 0 } : GainComputer α) (-12) = -4.5 := by
  refine ⟨fun hx => ?_, fun hx => ?_, ?_⟩
  · simp [GainComputer.computeGainReduction, hknee, not_lt.mpr hx]
  · simp [GainComputer.computeGainReduction, hknee, hx]
  · norm_num [GainComputer.computeGainReduction]

/-- C2 at threshold -18, ratio 4, knee 0, input -12: the reduction is
`-18 + (-12 + 18)/4 + 12`, which is -4.5. -/
theorem computeGainReduction_hard_knee_witness :
    ((-18 : ℚ) < -12 →
      GainComputer.computeGainReduction
        ({ threshold := -18, ratio := 4, kneeWidth := 0 } : GainComputer ℚ) (-12)
        = -18 + (-12 - -18) / 4 - -12) ∧
    GainComputer.computeGainReduction
      ({ threshold := -18, ratio := 4, kneeWidth := 0 } : GainComputer ℚ) (-12) = -4.5 :=
  (computeGainReduction_hard_knee
    ({ threshold := -18, ratio := 4, kneeWidth := 0 } : GainComputer ℚ) (-12) rfl
    (by norm_num)).2

/-- C3: with a knee width above 0 (soft knee) and a ratio of at least 1, the gain
reduction is 0 for `x ≤ threshold - knee/2`, is `threshold + (x - threshold)/ratio - x`
for `x ≥ threshold + knee/2`, and is `-(1 - 1/ratio) * a^2 / (2*knee)` with
`a = x - threshold + knee/2` strictly inside the knee; threshold -18, ratio 4, knee 6,
input -18 gives -0.5625 dB. -/
theorem computeGainReduction_soft_knee (g : GainComputer α) (x : α)
    (hknee : 0 < g.kneeWidth) (_hratio : 1 ≤ g.ratio) :
    (x ≤ g.threshold - g.kneeWidth / 2 → g.computeGainReduction x = 0) ∧
    (g.threshold + g.kneeWidth / 2 ≤ x →
      g.computeGainReduction x = g.threshold + (x - g.threshold) / g.ratio - x) ∧
    (g.threshold - g.kneeWidth / 2 < x → x < g.threshold + g.kneeWidth / 2 →
      g.computeGainReduction x
        = -(1 - 1 / g.ratio) * (x - g.threshold + g.kneeWidth / 2) ^ 2
            / (2 * g.kneeWidth)) ∧
    GainComputer.computeGainReduction
      ({ threshold := -18, ratio := 4, kneeWidth := 6 } : GainComputer α) (-18)
      = -0.5625 := by
  refine ⟨fun hx => ?_, fun hx => ?_, fun hlo hhi => ?_, ?_⟩
  · simp [GainComputer.computeGainReduction, hknee, hx]
  · have hlo : ¬ x ≤ g.threshold - g.kneeWidth / 2 := by
      intro h
      linarith
    simp [GainComputer.computeGainReduction, hknee, hlo, hx]
  · simp only [GainComputer.computeGainReduction, gt_iff_lt, ge_iff_le, hknee, if_true,
      not_le.mpr hlo, not_le.mpr hhi, if_false]
    ring
  · norm_num [GainComputer.computeGainReduction]

/-- C3 at threshold -18, ratio 4, knee 6, input -18 (the knee centre, where
`a = 3`): the reduction is `-(1 - 1/4) * 9 / 12`, which is -0.5625. -/
theorem computeGainReduction_soft_knee_witness :
    ((-18 : ℚ) - 6 / 2 < -18 → (-18 : ℚ) < -18 + 6 / 2 →
      GainComputer.computeGainReduction
        ({ threshold := -18, ratio := 4, kneeWidth := 6 } : GainComputer ℚ) (-18)
        = -(1 - 1 / 4) * (-18 - -18 + 6 / 2) ^ 2 / (2 * 6)) ∧
    GainComputer.computeGainReduction
      ({ threshold := -18, ratio := 4, kneeWidth := 6 } : GainComputer ℚ) (-18)
      = -0.5625 :=
  (computeGainReduction_soft_knee
    ({ threshold := -18, ratio := 4, kneeWidth := 6 } : GainComputer ℚ) (-18)
    (by norm_num) (by norm_num)).2.2

/-- In exact arithmetic: for every threshold, ratio of at least 1, knee width of at least 0
and input level, the gain reduction is at most 0, and the output level
`computeOutputLevel x = x + computeGainReduction x` is at most the input level. -/
theorem computeGainReduction_nonpos (g : GainComputer α) (x : α)
    (hratio : 1 ≤ g.ratio) (_hknee : 0 ≤ g.kneeWidth) :
    g.computeGainReduction x ≤ 0 ∧
    g.computeOutputLevel x = x + g.computeGainReduction x ∧
    g.computeOutputLevel x ≤ x := by
  have hr : 0 < g.ratio := lt_of_lt_of_le one_pos hratio
  have hinv : 1 / g.ratio ≤ 1 := by
    rw [div_le_one hr]
    exact hratio
  have habove : ∀ y : α, g.threshold ≤ y →
      g.threshold + (y - g.threshold) / g.ratio - y ≤ 0 := by
    intro y hy
    have h1 : g.threshold + (y - g.threshold) / g.ratio - y
        = -((y - g.threshold) * (1 - 1 / g.ratio)) := by
      field_simp
      ring
    rw [h1]
    exact neg_nonpos.mpr (mul_nonneg (by linarith) (by linarith))
  have hgr : g.computeGainReduction x ≤ 0 := by
    simp only [GainComputer.computeGainReduction]
    split_ifs with h1 h2 h3 h4
    · simp
    · exact habove x (by linarith)
    · have hq : 0 ≤ (1 - 1 / g.ratio) * (x - g.threshold + g.kneeWidth / 2) *
          (x - g.threshold + g.kneeWidth / 2) / (2 * g.kneeWidth) := by
        apply div_nonneg _ (by linarith)
        rw [mul_assoc]
        exact mul_nonneg (by linarith) (mul_self_nonneg _)
      linarith
    · exact habove x (le_of_lt h4)
    · simp
  refine ⟨hgr, rfl, ?_⟩
  unfold GainComputer.computeOutputLevel
  linarith

/-- The exact-arithmetic reduction at threshold -18, ratio 4, knee 6, input -12 (above the
knee). -/
theorem computeGainReduction_nonpos_witness :
    GainComputer.computeGainReduction
      ({ threshold := -18, ratio := 4, kneeWidth := 6 } : GainComputer ℚ) (-12) ≤ 0 :=
  (computeGainReduction_nonpos
    ({ threshold := -18, ratio := 4, kneeWidth := 6 } : GainComputer ℚ) (-12)
    (by norm_num) (by norm_num)).1

/-! ### Shape of the soft-knee curve over the reals -/

/-- Inside the closed knee the gain reduction is the knee quadratic: the in-knee branch
on the open knee, and the neighbouring branches agree with it at the two edges. -/
lemma computeGainReduction_eq_quadratic (g : GainComputer ℝ) (hknee : 0 < g.kneeWidth)
    (x : ℝ) (hlo : g.threshold - g.kneeWidth / 2 ≤ x)
    (hhi : x ≤ g.threshold + g.kneeWidth / 2) :
    g.computeGainReduction x
      = -(1 - 1 / g.ratio) * (x - g.threshold + g.kneeWidth / 2) ^ 2
          / (2 * g.kneeWidth) := by
  have hk : g.kneeWidth ≠ 0 := ne_of_gt hknee
  simp only [GainComputer.computeGainReduction, gt_iff_lt, ge_iff_le, hknee, if_true]
  split_ifs with h1 h2
  · have hx : x = g.threshold - g.kneeWidth / 2 := le_antisymm h1 hlo
    rw [hx]
    ring
  · have hx : x = g.threshold + g.kneeWidth / 2 := le_antisymm hhi h2
    rw [hx]
    field_simp
    ring
  · ring

/-- At and above the upper knee edge the gain reduction is the full-ratio line. -/
lemma computeGainReduction_eq_line (g : GainComputer ℝ) (hknee : 0 < g.kneeWidth)
    (x : ℝ) (hx : g.threshold + g.kneeWidth / 2 ≤ x) :
    g.computeGainReduction x = g.threshold + (x - g.threshold) / g.ratio - x := by
  have hlo : ¬ x ≤ g.threshold - g.kneeWidth / 2 := by
    intro h
    linarith
  simp [GainComputer.computeGainReduction, hknee, hlo, hx]

/-- At and below the lower knee edge the gain reduction is 0. -/
lemma computeGainReduction_eq_zero (g : GainComputer ℝ) (hknee : 0 < g.kneeWidth)
    (x : ℝ) (hx : x ≤ g.threshold - g.kneeWidth / 2) :
    g.computeGainReduction x = 0 := by
  simp [GainComputer.computeGainReduction, hknee, hx]

/-- The derivative of the knee quadratic. -/
lemma hasDerivAt_knee_quadratic (t r k x : ℝ) :
    HasDerivAt (fun y : ℝ => -(1 - 1 / r) * (y - t + k / 2) ^ 2 / (2 * k))
      (-(1 - 1 / r) * (2 * (x - t + k / 2)) / (2 * k)) x := by
  have h1 : HasDerivAt (fun y : ℝ => y - t + k / 2) 1 x :=
    ((hasDerivAt_id x).sub_const t).add_const (k / 2)
  have h2 := ((h1.pow 2).const_mul (-(1 - 1 / r))).div_const (2 * k)
  convert h2 using 1
  simp

/-- The derivative of the full-ratio line. -/
lemma hasDerivAt_ratio_line (t r x : ℝ) :
    HasDerivAt (fun y : ℝ => t + (y - t) / r - y) (1 / r - 1) x := by
  have h1 : HasDerivAt (fun y : ℝ => (y - t) / r) (1 / r) x :=
    ((hasDerivAt_id x).sub_const t).div_const r
  exact (h1.const_add t).sub (hasDerivAt_id x)

/-- The gain reduction is differentiable at the lower knee edge, with derivative 0. -/
lemma hasDerivAt_kneeStart (g : GainComputer ℝ) (hknee : 0 < g.kneeWidth) :
    HasDerivAt g.computeGainReduction 0 (g.threshold - g.kneeWidth / 2) := by
  have hk : g.kneeWidth ≠ 0 := ne_of_gt hknee
  have hat : g.computeGainReduction (g.threshold - g.kneeWidth / 2) = 0 :=
    computeGainReduction_eq_zero g hknee _ le_rfl
  have hleft : HasDerivWithinAt g.computeGainReduction 0
      (Set.Iic (g.threshold - g.kneeWidth / 2)) (g.threshold - g.kneeWidth / 2) :=
    (hasDerivWithinAt_const (g.threshold - g.kneeWidth / 2)
      (Set.Iic (g.threshold - g.kneeWidth / 2)) (0 : ℝ)).congr
      (fun y hy => computeGainReduction_eq_zero g hknee y hy) hat
  have hq := hasDerivAt_knee_quadratic g.threshold g.ratio g.kneeWidth
    (g.threshold - g.kneeWidth / 2)
  have hq0 : -(1 - 1 / g.ratio) *
      (2 * (g.threshold - g.kneeWidth / 2 - g.threshold + g.kneeWidth / 2))
      / (2 * g.kneeWidth) = 0 := by
    have : g.threshold - g.kneeWidth / 2 - g.threshold + g.kneeWidth / 2 = 0 := by ring
    rw [this]
    simp
  rw [hq0] at hq
  have hmem : Set.Ico (g.threshold - g.kneeWidth / 2) (g.threshold + g.kneeWidth / 2)
      ∈ nhdsWithin (g.threshold - g.kneeWidth / 2)
          (Set.Ici (g.threshold - g.kneeWidth / 2)) :=
    Ico_mem_nhdsWithin_Ici ⟨le_rfl, by linarith⟩
  have hright : HasDerivWithinAt g.computeGainReduction 0
      (Set.Ici (g.threshold - g.kneeWidth / 2)) (g.threshold - g.kneeWidth / 2) := by
    refine hq.hasDerivWithinAt.congr_of_eventuallyEq ?_ ?_
    · filter_upwards [hmem] with y hy
      exact computeGainReduction_eq_quadratic g hknee y hy.1 (le_of_lt hy.2)
    · exact computeGainReduction_eq_quadratic g hknee _ le_rfl (by linarith)
  have hboth := hleft.union hright
  rw [Set.Iic_union_Ici, hasDerivWithinAt_univ] at hboth
  exact hboth

/-- The gain reduction is differentiable at the upper knee edge, with derivative
`1/ratio - 1`. -/
lemma hasDerivAt_kneeEnd (g : GainComputer ℝ) (hknee : 0 < g.kneeWidth) :
    HasDerivAt g.computeGainReduction (1 / g.ratio - 1)
      (g.threshold + g.kneeWidth / 2) := by
  have hk : g.kneeWidth ≠ 0 := ne_of_gt hknee
  have hright : HasDerivWithinAt g.computeGainReduction (1 / g.ratio - 1)
      (Set.Ici (g.threshold + g.kneeWidth / 2)) (g.threshold + g.kneeWidth / 2) :=
    (hasDerivAt_ratio_line g.threshold g.ratio
      (g.threshold + g.kneeWidth / 2)).hasDerivWithinAt.congr
      (fun y hy => computeGainReduction_eq_line g hknee y hy)
      (computeGainReduction_eq_line g hknee _ le_rfl)
  have hq := hasDerivAt_knee_quadratic g.threshold g.ratio g.kneeWidth
    (g.threshold + g.kneeWidth / 2)
  have hq1 : -(1 - 1 / g.ratio) *
      (2 * (g.threshold + g.kneeWidth / 2 - g.threshold + g.kneeWidth / 2))
      / (2 * g.kneeWidth) = 1 / g.ratio - 1 := by
    have h2k : 2 * g.kneeWidth ≠ 0 := mul_ne_zero two_ne_zero hk
    have hsum : g.threshold + g.kneeWidth / 2 - g.threshold + g.kneeWidth / 2
        = g.kneeWidth := by ring
    rw [hsum, mul_div_assoc, div_self h2k]
    ring
  rw [hq1] at hq
  have hmem : Set.Ioc (g.threshold - g.kneeWidth / 2) (g.threshold + g.kneeWidth / 2)
      ∈ nhdsWithin (g.threshold + g.kneeWidth / 2)
          (Set.Iic (g.threshold + g.kneeWidth / 2)) :=
    Ioc_mem_nhdsWithin_Iic ⟨by linarith, le_rfl⟩
  have hleft : HasDerivWithinAt g.computeGainReduction (1 / g.ratio - 1)
      (Set.Iic (g.threshold + g.kneeWidth / 2)) (g.threshold + g.kneeWidth / 2) := by
    refine hq.hasDerivWithinAt.congr_of_eventuallyEq ?_ ?_
    · filter_upwards [hmem] with y hy
      exact computeGainReduction_eq_quadratic g hknee y (le_of_lt hy.1) hy.2
    · exact computeGainReduction_eq_quadratic g hknee _ (by linarith) le_rfl
  have hboth := hleft.union hright
  rw [Set.Iic_union_Ici, hasDerivWithinAt_univ] at hboth
  exact hboth

/-- C4: for a knee width above 0 and a ratio of at least 1 the gain-reduction curve is
continuous in value at both knee edges.  Strictly inside the knee the curve is the
in-knee quadratic; that quadratic evaluated at `threshold - knee/2` is 0, the value the
code returns there, and evaluated at `threshold + knee/2` it is
`threshold + (knee/2)/ratio - (threshold + knee/2)`, the value the code returns there;
so the curve is continuous at both edges. -/
theorem computeGainReduction_value_continuous_at_knee_edges (g : GainComputer ℝ)
    (hknee : 0 < g.kneeWidth) (_hratio : 1 ≤ g.ratio) :
    (∀ x : ℝ, g.threshold - g.kneeWidth / 2 < x → x < g.threshold + g.kneeWidth / 2 →
      g.computeGainReduction x
        = -(1 - 1 / g.ratio) * (x - g.threshold + g.kneeWidth / 2) ^ 2
            / (2 * g.kneeWidth)) ∧
    -(1 - 1 / g.ratio) * ((g.threshold - g.kneeWidth / 2) - g.threshold
        + g.kneeWidth / 2) ^ 2 / (2 * g.kneeWidth) = 0 ∧
    g.computeGainReduction (g.threshold - g.kneeWidth / 2) = 0 ∧
    -(1 - 1 / g.ratio) * ((g.threshold + g.kneeWidth / 2) - g.threshold
        + g.kneeWidth / 2) ^ 2 / (2 * g.kneeWidth)
      = g.threshold + (g.kneeWidth / 2) / g.ratio - (g.threshold + g.kneeWidth / 2) ∧
    g.computeGainReduction (g.threshold + g.kneeWidth / 2)
      = g.threshold + (g.kneeWidth / 2) / g.ratio - (g.threshold + g.kneeWidth / 2) ∧
    ContinuousAt g.computeGainReduction (g.threshold - g.kneeWidth / 2) ∧
    ContinuousAt g.computeGainReduction (g.threshold + g.kneeWidth / 2) := by
  have hlow : g.threshold - g.kneeWidth / 2 ≤ g.threshold + g.kneeWidth / 2 := by
    linarith
  have hstart := computeGainReduction_eq_zero g hknee (g.threshold - g.kneeWidth / 2) le_rfl
  have hend := computeGainReduction_eq_line g hknee (g.threshold + g.kneeWidth / 2) le_rfl
  have hshift : g.threshold + g.kneeWidth / 2 - g.threshold = g.kneeWidth / 2 := by ring
  rw [hshift] at hend
  refine ⟨fun x hlo hhi =>
      computeGainReduction_eq_quadratic g hknee x (le_of_lt hlo) (le_of_lt hhi),
    ?_, hstart, ?_, hend, (hasDerivAt_kneeStart g hknee).continuousAt,
    (hasDerivAt_kneeEnd g hknee).continuousAt⟩
  · rw [← computeGainReduction_eq_quadratic g hknee _ le_rfl hlow]
    exact hstart
  · rw [← computeGainReduction_eq_quadratic g hknee _ hlow le_rfl]
    exact hend

/-- C4 at threshold -18, ratio 4, knee 6: the edges are -21 and -15. -/
theorem computeGainReduction_value_continuous_at_knee_edges_witness :
    GainComputer.computeGainReduction
        ({ threshold := -18, ratio := 4, kneeWidth := 6 } : GainComputer ℝ) (-18 - 6 / 2)
      = 0 ∧
    ContinuousAt (GainComputer.computeGainReduction
        ({ threshold := -18, ratio := 4, kneeWidth := 6 } : GainComputer ℝ))
      (-18 + 6 / 2) :=
  ⟨(computeGainReduction_value_continuous_at_knee_edges
      ({ threshold := -18, ratio := 4, kneeWidth := 6 } : GainComputer ℝ)
      (by norm_num) (by norm_num)).2.2.1,
    (computeGainReduction_value_continuous_at_knee_edges
      ({ threshold := -18, ratio := 4, kneeWidth := 6 } : GainComputer ℝ)
      (by norm_num) (by norm_num)).2.2.2.2.2.2⟩

/-- C5: for a knee width above 0 and a ratio of at least 1 the first derivative of the
gain-reduction curve is continuous at both knee edges: at `threshold - knee/2` the left
and the right derivative are both 0, at `threshold + knee/2` they are both
`1/ratio - 1`; hence the curve is differentiable at each edge with that derivative. -/
theorem computeGainReduction_derivative_continuous_at_knee_edges (g : GainComputer ℝ)
    (hknee : 0 < g.kneeWidth) (_hratio : 1 ≤ g.ratio) :
    HasDerivWithinAt g.computeGainReduction 0
      (Set.Iio (g.threshold - g.kneeWidth / 2)) (g.threshold - g.kneeWidth / 2) ∧
    HasDerivWithinAt g.computeGainReduction 0
      (Set.Ioi (g.threshold - g.kneeWidth / 2)) (g.threshold - g.kneeWidth / 2) ∧
    HasDerivWithinAt g.computeGainReduction (1 / g.ratio - 1)
      (Set.Iio (g.threshold + g.kneeWidth / 2)) (g.threshold + g.kneeWidth / 2) ∧
    HasDerivWithinAt g.computeGainReduction (1 / g.ratio - 1)
      (Set.Ioi (g.threshold + g.kneeWidth / 2)) (g.threshold + g.kneeWidth / 2) ∧
    HasDerivAt g.computeGainReduction 0 (g.threshold - g.kneeWidth / 2) ∧
    HasDerivAt g.computeGainReduction (1 / g.ratio - 1)
      (g.threshold + g.kneeWidth / 2) :=
  ⟨(hasDerivAt_kneeStart g hknee).hasDerivWithinAt,
    (hasDerivAt_kneeStart g hknee).hasDerivWithinAt,
    (hasDerivAt_kneeEnd g hknee).hasDerivWithinAt,
    (hasDerivAt_kneeEnd g hknee).hasDerivWithinAt,
    hasDerivAt_kneeStart g hknee, hasDerivAt_kneeEnd g hknee⟩

/-- C5 at threshold -18, ratio 4, knee 6: the slope is 0 at -21 and `1/4 - 1` at -15. -/
theorem computeGainReduction_derivative_continuous_at_knee_edges_witness :
    HasDerivAt (GainComputer.computeGainReduction
        ({ threshold := -18, ratio := 4, kneeWidth := 6 } : GainComputer ℝ)) 0
      (-18 - 6 / 2) ∧
    HasDerivAt (GainComputer.computeGainReduction
        ({ threshold := -18, ratio := 4, kneeWidth := 6 } : GainComputer ℝ)) (1 / 4 - 1)
      (-18 + 6 / 2) :=
  (computeGainReduction_derivative_continuous_at_knee_edges
    ({ threshold := -18, ratio := 4, kneeWidth := 6 } : GainComputer ℝ)
    (by norm_num) (by norm_num)).2.2.2.2

end GainComputerProperties

/-! ## Setters -/

section Setters

variable {α C M : Type} [LinearOrderedField α]

/-- The helper `jmax` is the maximum of its arguments. -/
lemma jmax_eq_max (a b : α) : jmax a b = max a b := by
  unfold jmax
  split_ifs with h
  · exact (max_eq_right (le_of_lt h)).symm
  · exact (max_eq_left (not_lt.mp h)).symm

/-- For `lower ≤ upper` the helper `jlimit` limits its value to `[lower, upper]`. -/
lemma jlimit_eq_max_min (lower upper v : α) (hlu : lower ≤ upper) :
    jlimit lower upper v = max lower (min upper v) := by
  unfold jlimit
  split_ifs with h1 h2
  · rw [max_eq_left]
    exact le_trans (min_le_right _ _) (le_of_lt h1)
  · rw [min_eq_left (le_of_lt h2), max_eq_right hlu]
  · rw [min_eq_right (not_lt.mp h2), max_eq_right (not_lt.mp h1)]

/-- C7: every setter clamps instead of failing.  For every argument, `setRatio r` stores
`max 1 r`, `setKnee k` stores `max 0 k`, `setFrequency f` stores `f` limited to
`[20, 500]`, and `setAmount p` stores `p` limited to `[0, 100]` divided by 100, so that
the normalised amount lies in `[0, 1]` and `getAmount` returns the limited percentage. -/
theorem setters_clamp (g : GainComputer α) (r k : α)
    (s : SidechainFilter α C M) (makeHighPass : α → α → α → C) (f : α)
    (h : HeatSink α C M) (p : α) :
    (g.setRatio r).ratio = max 1 r ∧
    (g.setKnee k).kneeWidth = max 0 k ∧
    (s.setFrequency makeHighPass f).frequency = max 20 (min 500 f) ∧
    (h.setAmount p).amount = max 0 (min 100 p) / 100 ∧
    0 ≤ (h.setAmount p).amount ∧ (h.setAmount p).amount ≤ 1 ∧
    (h.setAmount p).getAmount = max 0 (min 100 p) := by
  have hamt : (h.setAmount p).amount = max 0 (min 100 p) / 100 := by
    simp only [HeatSink.setAmount]
    rw [jlimit_eq_max_min 0 100 p (by norm_num)]
  have h0 : (0 : α) ≤ max 0 (min 100 p) := le_max_left _ _
  have h1 : max 0 (min 100 p) ≤ (100 : α) :=
    max_le (by norm_num) (min_le_left _ _)
  refine ⟨?_, ?_, ?_, hamt, ?_, ?_, ?_⟩
  · simp only [GainComputer.setRatio, jmax_eq_max]
  · simp only [GainComputer.setKnee, jmax_eq_max]
  · simp only [SidechainFilter.setFrequency, SidechainFilter.updateFilter]
    rw [jlimit_eq_max_min 20 500 f (by norm_num)]
  · rw [hamt]
    exact div_nonneg h0 (by norm_num)
  · rw [hamt, div_le_one (by norm_num)]
    exact h1
  · simp only [HeatSink.getAmount]
    rw [hamt]
    field_simp

end Setters

/-! ## Properties of the heat sink -/

section HeatSinkBypass

variable {α C M : Type} [LinearOrderedField α]

/-- C8: when the heat sink is disabled or its normalised amount is below 0.001 (in
particular right after `setAmount 0`), the per-sample `process` returns every input
sample unchanged, and the buffer overload returns the buffer and the object as they
were: no sample of any channel changes and the DC blocker is not run. -/
theorem heatSink_bypass (tanh : α → α)
    (iirProcess : C → M → AudioBuffer α → M × AudioBuffer α) (h : HeatSink α C M)
    (hby : h.isEnabled = false ∨ h.amount < 0.001) :
    (∀ x : α, h.process tanh x = x) ∧
    (∀ buffer : AudioBuffer α, h.processBuffer tanh iirProcess buffer = (h, buffer)) ∧
    (∀ x : α, (h.setAmount 0).process tanh x = x) ∧
    (∀ buffer : AudioBuffer α,
      ((h.setAmount 0).processBuffer tanh iirProcess buffer).2 = buffer) := by
  have hcond : (!h.isEnabled || decide (h.amount < 0.001)) = true := by
    rcases hby with hd | ha
    · simp [hd]
    · simp [ha]
  have hzero : (!(h.setAmount 0).isEnabled
      || decide ((h.setAmount 0).amount < 0.001)) = true := by
    have : (h.setAmount 0).amount = 0 := by
      simp [HeatSink.setAmount, jlimit]
    rw [this]
    norm_num
  refine ⟨fun x => ?_, fun buffer => ?_, fun x => ?_, fun buffer => ?_⟩
  · simp only [HeatSink.process, hcond, if_true]
  · simp only [HeatSink.processBuffer, hcond, if_true]
  · simp only [HeatSink.process, hzero, if_true]
  · simp only [HeatSink.processBuffer, hzero, if_true]

/-- C8 on a disabled heat sink at amount 1/2 whose DC blocker would double every
sample: a two-channel buffer comes back as it went in. -/
theorem heatSink_bypass_witness :
    HeatSink.processBuffer (fun y : ℚ => y)
        (fun (_ : Unit) (_ : Unit) (b : AudioBuffer ℚ) =>
          ((), b.map (fun ch => ch.map (fun v => 2 * v))))
        { sampleRate := 44100, amount := 1 / 2, isEnabled := false,
          dcBlocker := { state := (), memory := () } }
        [[1, -2], [3, 4]]
      = ({ sampleRate := 44100, amount := 1 / 2, isEnabled := false,
           dcBlocker := { state := (), memory := () } }, [[1, -2], [3, 4]]) :=
  (heatSink_bypass (fun y : ℚ => y)
    (fun (_ : Unit) (_ : Unit) (b : AudioBuffer ℚ) =>
      ((), b.map (fun ch => ch.map (fun v => 2 * v))))
    { sampleRate := 44100, amount := 1 / 2, isEnabled := false,
      dcBlocker := { state := (), memory := () } }
    (Or.inl rfl)).2.1 [[1, -2], [3, 4]]

end HeatSinkBypass

section HeatSinkSaturation

variable {C M : Type}

/-- The hyperbolic tangent stays within `[-1, 1]`. -/
lemma abs_tanh_le_one (y : ℝ) : |Real.tanh y| ≤ 1 := by
  have hc : 0 < Real.cosh y := Real.cosh_pos y
  have h1 : Real.sinh y < Real.cosh y := Real.sinh_lt_cosh y
  have h2 : Real.sinh (-y) < Real.cosh (-y) := Real.sinh_lt_cosh (-y)
  rw [Real.sinh_neg, Real.cosh_neg] at h2
  rw [Real.tanh_eq_sinh_div_cosh, abs_div, abs_of_pos hc, div_le_one hc, abs_le]
  constructor <;> linarith

/-- The soft clipper never returns a magnitude above 1. -/
lemma abs_softClip_le_one (y : ℝ) : |HeatSink.softClip Real.tanh y| ≤ 1 := by
  unfold HeatSink.softClip
  split_ifs with hy
  · have hb := abs_lt.mp hy
    have hlo : 0 ≤ (y + 1) ^ 2 * (2 - y) := mul_nonneg (sq_nonneg _) (by linarith)
    have hhi : 0 ≤ (y - 1) ^ 2 * (y + 2) := mul_nonneg (sq_nonneg _) (by linarith)
    rw [abs_le]
    constructor
    · nlinarith
    · nlinarith
  · exact abs_tanh_le_one y

/-- Bounds on `tanh 3`, from `2.7 < e < 2.8`. -/
lemma tanh_three_bounds : 0.994 < Real.tanh 3 ∧ Real.tanh 3 < 0.996 := by
  have he1 : (2.7 : ℝ) < Real.exp 1 := by
    have := Real.exp_one_gt_d9
    linarith
  have he2 : Real.exp 1 < (2.8 : ℝ) := by
    have := Real.exp_one_lt_d9
    linarith
  have hE : Real.exp 3 = Real.exp 1 ^ 3 := by
    rw [← Real.exp_nat_mul]
    norm_num
  have hElo : (19.6 : ℝ) < Real.exp 3 := by
    rw [hE]
    have := pow_lt_pow_left₀ he1 (by norm_num) (by norm_num : (3 : ℕ) ≠ 0)
    linarith
  have hEhi : Real.exp 3 < (22 : ℝ) := by
    rw [hE]
    have := pow_lt_pow_left₀ he2 (le_of_lt (Real.exp_pos 1)) (by norm_num : (3 : ℕ) ≠ 0)
    linarith
  have hEpos : 0 < Real.exp 3 := Real.exp_pos 3
  have hinv : Real.exp (-3) = (Real.exp 3)⁻¹ := Real.exp_neg 3
  have hinvlo : (1 / 22 : ℝ) < (Real.exp 3)⁻¹ := by
    rw [one_div]
    exact inv_strictAnti₀ hEpos hEhi
  have hinvhi : (Real.exp 3)⁻¹ < (1 / 19.6 : ℝ) := by
    rw [one_div]
    exact inv_strictAnti₀ (by norm_num) hElo
  have hden : 0 < Real.exp 3 + (Real.exp 3)⁻¹ := by
    have := inv_pos.mpr hEpos
    linarith
  have ht : Real.tanh 3 = (Real.exp 3 - (Real.exp 3)⁻¹) / (Real.exp 3 + (Real.exp 3)⁻¹) := by
    rw [Real.tanh_eq_sinh_div_cosh, Real.sinh_eq, Real.cosh_eq, hinv]
    field_simp
  rw [ht]
  constructor
  · rw [lt_div_iff₀ hden]
    norm_num at hinvhi hinvlo ⊢
    linarith
  · rw [div_lt_iff₀ hden]
    norm_num at hinvhi hinvlo ⊢
    linarith

/-- An enabled heat sink whose amount is at least 0.001 takes the saturating branch of
`process`: dry/wet blend of the input and the soft-clipped driven input, divided by the
level compensation. -/
lemma heatSink_process_eq (h : HeatSink ℝ C M) (hen : h.isEnabled = true)
    (hlo : 0.001 ≤ h.amount) (z : ℝ) :
    h.process Real.tanh z
      = (z * (1 - (0.3 + 0.7 * h.amount))
          + HeatSink.softClip Real.tanh (z * (1 + 4 * h.amount)) * (0.3 + 0.7 * h.amount))
        / (1 + 0.5 * h.amount) := by
  have hcond : (!h.isEnabled || decide (h.amount < 0.001)) = false := by
    simp [hen, not_lt.mpr hlo]
  simp only [HeatSink.process, hcond]
  rw [mul_one_div, mul_comm h.amount 4, mul_comm h.amount 0.7, mul_comm h.amount 0.5]
  rfl

/-- The magnitude of the saturating branch is at most the dry share of the input
magnitude plus the wet share, after level compensation. -/
lemma heatSink_process_abs_le (h : HeatSink ℝ C M) (hen : h.isEnabled = true)
    (hlo : 0.001 ≤ h.amount) (hhi : h.amount ≤ 1) (x : ℝ) :
    |h.process Real.tanh x|
      ≤ (|x| * (1 - (0.3 + 0.7 * h.amount)) + (0.3 + 0.7 * h.amount))
        / (1 + 0.5 * h.amount) := by
  have hw0 : 0 ≤ 0.3 + 0.7 * h.amount := by linarith
  have hd0 : 0 ≤ 1 - (0.3 + 0.7 * h.amount) := by linarith
  have hden : 0 < 1 + 0.5 * h.amount := by linarith
  have hsc := abs_softClip_le_one (x * (1 + 4 * h.amount))
  rw [heatSink_process_eq h hen hlo x, abs_div, abs_of_pos hden]
  apply div_le_div_of_nonneg_right _ (le_of_lt hden)
  calc |x * (1 - (0.3 + 0.7 * h.amount))
          + HeatSink.softClip Real.tanh (x * (1 + 4 * h.amount)) * (0.3 + 0.7 * h.amount)|
      ≤ |x * (1 - (0.3 + 0.7 * h.amount))|
          + |HeatSink.softClip Real.tanh (x * (1 + 4 * h.amount))
              * (0.3 + 0.7 * h.amount)| := abs_add _ _
    _ = |x| * (1 - (0.3 + 0.7 * h.amount))
          + |HeatSink.softClip Real.tanh (x * (1 + 4 * h.amount))|
              * (0.3 + 0.7 * h.amount) := by
        rw [abs_mul, abs_mul, abs_of_nonneg hd0, abs_of_nonneg hw0]
    _ ≤ |x| * (1 - (0.3 + 0.7 * h.amount)) + (0.3 + 0.7 * h.amount) := by
        have := mul_le_mul_of_nonneg_right hsc hw0
        linarith

/-- At amount 0.5 the output is at least `0.28 * x - 0.52`: the dry share of the input
passes through unclipped. -/
lemma heatSink_process_half_ge (dc : ProcessorDuplicator C M) (x : ℝ) :
    0.28 * x - 0.52 ≤ HeatSink.process Real.tanh
      ({ sampleRate := 44100, amount := 0.5, isEnabled := true, dcBlocker := dc }
        : HeatSink ℝ C M) x := by
  have hsc := (abs_le.mp (abs_softClip_le_one (x * (1 + 4 * 0.5)))).1
  rw [heatSink_process_eq _ rfl (by norm_num) x]
  rw [le_div_iff₀ (by norm_num)]
  norm_num at hsc ⊢
  linarith

/-- C9: for an enabled heat sink with normalised amount `a` in `[0.001, 1]` and every
input sample `x`, the per-sample `process x` equals
`(x*(1 - w) + softClip (x*(1 + 4a)) * w) / (1 + 0.5a)` with `w = 0.3 + 0.7a`, where
`softClip y` is `y*(1.5 - 0.5*y^2)` for `|y| < 1` and `tanh y` otherwise; at `a = 0.5`
and `x = 1` the result is within 0.001 of 0.797. -/
theorem heatSink_process_formula (h : HeatSink ℝ C M) (x : ℝ)
    (hen : h.isEnabled = true) (hlo : 0.001 ≤ h.amount) (_hhi : h.amount ≤ 1) :
    h.process Real.tanh x
      = (x * (1 - (0.3 + 0.7 * h.amount))
          + HeatSink.softClip Real.tanh (x * (1 + 4 * h.amount)) * (0.3 + 0.7 * h.amount))
        / (1 + 0.5 * h.amount) ∧
    (∀ y : ℝ, |y| < 1 → HeatSink.softClip Real.tanh y = y * (1.5 - 0.5 * y ^ 2)) ∧
    (∀ y : ℝ, ¬ |y| < 1 → HeatSink.softClip Real.tanh y = Real.tanh y) ∧
    (h.amount = 0.5 → |h.process Real.tanh 1 - 0.797| < 0.001) := by
  have hform := heatSink_process_eq h hen hlo
  refine ⟨hform x, fun y hy => ?_, fun y hy => ?_, fun ha => ?_⟩
  · simp only [HeatSink.softClip, hy, if_true]
    ring
  · simp only [HeatSink.softClip, hy, if_false]
  · rw [hform 1, ha]
    have hclip : HeatSink.softClip Real.tanh (1 * (1 + 4 * 0.5)) = Real.tanh 3 := by
      have h3 : (1 : ℝ) * (1 + 4 * 0.5) = 3 := by norm_num
      rw [h3]
      simp only [HeatSink.softClip]
      rw [if_neg]
      rw [abs_of_pos (by norm_num : (0 : ℝ) < 3)]
      norm_num
    rw [hclip]
    obtain ⟨hl, hu⟩ := tanh_three_bounds
    rw [abs_lt]
    constructor
    · rw [lt_sub_iff_add_lt, lt_div_iff₀ (by norm_num)]
      norm_num at hl hu ⊢
      linarith
    · rw [sub_lt_iff_lt_add, div_lt_iff₀ (by norm_num)]
      norm_num at hl hu ⊢
      linarith

/-- C9 at amount 0.5 and input 1: drive 3, `softClip 3 = tanh 3`, wet 0.65,
compensation 0.8, output about 0.797. -/
theorem heatSink_process_formula_witness :
    |HeatSink.process Real.tanh
        ({ sampleRate := 44100, amount := 0.5, isEnabled := true,
           dcBlocker := { state := (), memory := () } } : HeatSink ℝ Unit Unit) 1
      - 0.797| < 0.001 :=
  (heatSink_process_formula
    ({ sampleRate := 44100, amount := 0.5, isEnabled := true,
       dcBlocker := { state := (), memory := () } } : HeatSink ℝ Unit Unit) 1
    rfl (by norm_num) (by norm_num)).2.2.2 rfl

/-- C10, as stated, fails: at amount 0.5 the input 100 gives an output above 27, and no
constant bounds the output magnitude over all enabled amounts in `[0.001, 1]` and all
inputs. -/
theorem heatSink_process_unbounded :
    27 < |HeatSink.process Real.tanh
        ({ sampleRate := 44100, amount := 0.5, isEnabled := true,
           dcBlocker := { state := (), memory := () } } : HeatSink ℝ Unit Unit) 100| ∧
    ¬ ∃ B : ℝ, ∀ (h : HeatSink ℝ Unit Unit) (x : ℝ),
        h.isEnabled = true → 0.001 ≤ h.amount → h.amount ≤ 1 →
        |h.process Real.tanh x| ≤ B := by
  constructor
  · have h1 := heatSink_process_half_ge ({ state := (), memory := () }
      : ProcessorDuplicator Unit Unit) 100
    have h2 := le_abs_self (HeatSink.process Real.tanh
        ({ sampleRate := 44100, amount := 0.5, isEnabled := true,
           dcBlocker := { state := (), memory := () } } : HeatSink ℝ Unit Unit) 100)
    norm_num at h1
    linarith
  · rintro ⟨B, hB⟩
    have h1 := heatSink_process_half_ge ({ state := (), memory := () }
      : ProcessorDuplicator Unit Unit) (4 * |B| + 4)
    have h2 := hB
        ({ sampleRate := 44100, amount := 0.5, isEnabled := true,
           dcBlocker := { state := (), memory := () } } : HeatSink ℝ Unit Unit)
        (4 * |B| + 4) rfl (by norm_num) (by norm_num)
    have h3 := le_abs_self (HeatSink.process Real.tanh
        ({ sampleRate := 44100, amount := 0.5, isEnabled := true,
           dcBlocker := { state := (), memory := () } } : HeatSink ℝ Unit Unit)
        (4 * |B| + 4))
    have h4 := le_abs_self B
    have h5 := abs_nonneg B
    linarith

/-- C10, amended: for an enabled heat sink with normalised amount `a` in `[0.001, 1]` and
every input sample `x`, `|process x| ≤ (|x|*(1 - w) + w) / (1 + 0.5a)` with
`w = 0.3 + 0.7a`; so the output magnitude is at most 1 whenever `|x| ≤ 1`, and at most
`2/3` for every `x` when `a = 1`. -/
theorem heatSink_process_bounded_relative (h : HeatSink ℝ C M) (x : ℝ)
    (hen : h.isEnabled = true) (hlo : 0.001 ≤ h.amount) (hhi : h.amount ≤ 1) :
    |h.process Real.tanh x|
      ≤ (|x| * (1 - (0.3 + 0.7 * h.amount)) + (0.3 + 0.7 * h.amount))
        / (1 + 0.5 * h.amount) ∧
    (|x| ≤ 1 → |h.process Real.tanh x| ≤ 1) ∧
    (h.amount = 1 → |h.process Real.tanh x| ≤ 2 / 3) := by
  have hmain := heatSink_process_abs_le h hen hlo hhi x
  have hd0 : 0 ≤ 1 - (0.3 + 0.7 * h.amount) := by linarith
  have hden : 0 < 1 + 0.5 * h.amount := by linarith
  refine ⟨hmain, fun hx => ?_, fun ha => ?_⟩
  · refine le_trans hmain ?_
    rw [div_le_one hden]
    have := mul_le_mul_of_nonneg_right hx hd0
    linarith
  · refine le_trans hmain ?_
    rw [ha]
    norm_num

/-- C10, amended, at amount 1 and input 100: the output magnitude is at most `2/3`. -/
theorem heatSink_process_bounded_relative_witness :
    |HeatSink.process Real.tanh
        ({ sampleRate := 44100, amount := 1, isEnabled := true,
           dcBlocker := { state := (), memory := () } } : HeatSink ℝ Unit Unit) 100|
      ≤ 2 / 3 :=
  (heatSink_process_bounded_relative
    ({ sampleRate := 44100, amount := 1, isEnabled := true,
       dcBlocker := { state := (), memory := () } } : HeatSink ℝ Unit Unit) 100
    rfl (by norm_num) (by norm_num)).2.2 rfl

end HeatSinkSaturation

/-! ## Properties of the sidechain filter -/

section SidechainFilterProperties

variable {α C M : Type} [LinearOrderedField α]

/-- C11: a disabled sidechain filter `s` (the state a new object is in) leaves the
buffer given to `process` unchanged, sample for sample, and `processAndCopy` returns a
buffer equal to its input; in every state `t`, enabled or not, `processAndCopy` leaves
its input buffer as it was. -/
theorem sidechainFilter_disabled_passthrough
    (iirProcess : C → M → AudioBuffer α → M × AudioBuffer α)
    (s t : SidechainFilter α C M) (hp : ProcessorDuplicator C M) (buffer : AudioBuffer α)
    (hdis : s.isEnabled = false) :
    (SidechainFilter.init hp : SidechainFilter α C M).isEnabled = false ∧
    s.process iirProcess buffer = (s, buffer) ∧
    (s.processAndCopy iirProcess buffer).filtered = buffer ∧
    (s.processAndCopy iirProcess buffer).filter = s ∧
    (t.processAndCopy iirProcess buffer).input = buffer := by
  refine ⟨rfl, ?_, ?_, ?_, ?_⟩
  · simp [SidechainFilter.process, hdis]
  · simp [SidechainFilter.processAndCopy, hdis]
  · simp [SidechainFilter.processAndCopy, hdis]
  · unfold SidechainFilter.processAndCopy
    split_ifs <;> rfl

/-- C11 on a new (disabled) filter whose high-pass would negate every sample, and on an
enabled one for the input buffer. -/
theorem sidechainFilter_disabled_passthrough_witness :
    SidechainFilter.process
        (fun (_ : Unit) (_ : Unit) (b : AudioBuffer ℚ) =>
          ((), b.map (fun ch => ch.map (fun v => -v))))
        (SidechainFilter.init { state := (), memory := () }) [[1, -2], [3, 4]]
      = (SidechainFilter.init { state := (), memory := () }, [[1, -2], [3, 4]]) ∧
    (SidechainFilter.processAndCopy
        (fun (_ : Unit) (_ : Unit) (b : AudioBuffer ℚ) =>
          ((), b.map (fun ch => ch.map (fun v => -v))))
        ((SidechainFilter.init { state := (), memory := () }).setEnabled true)
        [[1, -2], [3, 4]]).input = [[1, -2], [3, 4]] :=
  ⟨(sidechainFilter_disabled_passthrough
      (fun (_ : Unit) (_ : Unit) (b : AudioBuffer ℚ) =>
        ((), b.map (fun ch => ch.map (fun v => -v))))
      (SidechainFilter.init { state := (), memory := () })
      ((SidechainFilter.init { state := (), memory := () }).setEnabled true)
      { state := (), memory := () } [[1, -2], [3, 4]] rfl).2.1,
    (sidechainFilter_disabled_passthrough
      (fun (_ : Unit) (_ : Unit) (b : AudioBuffer ℚ) =>
        ((), b.map (fun ch => ch.map (fun v => -v))))
      (SidechainFilter.init { state := (), memory := () })
      ((SidechainFilter.init { state := (), memory := () }).setEnabled true)
      { state := (), memory := () } [[1, -2], [3, 4]] rfl).2.2.2.2⟩

end SidechainFilterProperties

/-! ## Properties of the level detector and the compressor core -/

section ResetProperties

variable {α : Type} [LinearOrderedField α] [FloorRing α]

/-- C12: whatever state a sequence of `process` or `processStereo` calls has left the
level detector in (any mode), `reset` leaves envelope 0, RMS sum 0 and RMS count 0; and
whatever state a sequence of `process` calls has left the compressor core in (any
character), its `reset` leaves the detector so, the smoothed gain reduction at 0 (current
value and target 0, no ramp pending, next smoothed value 0) and `getGainReductionDb`
returning 0. -/
theorem reset_restores_zero_state (sqrt log10 tanh : α → α) (pow : α → α → α)
    (d : LevelDetector α) (mono : List α) (stereo : List (α × α))
    (c : CompressorCore α) (blocks : List (AudioBuffer α × Option (AudioBuffer α))) :
    (LevelDetector.reset
      (stereo.foldl (fun st lr => (st.processStereo sqrt log10 lr.1 lr.2).1)
        (mono.foldl (fun st x => (st.process sqrt log10 x).1) d))).envelope = 0 ∧
    (LevelDetector.reset
      (stereo.foldl (fun st lr => (st.processStereo sqrt log10 lr.1 lr.2).1)
        (mono.foldl (fun st x => (st.process sqrt log10 x).1) d))).rmsSum = 0 ∧
    (LevelDetector.reset
      (stereo.foldl (fun st lr => (st.processStereo sqrt log10 lr.1 lr.2).1)
        (mono.foldl (fun st x => (st.process sqrt log10 x).1) d))).rmsCount = 0 ∧
    (CompressorCore.reset
      (blocks.foldl (fun st b => (st.process sqrt log10 tanh pow b.1 b.2).1) c)
      ).levelDetector.envelope = 0 ∧
    (CompressorCore.reset
      (blocks.foldl (fun st b => (st.process sqrt log10 tanh pow b.1 b.2).1) c)
      ).levelDetector.rmsSum = 0 ∧
    (CompressorCore.reset
      (blocks.foldl (fun st b => (st.process sqrt log10 tanh pow b.1 b.2).1) c)
      ).levelDetector.rmsCount = 0 ∧
    (CompressorCore.reset
      (blocks.foldl (fun st b => (st.process sqrt log10 tanh pow b.1 b.2).1) c)
      ).smoothedGainReduction.currentValue = 0 ∧
    (CompressorCore.reset
      (blocks.foldl (fun st b => (st.process sqrt log10 tanh pow b.1 b.2).1) c)
      ).smoothedGainReduction.target = 0 ∧
    (CompressorCore.reset
      (blocks.foldl (fun st b => (st.process sqrt log10 tanh pow b.1 b.2).1) c)
      ).smoothedGainReduction.countdown = 0 ∧
    (CompressorCore.reset
      (blocks.foldl (fun st b => (st.process sqrt log10 tanh pow b.1 b.2).1) c)
      ).smoothedGainReduction.getNextValue.2 = 0 ∧
    (CompressorCore.reset
      (blocks.foldl (fun st b => (st.process sqrt log10 tanh pow b.1 b.2).1) c)
      ).getGainReductionDb = 0 := by
  refine ⟨rfl, rfl, rfl, rfl, rfl, rfl, rfl, rfl, rfl, ?_, rfl⟩
  simp [CompressorCore.reset, SmoothedValue.setCurrentAndTargetValue,
    SmoothedValue.getNextValue, SmoothedValue.isSmoothing]

end ResetProperties

section CharacterProperties

variable {α : Type} [LinearOrderedField α]

/-- C18: `setCoreMaterial` selects the detector mode by character, whatever the previous
mode: VCA gives TruePeak, FET gives Peak, Opto gives RMS. -/
theorem setCoreMaterial_selects_mode {β : Type} (c : CompressorCore β) :
    (c.setCoreMaterial CoreMaterial.VCA).levelDetector.mode = Mode.TruePeak ∧
    (c.setCoreMaterial CoreMaterial.FET).levelDetector.mode = Mode.Peak ∧
    (c.setCoreMaterial CoreMaterial.Opto).levelDetector.mode = Mode.RMS :=
  ⟨rfl, rfl, rfl⟩

/-- C20: the gain-reduction character modifier, for every raw gain reduction `gr`, input
level `x` and threshold `T`: VCA returns `gr`; FET returns
`gr * (1 + max 0 (x - T) * 0.02)`; Opto returns `gr * f` with
`f = 0.7 + 0.3 * (x - (T - 20)) / 40` limited to `[0.7, 1.0]`. -/
theorem applyModelCharacter_spec (c : CompressorCore α) (gr x : α) :
    c.applyModelCharacter gr x =
      match c.coreMaterial with
      | CoreMaterial.VCA => gr
      | CoreMaterial.FET => gr * (1 + max 0 (x - c.gainComputer.threshold) * 0.02)
      | CoreMaterial.Opto =>
        gr * max 0.7 (min 1.0 (0.7 + 0.3 * (x - (c.gainComputer.threshold - 20)) / 40)) := by
  unfold CompressorCore.applyModelCharacter
  cases c.coreMaterial
  · rfl
  · simp only [jmax_eq_max]
  · simp only
    rw [jlimit_eq_max_min 0.7 1.0 _ (by norm_num)]
    have hmap : jmap x (c.gainComputer.threshold - 20) (c.gainComputer.threshold + 20)
        0.7 1.0 = 0.7 + 0.3 * (x - (c.gainComputer.threshold - 20)) / 40 := by
      unfold jmap
      have h1 : c.gainComputer.threshold + 20 - (c.gainComputer.threshold - 20) = 40 := by
        ring
      have h2 : (1.0 : α) - 0.7 = 0.3 := by norm_num
      rw [h1, h2]
    rw [hmap]

end CharacterProperties

section EnvelopeProperties

variable {α : Type} [LinearOrderedField α] [FloorRing α]

/-- One `process` call in Peak mode keeps every member but the envelope, and moves the
envelope by the follower toward the absolute value of the sample. -/
lemma process_peak (sqrt log10 : α → α) (d : LevelDetector α) (x : α)
    (hmode : d.mode = Mode.Peak) :
    (d.process sqrt log10 x).1 = d.follow |x| := by
  simp [LevelDetector.process, hmode]

/-- The follower keeps mode and coefficients. -/
lemma follow_frame {β : Type} [LinearOrderedField β] (d : LevelDetector β) (v : β) :
    (d.follow v).mode = d.mode ∧ (d.follow v).attackCoeff = d.attackCoeff ∧
    (d.follow v).releaseCoeff = d.releaseCoeff ∧ (d.follow v).sampleRate = d.sampleRate ∧
    (d.follow v).rmsSum = d.rmsSum ∧ (d.follow v).rmsCount = d.rmsCount := by
  unfold LevelDetector.follow
  split_ifs <;> exact ⟨rfl, rfl, rfl, rfl, rfl, rfl⟩

/-- One follower step at constant level `L` from the envelope `L * (1 - (1 - c)^k)`. -/
lemma follow_constant_level {β : Type} [LinearOrderedField β] (d : LevelDetector β)
    (L : β) (k : ℕ) (hL : 0 ≤ L) (hc1 : d.attackCoeff ≤ 1)
    (henv : d.envelope = L * (1 - (1 - d.attackCoeff) ^ k)) :
    (d.follow L).envelope = L * (1 - (1 - d.attackCoeff) ^ (k + 1)) := by
  have hpow : 0 ≤ (1 - d.attackCoeff) ^ k := pow_nonneg (by linarith) k
  unfold LevelDetector.follow
  split_ifs with h
  · simp only [henv]
    ring
  · have hle : L * (1 - (1 - d.attackCoeff) ^ k) ≤ L := by
      have := mul_nonneg hL hpow
      linarith
    have heq : d.envelope = L := le_antisymm (henv ▸ hle) (not_lt.mp h)
    have hzero : L * (1 - d.attackCoeff) ^ k = 0 := by
      have h1 := henv
      rw [heq] at h1
      linarith
    simp only [heq, sub_self, mul_zero, add_zero]
    rw [pow_succ, mul_sub, mul_one, ← mul_assoc, hzero, zero_mul, sub_zero]

/-- Peak-mode run from the envelope `L * (1 - (1 - c)^k)` over samples of magnitude `L`. -/
lemma peak_run_envelope (sqrt log10 : α → α) (L c : α) (hL : 0 ≤ L)
    (hc1 : c ≤ 1) (xs : List α) (hxs : ∀ x ∈ xs, |x| = L) :
    ∀ (k : ℕ) (d : LevelDetector α), d.mode = Mode.Peak → d.attackCoeff = c →
      d.envelope = L * (1 - (1 - c) ^ k) →
      (xs.foldl (fun st x => (st.process sqrt log10 x).1) d).envelope
        = L * (1 - (1 - c) ^ (k + xs.length)) := by
  induction xs with
  | nil =>
    intro k d _ _ henv
    simpa using henv
  | cons x rest ih =>
    intro k d hmode hcoef henv
    have hx : |x| = L := hxs x (List.mem_cons_self x rest)
    have hrest : ∀ y ∈ rest, |y| = L := fun y hy => hxs y (List.mem_cons_of_mem x hy)
    have hframe := follow_frame d L
    have hstep : (d.process sqrt log10 x).1 = d.follow L := by
      rw [process_peak sqrt log10 d x hmode, hx]
    have henv1 : (d.follow L).envelope = L * (1 - (1 - c) ^ (k + 1)) := by
      have := follow_constant_level d L k hL (hcoef ▸ hc1) (hcoef ▸ henv)
      rw [hcoef] at this
      exact this
    simp only [List.foldl_cons, List.length_cons]
    rw [hstep, ih hrest (k + 1) (d.follow L) (hframe.1.trans hmode)
      (hframe.2.1.trans hcoef) henv1]
    congr 3
    omega

/-- C13: in Peak mode, starting from envelope 0 with an attack coefficient `c` in
`(0, 1]`, feeding `n` samples whose absolute value is the constant `L ≥ 0` to `process`
leaves the envelope at `L * (1 - (1 - c)^n)`, for every `n` (the length of `xs`). -/
theorem peak_envelope_after_constant_input (sqrt log10 : α → α) (d : LevelDetector α)
    (L : α) (xs : List α) (hmode : d.mode = Mode.Peak) (henv : d.envelope = 0)
    (_hc0 : 0 < d.attackCoeff) (hc1 : d.attackCoeff ≤ 1) (hL : 0 ≤ L)
    (hxs : ∀ x ∈ xs, |x| = L) :
    (xs.foldl (fun st x => (st.process sqrt log10 x).1) d).envelope
      = L * (1 - (1 - d.attackCoeff) ^ xs.length) := by
  have h := peak_run_envelope sqrt log10 L d.attackCoeff hL hc1 xs hxs 0 d hmode rfl
    (by simp [henv])
  simpa using h

/-- C13 with attack coefficient 1/2 and the samples 1, -1, 1: the envelope is
`1 - (1/2)^3`, which is 7/8. -/
theorem peak_envelope_after_constant_input_witness :
    ([1, -1, 1].foldl (fun st x => (LevelDetector.process (fun y : ℚ => y) (fun y => y) st x).1)
      ({ sampleRate := 44100, mode := Mode.Peak, envelope := 0, attackCoeff := 1 / 2,
         releaseCoeff := 1 / 1000, rmsSum := 0, rmsCount := 0 } : LevelDetector ℚ)).envelope
      = 1 * (1 - (1 - 1 / 2) ^ 3) :=
  peak_envelope_after_constant_input (fun y : ℚ => y) (fun y => y)
    ({ sampleRate := 44100, mode := Mode.Peak, envelope := 0, attackCoeff := 1 / 2,
       releaseCoeff := 1 / 1000, rmsSum := 0, rmsCount := 0 } : LevelDetector ℚ)
    1 [1, -1, 1] rfl rfl (by norm_num) (by norm_num) (by norm_num)
    (by
      intro x hx
      simp only [List.mem_cons, List.mem_singleton, List.not_mem_nil, or_false] at hx
      rcases hx with rfl | rfl | rfl <;> simp)

end EnvelopeProperties

section CoefficientProperties

/-- C15: for every positive sample rate `sr` and positive time `ms`, `setAttackTime ms`
and `setReleaseTime ms` store the coefficient `1 - exp (-1 / (sr * ms / 1000))`, and this
coefficient lies in `(0, 1]`. -/
theorem time_coefficient_formula_and_range (d : LevelDetector ℝ) (ms : ℝ)
    (hsr : 0 < d.sampleRate) (hms : 0 < ms) :
    (d.setAttackTime Real.exp ms).attackCoeff
      = 1 - Real.exp (-1 / (d.sampleRate * ms / 1000)) ∧
    (d.setReleaseTime Real.exp ms).releaseCoeff
      = 1 - Real.exp (-1 / (d.sampleRate * ms / 1000)) ∧
    0 < (d.setAttackTime Real.exp ms).attackCoeff ∧
    (d.setAttackTime Real.exp ms).attackCoeff ≤ 1 ∧
    0 < (d.setReleaseTime Real.exp ms).releaseCoeff ∧
    (d.setReleaseTime Real.exp ms).releaseCoeff ≤ 1 := by
  have harg : d.sampleRate * (ms / 1000) = d.sampleRate * ms / 1000 := by ring
  have hpos : 0 < d.sampleRate * ms / 1000 := by positivity
  have hneg : -1 / (d.sampleRate * ms / 1000) < 0 := by
    rw [neg_div]
    exact neg_neg_of_pos (div_pos one_pos hpos)
  have hlt : Real.exp (-1 / (d.sampleRate * ms / 1000)) < 1 := by
    rw [Real.exp_lt_one_iff]
    exact hneg
  have hgt : 0 < Real.exp (-1 / (d.sampleRate * ms / 1000)) := Real.exp_pos _
  have ha : (d.setAttackTime Real.exp ms).attackCoeff
      = 1 - Real.exp (-1 / (d.sampleRate * ms / 1000)) := by
    simp only [LevelDetector.setAttackTime, harg]
  have hr : (d.setReleaseTime Real.exp ms).releaseCoeff
      = 1 - Real.exp (-1 / (d.sampleRate * ms / 1000)) := by
    simp only [LevelDetector.setReleaseTime, harg]
  refine ⟨ha, hr, ?_, ?_, ?_, ?_⟩
  · rw [ha]
    linarith
  · rw [ha]
    linarith
  · rw [hr]
    linarith
  · rw [hr]
    linarith

/-- C15 at 44100 Hz and 10 ms: the attack coefficient is `1 - exp (-1/441)`. -/
theorem time_coefficient_formula_and_range_witness :
    (LevelDetector.setAttackTime Real.exp
        ({ sampleRate := 44100, mode := Mode.Peak, envelope := 0, attackCoeff := 0.01,
           releaseCoeff := 0.001, rmsSum := 0, rmsCount := 0 } : LevelDetector ℝ)
        10).attackCoeff
      = 1 - Real.exp (-1 / (44100 * 10 / 1000)) :=
  (time_coefficient_formula_and_range
    ({ sampleRate := 44100, mode := Mode.Peak, envelope := 0, attackCoeff := 0.01,
       releaseCoeff := 0.001, rmsSum := 0, rmsCount := 0 } : LevelDetector ℝ)
    10 (by norm_num) (by norm_num)).1

end CoefficientProperties

section RmsWindow

variable {α : Type} [LinearOrderedField α] [FloorRing α]

/-- In RMS mode `process` is the shared RMS block on `input * input`, then the follower. -/
lemma process_rms (sqrt log10 : α → α) (d : LevelDetector α) (x : α)
    (hmode : d.mode = Mode.RMS) :
    (d.process sqrt log10 x).1
      = (LevelDetector.accumulateRms sqrt d (x * x)).1.follow
          (LevelDetector.accumulateRms sqrt d (x * x)).2 := by
  simp [LevelDetector.process, hmode]

/-- In RMS mode `processStereo` is the shared RMS block on the channel average of the
squares, then the follower. -/
lemma processStereo_rms (sqrt log10 : α → α) (d : LevelDetector α) (l r : α)
    (hmode : d.mode = Mode.RMS) :
    (d.processStereo sqrt log10 l r).1
      = (LevelDetector.accumulateRms sqrt d ((l * l + r * r) * 0.5)).1.follow
          (LevelDetector.accumulateRms sqrt d ((l * l + r * r) * 0.5)).2 := by
  simp [LevelDetector.processStereo, hmode]

/-- Both methods return the dB conversion of the envelope they leave. -/
lemma process_level (sqrt log10 : α → α) (d : LevelDetector α) (x l r : α) :
    (d.process sqrt log10 x).2
      = LevelDetector.levelDb log10 (d.process sqrt log10 x).1.envelope ∧
    (d.processStereo sqrt log10 l r).2
      = LevelDetector.levelDb log10 (d.processStereo sqrt log10 l r).1.envelope :=
  ⟨rfl, rfl⟩

/-- A call that does not complete the window only accumulates: sum and count grow, the
envelope and every other member stay. -/
lemma accumulate_hold (sqrt : α → α) (d : LevelDetector α) (sq : α)
    (hlt : d.rmsCount + 1 < truncToInt (d.sampleRate * 0.01)) :
    (LevelDetector.accumulateRms sqrt d sq).1.follow
        (LevelDetector.accumulateRms sqrt d sq).2
      = { d with rmsSum := d.rmsSum + sq, rmsCount := d.rmsCount + 1 } := by
  have hnot : ¬ d.rmsCount + 1 ≥ truncToInt (d.sampleRate * 0.01) := not_le.mpr hlt
  simp [LevelDetector.accumulateRms, LevelDetector.follow, hnot]

/-- A call that completes the window feeds `sqrt (rmsSum / rmsCount)` to the follower
and zeroes the accumulator. -/
lemma accumulate_complete (sqrt : α → α) (d : LevelDetector α) (sq : α)
    (hge : truncToInt (d.sampleRate * 0.01) ≤ d.rmsCount + 1) :
    (LevelDetector.accumulateRms sqrt d sq).1.follow
        (LevelDetector.accumulateRms sqrt d sq).2
      = LevelDetector.follow { d with rmsSum := 0, rmsCount := 0 }
          (sqrt ((d.rmsSum + sq) / ((d.rmsCount + 1 : ℤ) : α))) := by
  have hge2 : d.rmsCount + 1 ≥ truncToInt (d.sampleRate * 0.01) := hge
  simp only [LevelDetector.accumulateRms, hge2, if_true]

/-- A run of fewer calls than the window still has to go: the accumulator holds the sum
of the squares and the number of calls, the envelope has not moved. -/
lemma rms_run_hold {β : Type} (sqrt : α → α) (f : LevelDetector α → β → LevelDetector α)
    (q : β → α)
    (hf : ∀ (d : LevelDetector α) (b : β), d.mode = Mode.RMS →
      f d b = (LevelDetector.accumulateRms sqrt d (q b)).1.follow
        (LevelDetector.accumulateRms sqrt d (q b)).2)
    (bs : List β) :
    ∀ d : LevelDetector α, d.mode = Mode.RMS →
      d.rmsCount + bs.length < truncToInt (d.sampleRate * 0.01) →
      bs.foldl f d = { d with rmsSum := d.rmsSum + (bs.map q).sum,
                              rmsCount := d.rmsCount + bs.length } := by
  induction bs with
  | nil =>
    intro d _ _
    simp
  | cons b rest ih =>
    intro d hmode hlt
    simp only [List.length_cons, Nat.cast_add, Nat.cast_one] at hlt
    have hstep : f d b = { d with rmsSum := d.rmsSum + q b, rmsCount := d.rmsCount + 1 } := by
      rw [hf d b hmode]
      exact accumulate_hold sqrt d (q b) (by omega)
    simp only [List.foldl_cons, List.map_cons, List.sum_cons, List.length_cons,
      Nat.cast_add, Nat.cast_one]
    have h1 := ih { d with rmsSum := d.rmsSum + q b, rmsCount := d.rmsCount + 1 } hmode
      (by simp only; omega)
    rw [hstep, h1]
    simp only [LevelDetector.mk.injEq, true_and]
    constructor
    · ring
    · ring

/-- A detector in its reset state is unchanged by zeroing the accumulator. -/
lemma zeroed_eq_self {β : Type} [LinearOrderedField β] (d : LevelDetector β)
    (hsum : d.rmsSum = 0) (hcount : d.rmsCount = 0) :
    ({ d with rmsSum := 0, rmsCount := 0 } : LevelDetector β) = d := by
  cases d
  simp only at hsum hcount
  subst hsum hcount
  rfl

/-- From the reset state in RMS mode, a run of fewer calls than the window is long
accumulates; the call that brings the count to the window length completes the window. -/
lemma rms_window_run {β : Type} (sqrt : α → α) (f : LevelDetector α → β → LevelDetector α)
    (q : β → α)
    (hf : ∀ (d : LevelDetector α) (b : β), d.mode = Mode.RMS →
      f d b = (LevelDetector.accumulateRms sqrt d (q b)).1.follow
        (LevelDetector.accumulateRms sqrt d (q b)).2)
    (d : LevelDetector α) (hmode : d.mode = Mode.RMS) (hsum : d.rmsSum = 0)
    (hcount : d.rmsCount = 0) (bs : List β) :
    ((bs.length : ℤ) < truncToInt (d.sampleRate * 0.01) →
      bs.foldl f d = { d with rmsSum := (bs.map q).sum, rmsCount := bs.length }) ∧
    (∀ b : β, (bs.length : ℤ) + 1 = truncToInt (d.sampleRate * 0.01) →
      f (bs.foldl f d) b
        = d.follow (sqrt (((bs.map q).sum + q b)
            / ((truncToInt (d.sampleRate * 0.01) : ℤ) : α)))) := by
  have hrun : (bs.length : ℤ) < truncToInt (d.sampleRate * 0.01) →
      bs.foldl f d = { d with rmsSum := (bs.map q).sum, rmsCount := bs.length } := by
    intro hlt
    have h := rms_run_hold sqrt f q hf bs d hmode (by rw [hcount]; omega)
    rw [h, hsum, hcount, zero_add, zero_add]
  refine ⟨hrun, fun b hlen => ?_⟩
  have hstep := hf { d with rmsSum := (bs.map q).sum, rmsCount := bs.length } b hmode
  have hdone := accumulate_complete sqrt
    { d with rmsSum := (bs.map q).sum, rmsCount := bs.length } (q b) (by simp only; omega)
  rw [hrun (by omega), hstep, hdone]
  simp only
  rw [hlen]
  congr 1
  exact zeroed_eq_self d hsum hcount

/-- For a sample rate that is not negative the window length is the floor of a hundredth
of the sample rate. -/
lemma truncToInt_window (sr : α) (hsr : 0 ≤ sr) : truncToInt (sr * 0.01) = ⌊sr * 0.01⌋ := by
  have h : (0 : α) ≤ sr * 0.01 := mul_nonneg hsr (by norm_num)
  simp [truncToInt, h]

/-- C16, amended: in RMS mode the accumulation window is `⌊sampleRate * 0.01⌋` samples
(the conversion to `int` truncates; it does not round).  Starting from reset with a
sample rate that is not negative: any run of fewer calls than the window only
accumulates (sum of squares and count grow, the envelope stays), and the call at which
the count reaches `⌊sampleRate * 0.01⌋` feeds `sqrt (sum / count)` to the envelope
follower and leaves sum and count zeroed; in `process` (squares `x * x`) and in
`processStereo` (squares `(l * l + r * r) * 0.5`). -/
theorem rms_window_is_truncated (sqrt log10 : α → α) (d : LevelDetector α)
    (hmode : d.mode = Mode.RMS) (_henv : d.envelope = 0) (hsum : d.rmsSum = 0)
    (hcount : d.rmsCount = 0) (hsr : 0 ≤ d.sampleRate) :
    truncToInt (d.sampleRate * 0.01) = ⌊d.sampleRate * 0.01⌋ ∧
    (∀ xs : List α, (xs.length : ℤ) < ⌊d.sampleRate * 0.01⌋ →
      xs.foldl (fun st x => (st.process sqrt log10 x).1) d
        = { d with rmsSum := (xs.map (fun x => x * x)).sum, rmsCount := xs.length }) ∧
    (∀ (xs : List α) (x : α), (xs.length : ℤ) + 1 = ⌊d.sampleRate * 0.01⌋ →
      ((xs.foldl (fun st x => (st.process sqrt log10 x).1) d).process sqrt log10 x).1
        = d.follow (sqrt (((xs.map (fun x => x * x)).sum + x * x)
            / ((⌊d.sampleRate * 0.01⌋ : ℤ) : α))) ∧
      ((xs.foldl (fun st x => (st.process sqrt log10 x).1) d).process
        sqrt log10 x).1.rmsSum = 0 ∧
      ((xs.foldl (fun st x => (st.process sqrt log10 x).1) d).process
        sqrt log10 x).1.rmsCount = 0) ∧
    (∀ ps : List (α × α), (ps.length : ℤ) < ⌊d.sampleRate * 0.01⌋ →
      ps.foldl (fun st p => (st.processStereo sqrt log10 p.1 p.2).1) d
        = { d with rmsSum := (ps.map (fun p => (p.1 * p.1 + p.2 * p.2) * 0.5)).sum,
                   rmsCount := ps.length }) ∧
    (∀ (ps : List (α × α)) (p : α × α), (ps.length : ℤ) + 1 = ⌊d.sampleRate * 0.01⌋ →
      ((ps.foldl (fun st p => (st.processStereo sqrt log10 p.1 p.2).1) d).processStereo
        sqrt log10 p.1 p.2).1
        = d.follow (sqrt (((ps.map (fun p => (p.1 * p.1 + p.2 * p.2) * 0.5)).sum
              + (p.1 * p.1 + p.2 * p.2) * 0.5)
            / ((⌊d.sampleRate * 0.01⌋ : ℤ) : α))) ∧
      ((ps.foldl (fun st p => (st.processStereo sqrt log10 p.1 p.2).1) d).processStereo
        sqrt log10 p.1 p.2).1.rmsSum = 0 ∧
      ((ps.foldl (fun st p => (st.processStereo sqrt log10 p.1 p.2).1) d).processStereo
        sqrt log10 p.1 p.2).1.rmsCount = 0) := by
  have hW := truncToInt_window d.sampleRate hsr
  have hmono := fun xs => rms_window_run sqrt
    (fun (st : LevelDetector α) (x : α) => (st.process sqrt log10 x).1) (fun x => x * x)
    (fun st x hm => process_rms sqrt log10 st x hm) d hmode hsum hcount xs
  have hster := fun ps => rms_window_run sqrt
    (fun (st : LevelDetector α) (p : α × α) => (st.processStereo sqrt log10 p.1 p.2).1)
    (fun p => (p.1 * p.1 + p.2 * p.2) * 0.5)
    (fun st p hm => processStereo_rms sqrt log10 st p.1 p.2 hm) d hmode hsum hcount ps
  rw [hW] at hmono hster
  have hfr := follow_frame d
  refine ⟨hW, fun xs hlt => (hmono xs).1 hlt, fun xs x hlen => ?_,
    fun ps hlt => (hster ps).1 hlt, fun ps p hlen => ?_⟩
  · have h := (hmono xs).2 x hlen
    simp only at h
    refine ⟨h, ?_, ?_⟩
    · rw [h, (hfr _).2.2.2.2.1, hsum]
    · rw [h, (hfr _).2.2.2.2.2, hcount]
  · have h := (hster ps).2 p hlen
    simp only at h
    refine ⟨h, ?_, ?_⟩
    · rw [h, (hfr _).2.2.2.2.1, hsum]
    · rw [h, (hfr _).2.2.2.2.2, hcount]

/-- C16 at 400 Hz (window 4) with the samples 0, 1, 0 and then -1: the fourth call
leaves sum and count zeroed. -/
theorem rms_window_is_truncated_witness :
    ((([0, 1, 0] : List ℝ).foldl
        (fun st x => (LevelDetector.process Real.sqrt (Real.logb 10) st x).1)
        ({ sampleRate := 400, mode := Mode.RMS, envelope := 0, attackCoeff := 0.01,
           releaseCoeff := 0.001, rmsSum := 0, rmsCount := 0 } : LevelDetector ℝ)).process
      Real.sqrt (Real.logb 10) (-1)).1.rmsSum = 0 ∧
    ((([0, 1, 0] : List ℝ).foldl
        (fun st x => (LevelDetector.process Real.sqrt (Real.logb 10) st x).1)
        ({ sampleRate := 400, mode := Mode.RMS, envelope := 0, attackCoeff := 0.01,
           releaseCoeff := 0.001, rmsSum := 0, rmsCount := 0 } : LevelDetector ℝ)).process
      Real.sqrt (Real.logb 10) (-1)).1.rmsCount = 0 :=
  ((rms_window_is_truncated Real.sqrt (Real.logb 10)
    ({ sampleRate := 400, mode := Mode.RMS, envelope := 0, attackCoeff := 0.01,
       releaseCoeff := 0.001, rmsSum := 0, rmsCount := 0 } : LevelDetector ℝ)
    rfl rfl rfl rfl (by norm_num)).2.2.1 [0, 1, 0] (-1) (by norm_num)).2

/-- C16, as stated, fails: at 47952 Hz `round (sampleRate * 0.01)` is 480, but the
window of the code is 479 samples: from reset, 478 calls leave the count at 478 and the
479th call zeroes sum and count. -/
theorem rms_window_not_rounded :
    round ((47952 : ℝ) * 0.01) = 480 ∧
    truncToInt ((47952 : ℝ) * 0.01) = 479 ∧
    ((List.replicate 478 (1 : ℝ)).foldl
        (fun st x => (LevelDetector.process Real.sqrt (Real.logb 10) st x).1)
        ({ sampleRate := 47952, mode := Mode.RMS, envelope := 0, attackCoeff := 0.01,
           releaseCoeff := 0.001, rmsSum := 0, rmsCount := 0 }
          : LevelDetector ℝ)).rmsCount = 478 ∧
    (((List.replicate 478 (1 : ℝ)).foldl
        (fun st x => (LevelDetector.process Real.sqrt (Real.logb 10) st x).1)
        ({ sampleRate := 47952, mode := Mode.RMS, envelope := 0, attackCoeff := 0.01,
           releaseCoeff := 0.001, rmsSum := 0, rmsCount := 0 } : LevelDetector ℝ)).process
      Real.sqrt (Real.logb 10) 1).1.rmsCount = 0 ∧
    (((List.replicate 478 (1 : ℝ)).foldl
        (fun st x => (LevelDetector.process Real.sqrt (Real.logb 10) st x).1)
        ({ sampleRate := 47952, mode := Mode.RMS, envelope := 0, attackCoeff := 0.01,
           releaseCoeff := 0.001, rmsSum := 0, rmsCount := 0 } : LevelDetector ℝ)).process
      Real.sqrt (Real.logb 10) 1).1.rmsSum = 0 := by
  have hfloor : ⌊(47952 : ℝ) * 0.01⌋ = 479 := by
    rw [Int.floor_eq_iff]
    norm_num
  have htrunc : truncToInt ((47952 : ℝ) * 0.01) = 479 := by
    rw [truncToInt_window 47952 (by norm_num), hfloor]
  have hround : round ((47952 : ℝ) * 0.01) = 480 := by
    rw [round_eq, Int.floor_eq_iff]
    norm_num
  have hrun := rms_window_run Real.sqrt
    (fun (st : LevelDetector ℝ) (x : ℝ) => (st.process Real.sqrt (Real.logb 10) x).1)
    (fun x => x * x) (fun st x hm => process_rms Real.sqrt (Real.logb 10) st x hm)
    ({ sampleRate := 47952, mode := Mode.RMS, envelope := 0, attackCoeff := 0.01,
       releaseCoeff := 0.001, rmsSum := 0, rmsCount := 0 } : LevelDetector ℝ)
    rfl rfl rfl (List.replicate 478 (1 : ℝ))
  simp only [htrunc, List.length_replicate] at hrun
  have hhold := hrun.1 (by norm_num)
  have hdone := hrun.2 1 (by norm_num)
  have hfr := follow_frame
    ({ sampleRate := 47952, mode := Mode.RMS, envelope := 0, attackCoeff := 0.01,
       releaseCoeff := 0.001, rmsSum := 0, rmsCount := 0 } : LevelDetector ℝ)
  refine ⟨hround, htrunc, ?_, ?_, ?_⟩
  · rw [hhold]
    rfl
  · rw [hdone, (hfr _).2.2.2.2.2]
  · rw [hdone, (hfr _).2.2.2.2.1]

end RmsWindow

section SinusoidRms

/-- The follower step from envelope 0 at a positive level is an attack step. -/
lemma follow_from_zero (d : LevelDetector ℝ) (v : ℝ) (henv : d.envelope = 0) (hv : 0 < v) :
    (d.follow v).envelope = d.attackCoeff * v := by
  have hgt : v > d.envelope := by rw [henv]; exact hv
  unfold LevelDetector.follow
  rw [if_pos hgt]
  simp only [henv, sub_zero, zero_add]

end SinusoidRms

section DecibelFloor

/-- The base-10 logarithm of `10^(-k)`. -/
lemma logb_ten_inv_pow (k : ℕ) : Real.logb 10 (((10 : ℝ) ^ k)⁻¹) = -(k : ℝ) := by
  rw [Real.logb_inv, Real.logb_pow, Real.logb_self_eq_one (by norm_num)]
  ring

/-- The dB conversion over the reals: -100 at or below the guard `1e-10`, and
`20 * log10` above it, which is above -200 dB, below -100 dB for an envelope under
`1e-5`, and at least -100 dB from `1e-5` on. -/
lemma levelDb_cases (e : ℝ) :
    (e ≤ 1e-10 → LevelDetector.levelDb (Real.logb 10) e = -100) ∧
    (1e-10 < e → LevelDetector.levelDb (Real.logb 10) e = 20 * Real.logb 10 e) ∧
    -200 < LevelDetector.levelDb (Real.logb 10) e ∧
    (1e-10 < e → e < 1e-5 → LevelDetector.levelDb (Real.logb 10) e < -100) ∧
    (1e-5 ≤ e → -100 ≤ LevelDetector.levelDb (Real.logb 10) e) := by
  have h10 : Real.logb 10 (1e-10 : ℝ) = -10 := by
    have h : (1e-10 : ℝ) = ((10 : ℝ) ^ 10)⁻¹ := by norm_num
    rw [h, logb_ten_inv_pow]
    norm_num
  have h5 : Real.logb 10 (1e-5 : ℝ) = -5 := by
    have h : (1e-5 : ℝ) = ((10 : ℝ) ^ 5)⁻¹ := by norm_num
    rw [h, logb_ten_inv_pow]
    norm_num
  have hb : (1 : ℝ) < 10 := by norm_num
  have habove : 1e-10 < e → LevelDetector.levelDb (Real.logb 10) e = 20 * Real.logb 10 e := by
    intro h
    simp only [LevelDetector.levelDb, gt_iff_lt, h, if_true]
  have hlow : 1e-10 < e → -10 < Real.logb 10 e := by
    intro h
    rw [← h10]
    exact Real.logb_lt_logb hb (by norm_num) h
  refine ⟨fun h => ?_, habove, ?_, fun h1 h2 => ?_, fun h => ?_⟩
  · simp only [LevelDetector.levelDb, gt_iff_lt, not_lt.mpr h, if_false]
  · by_cases h : 1e-10 < e
    · rw [habove h]
      linarith [hlow h]
    · simp only [LevelDetector.levelDb, gt_iff_lt, h, if_false]
      norm_num
  · rw [habove h1]
    have hpos : (0 : ℝ) < e := lt_trans (by norm_num) h1
    have := Real.logb_lt_logb hb hpos h2
    rw [h5] at this
    linarith
  · have hgt : (1e-10 : ℝ) < e := lt_of_lt_of_le (by norm_num) h
    rw [habove hgt]
    have := (Real.logb_le_logb hb (by norm_num) (lt_of_lt_of_le (by norm_num) h)).mpr h
    rw [h5] at this
    linarith

/-- C17, as stated, fails: a new detector (Peak mode, envelope 0, attack coefficient 0.01)
given the sample `1e-7` is left with the envelope `1e-9` and returns -180 dB, which is
below -100. -/
theorem levelDb_below_minus_100 :
    ((LevelDetector.init : LevelDetector ℝ).process Real.sqrt (Real.logb 10)
      0.0000001).1.envelope = 0.000000001 ∧
    ((LevelDetector.init : LevelDetector ℝ).process Real.sqrt (Real.logb 10)
      0.0000001).2 = -180 ∧
    ((LevelDetector.init : LevelDetector ℝ).process Real.sqrt (Real.logb 10)
      0.0000001).2 < -100 := by
  have hstate : ((LevelDetector.init : LevelDetector ℝ).process Real.sqrt (Real.logb 10)
      0.0000001).1 = (LevelDetector.init : LevelDetector ℝ).follow 0.0000001 := by
    rw [process_peak Real.sqrt (Real.logb 10) _ _ rfl, abs_of_pos (by norm_num)]
  have henv : ((LevelDetector.init : LevelDetector ℝ).follow 0.0000001).envelope
      = 0.000000001 := by
    rw [follow_from_zero _ _ rfl (by norm_num)]
    simp only [LevelDetector.init]
    norm_num
  have hlev := (process_level Real.sqrt (Real.logb 10)
    (LevelDetector.init : LevelDetector ℝ) 0.0000001 0 0).1
  rw [hstate, henv] at hlev
  have hval : LevelDetector.levelDb (Real.logb 10) (0.000000001 : ℝ) = -180 := by
    rw [(levelDb_cases 0.000000001).2.1 (by norm_num)]
    have h : (0.000000001 : ℝ) = ((10 : ℝ) ^ 9)⁻¹ := by norm_num
    rw [h, logb_ten_inv_pow]
    norm_num
  rw [hval] at hlev
  refine ⟨by rw [hstate, henv], hlev, ?_⟩
  rw [hlev]
  norm_num

/-- C17, amended: the level returned by `process` and by `processStereo` is -100 dB
exactly when the envelope after the step is at most `1e-10` (the guard of the source), and
`20 * log10 envelope` when it is above; it is therefore always above -200 dB, it is at
least -100 dB once the envelope is at least `1e-5`, and it lies below -100 dB for an
envelope between `1e-10` and `1e-5`. -/
theorem levelDb_guarded_at_1e10 (d : LevelDetector ℝ) (x l r : ℝ) :
    ((d.process Real.sqrt (Real.logb 10) x).1.envelope ≤ 1e-10 →
      (d.process Real.sqrt (Real.logb 10) x).2 = -100) ∧
    (1e-10 < (d.process Real.sqrt (Real.logb 10) x).1.envelope →
      (d.process Real.sqrt (Real.logb 10) x).2
        = 20 * Real.logb 10 (d.process Real.sqrt (Real.logb 10) x).1.envelope) ∧
    -200 < (d.process Real.sqrt (Real.logb 10) x).2 ∧
    (1e-10 < (d.process Real.sqrt (Real.logb 10) x).1.envelope →
      (d.process Real.sqrt (Real.logb 10) x).1.envelope < 1e-5 →
      (d.process Real.sqrt (Real.logb 10) x).2 < -100) ∧
    (1e-5 ≤ (d.process Real.sqrt (Real.logb 10) x).1.envelope →
      -100 ≤ (d.process Real.sqrt (Real.logb 10) x).2) ∧
    ((d.processStereo Real.sqrt (Real.logb 10) l r).1.envelope ≤ 1e-10 →
      (d.processStereo Real.sqrt (Real.logb 10) l r).2 = -100) ∧
    (1e-10 < (d.processStereo Real.sqrt (Real.logb 10) l r).1.envelope →
      (d.processStereo Real.sqrt (Real.logb 10) l r).2
        = 20 * Real.logb 10 (d.processStereo Real.sqrt (Real.logb 10) l r).1.envelope) ∧
    -200 < (d.processStereo Real.sqrt (Real.logb 10) l r).2 ∧
    (1e-10 < (d.processStereo Real.sqrt (Real.logb 10) l r).1.envelope →
      (d.processStereo Real.sqrt (Real.logb 10) l r).1.envelope < 1e-5 →
      (d.processStereo Real.sqrt (Real.logb 10) l r).2 < -100) ∧
    (1e-5 ≤ (d.processStereo Real.sqrt (Real.logb 10) l r).1.envelope →
      -100 ≤ (d.processStereo Real.sqrt (Real.logb 10) l r).2) := by
  have hm := (process_level Real.sqrt (Real.logb 10) d x l r).1
  have hs := (process_level Real.sqrt (Real.logb 10) d x l r).2
  have cm := levelDb_cases (d.process Real.sqrt (Real.logb 10) x).1.envelope
  have cs := levelDb_cases (d.processStereo Real.sqrt (Real.logb 10) l r).1.envelope
  rw [← hm] at cm
  rw [← hs] at cs
  exact ⟨cm.1, cm.2.1, cm.2.2.1, cm.2.2.2.1, cm.2.2.2.2,
    cs.1, cs.2.1, cs.2.2.1, cs.2.2.2.1, cs.2.2.2.2⟩

end DecibelFloor

section SinusoidRmsExamples

end SinusoidRmsExamples

section CharacterTiming

variable {α : Type} [LinearOrderedField α]

/-- C19, as stated, fails: after `setAttack 10` and `setRelease 100` on a new core (VCA,
44100 Hz), `setCoreMaterial FET` leaves the detector with the unscaled coefficients
`1 - exp (-1 / (44100 * (10 / 1000)))` and `1 - exp (-1 / (44100 * (100 / 1000)))`; they
are not the coefficients of the times scaled by 0.7 and 0.8. -/
theorem setCoreMaterial_keeps_stale_timing :
    ((((CompressorCore.init : CompressorCore ℝ).setAttack Real.exp 10).setRelease
        Real.exp 100).setCoreMaterial CoreMaterial.FET).levelDetector.attackCoeff
      = 1 - Real.exp (-1 / (44100 * (10 / 1000))) ∧
    ((((CompressorCore.init : CompressorCore ℝ).setAttack Real.exp 10).setRelease
        Real.exp 100).setCoreMaterial CoreMaterial.FET).levelDetector.attackCoeff
      ≠ 1 - Real.exp (-1 / (44100 * (10 * 0.7 / 1000))) ∧
    ((((CompressorCore.init : CompressorCore ℝ).setAttack Real.exp 10).setRelease
        Real.exp 100).setCoreMaterial CoreMaterial.FET).levelDetector.releaseCoeff
      = 1 - Real.exp (-1 / (44100 * (100 / 1000))) ∧
    ((((CompressorCore.init : CompressorCore ℝ).setAttack Real.exp 10).setRelease
        Real.exp 100).setCoreMaterial CoreMaterial.FET).levelDetector.releaseCoeff
      ≠ 1 - Real.exp (-1 / (44100 * (100 * 0.8 / 1000))) := by
  have ha : ((((CompressorCore.init : CompressorCore ℝ).setAttack Real.exp 10).setRelease
        Real.exp 100).setCoreMaterial CoreMaterial.FET).levelDetector.attackCoeff
      = 1 - Real.exp (-1 / (44100 * (10 / 1000))) := rfl
  have hr : ((((CompressorCore.init : CompressorCore ℝ).setAttack Real.exp 10).setRelease
        Real.exp 100).setCoreMaterial CoreMaterial.FET).levelDetector.releaseCoeff
      = 1 - Real.exp (-1 / (44100 * (100 / 1000))) := rfl
  refine ⟨ha, ?_, hr, ?_⟩
  · rw [ha]
    intro h
    have h2 : Real.exp (-1 / (44100 * (10 / 1000)))
        = Real.exp (-1 / (44100 * (10 * 0.7 / 1000))) := by linarith
    have h3 := Real.exp_injective h2
    norm_num at h3
  · rw [hr]
    intro h
    have h2 : Real.exp (-1 / (44100 * (100 / 1000)))
        = Real.exp (-1 / (44100 * (100 * 0.8 / 1000))) := by linarith
    have h3 := Real.exp_injective h2
    norm_num at h3

/-- C19, amended: the character scaling of the timing is applied by `setAttack` and
`setRelease`, with the character selected at that call.  For every core, character, attack
time `A` and release time `R`: `setCoreMaterial` leaves the detector coefficients as they
were, and after `setCoreMaterial c`, `setAttack A` and `setRelease R` the detector holds
the coefficients computed from `A` and `R` scaled by the factors of `c` (VCA 1 and 1,
FET 0.7 and 0.8, Opto 2.0 and 1.5). -/
theorem timing_scaled_by_setAttack_setRelease (exp : α → α) (c : CompressorCore α)
    (m : CoreMaterial) (A R : α) :
    (c.setCoreMaterial m).levelDetector.attackCoeff = c.levelDetector.attackCoeff ∧
    (c.setCoreMaterial m).levelDetector.releaseCoeff = c.levelDetector.releaseCoeff ∧
    (((c.setCoreMaterial m).setAttack exp A).setRelease exp R).levelDetector.attackCoeff
      = 1 - exp (-1 / (c.levelDetector.sampleRate *
          ((A * match m with
                | CoreMaterial.VCA => 1
                | CoreMaterial.FET => 0.7
                | CoreMaterial.Opto => 2.0) / 1000))) ∧
    (((c.setCoreMaterial m).setAttack exp A).setRelease exp R).levelDetector.releaseCoeff
      = 1 - exp (-1 / (c.levelDetector.sampleRate *
          ((R * match m with
                | CoreMaterial.VCA => 1
                | CoreMaterial.FET => 0.8
                | CoreMaterial.Opto => 1.5) / 1000))) := by
  cases m
  · refine ⟨rfl, rfl, ?_, ?_⟩
    · simp [CompressorCore.setCoreMaterial, CompressorCore.setAttack,
        CompressorCore.setRelease, CompressorCore.getModifiedAttack,
        LevelDetector.setAttackTime, LevelDetector.setReleaseTime, LevelDetector.setMode]
    · simp [CompressorCore.setCoreMaterial, CompressorCore.setAttack,
        CompressorCore.setRelease, CompressorCore.getModifiedRelease,
        LevelDetector.setAttackTime, LevelDetector.setReleaseTime, LevelDetector.setMode]
  · exact ⟨rfl, rfl, rfl, rfl⟩
  · exact ⟨rfl, rfl, rfl, rfl⟩

end CharacterTiming

/-! ## Saturation, hold, follower and mono/stereo agreement -/

section SaturationProperties

variable {α : Type} [LinearOrderedField α]

/-- C21: the per-sample character saturation, for every input `x`: VCA is the identity for
`|x| ≤ 0.9` and `sign x * (0.9 + (|x| - 0.9) * 0.1)` above; FET is
`0.9 * k * y / (1 + 0.3 * |y|)` with `y = 1.2 * x` and `k = 1.02` for `y > 0`, `0.98`
otherwise; Opto is `1.1 * tanh (0.8 * x) + 0.05 * x^2 * sign x`. -/
theorem applyModelSaturation_spec (tanh : α → α) (c : CompressorCore α) (x : α) :
    c.applyModelSaturation tanh x =
      match c.coreMaterial with
      | CoreMaterial.VCA =>
        if |x| ≤ 0.9 then x
        else ((SignType.sign x : SignType) : α) * (0.9 + (|x| - 0.9) * 0.1)
      | CoreMaterial.FET =>
        0.9 * (if 1.2 * x > 0 then 1.02 else 0.98) * (1.2 * x) / (1 + 0.3 * |1.2 * x|)
      | CoreMaterial.Opto =>
        1.1 * tanh (0.8 * x) + 0.05 * x ^ 2 * ((SignType.sign x : SignType) : α) := by
  unfold CompressorCore.applyModelSaturation
  cases c.coreMaterial
  · simp only
    by_cases h : |x| ≤ 0.9
    · rw [if_neg (not_lt.mpr h), if_pos h]
    · rw [if_pos (not_le.mp h), if_neg h]
      have hx : x ≠ 0 := by
        intro h0
        apply h
        rw [h0, abs_zero]
        norm_num
      by_cases hp : x > 0
      · rw [if_pos hp, sign_pos hp]
        simp
      · have hn : x < 0 := lt_of_le_of_ne (not_lt.mp hp) hx
        rw [if_neg hp, sign_neg hn]
        simp
  · simp only
    rw [mul_comm x 1.2, mul_comm |1.2 * x| 0.3]
    by_cases hp : 1.2 * x > 0
    · rw [if_pos hp, if_pos hp]
      ring
    · rw [if_neg hp, if_neg hp]
      ring
  · simp only
    rw [mul_comm x 0.8]
    by_cases hp : x > 0
    · rw [if_pos hp, sign_pos hp]
      simp only [SignType.coe_one]
      ring
    · rw [if_neg hp]
      rcases lt_or_eq_of_le (not_lt.mp hp) with hn | h0
      · rw [sign_neg hn]
        simp only [SignType.coe_neg_one]
        ring
      · rw [h0, sign_zero]
        simp only [SignType.coe_zero, mul_zero, zero_mul, add_zero]
        ring

end SaturationProperties

section HoldAndFollower

variable {α : Type} [LinearOrderedField α] [FloorRing α]

/-- C25: in RMS mode, a call of `process` or `processStereo` that does not complete the
accumulation window (the count after the call stays under the window length) leaves the
envelope exactly as it was, whatever the sample and the coefficients; the level it
returns is the dB conversion of the unchanged envelope, hence the level the previous call
returned. -/
theorem rms_hold_keeps_envelope (sqrt log10 : α → α) (d : LevelDetector α) (x l r : α)
    (hmode : d.mode = Mode.RMS)
    (hlt : d.rmsCount + 1 < truncToInt (d.sampleRate * 0.01)) :
    (d.process sqrt log10 x).1.envelope = d.envelope ∧
    (d.process sqrt log10 x).2 = LevelDetector.levelDb log10 d.envelope ∧
    (d.processStereo sqrt log10 l r).1.envelope = d.envelope ∧
    (d.processStereo sqrt log10 l r).2 = LevelDetector.levelDb log10 d.envelope ∧
    (∀ (d0 : LevelDetector α) (y : α), d = (d0.process sqrt log10 y).1 →
      (d.process sqrt log10 x).2 = (d0.process sqrt log10 y).2 ∧
      (d.processStereo sqrt log10 l r).2 = (d0.process sqrt log10 y).2) ∧
    (∀ (d0 : LevelDetector α) (y z : α), d = (d0.processStereo sqrt log10 y z).1 →
      (d.process sqrt log10 x).2 = (d0.processStereo sqrt log10 y z).2 ∧
      (d.processStereo sqrt log10 l r).2 = (d0.processStereo sqrt log10 y z).2) := by
  have hm : (d.process sqrt log10 x).1.envelope = d.envelope := by
    rw [process_rms sqrt log10 d x hmode, accumulate_hold sqrt d (x * x) hlt]
  have hs : (d.processStereo sqrt log10 l r).1.envelope = d.envelope := by
    rw [processStereo_rms sqrt log10 d l r hmode,
      accumulate_hold sqrt d ((l * l + r * r) * 0.5) hlt]
  have hlev := process_level sqrt log10 d x l r
  have hml : (d.process sqrt log10 x).2 = LevelDetector.levelDb log10 d.envelope := by
    rw [hlev.1, hm]
  have hsl : (d.processStereo sqrt log10 l r).2 = LevelDetector.levelDb log10 d.envelope := by
    rw [hlev.2, hs]
  refine ⟨hm, hml, hs, hsl, fun d0 y hd => ?_, fun d0 y z hd => ?_⟩
  · have hprev := (process_level sqrt log10 d0 y 0 0).1
    rw [← hd] at hprev
    exact ⟨hml.trans hprev.symm, hsl.trans hprev.symm⟩
  · have hprev := (process_level sqrt log10 d0 0 y z).2
    rw [← hd] at hprev
    exact ⟨hml.trans hprev.symm, hsl.trans hprev.symm⟩

/-- C25 at 400 Hz (window 4) with envelope 1/2 and one sample already counted: the
sample 3 leaves the envelope at 1/2. -/
theorem rms_hold_keeps_envelope_witness :
    (LevelDetector.process (fun y : ℚ => y) (fun y => y)
      ({ sampleRate := 400, mode := Mode.RMS, envelope := 1 / 2, attackCoeff := 1 / 100,
         releaseCoeff := 1 / 1000, rmsSum := 1, rmsCount := 1 } : LevelDetector ℚ)
      3).1.envelope = 1 / 2 :=
  (rms_hold_keeps_envelope (fun y : ℚ => y) (fun y => y)
    ({ sampleRate := 400, mode := Mode.RMS, envelope := 1 / 2, attackCoeff := 1 / 100,
       releaseCoeff := 1 / 1000, rmsSum := 1, rmsCount := 1 } : LevelDetector ℚ)
    3 0 0 rfl
    (by
      have h : truncToInt ((400 : ℚ) * 0.01) = 4 := by
        rw [truncToInt_window 400 (by norm_num), Int.floor_eq_iff]
        norm_num
      simp only [h]
      norm_num)).1

/-- One follower step with coefficients in `[0, 1]` ends between the previous envelope
and the level. -/
lemma follow_between {β : Type} [LinearOrderedField β] (d : LevelDetector β) (v : β)
    (ha0 : 0 ≤ d.attackCoeff) (ha1 : d.attackCoeff ≤ 1)
    (hr0 : 0 ≤ d.releaseCoeff) (hr1 : d.releaseCoeff ≤ 1) :
    min d.envelope v ≤ (d.follow v).envelope ∧ (d.follow v).envelope ≤ max d.envelope v ∧
    (v > d.envelope →
      (d.follow v).envelope = d.envelope + d.attackCoeff * (v - d.envelope)) ∧
    (¬ v > d.envelope →
      (d.follow v).envelope = d.envelope + d.releaseCoeff * (v - d.envelope)) := by
  unfold LevelDetector.follow
  by_cases h : v > d.envelope
  · rw [if_pos h]
    have hpos : 0 ≤ v - d.envelope := by linarith
    have h1 := mul_nonneg ha0 hpos
    have h2 := mul_le_mul_of_nonneg_right ha1 hpos
    refine ⟨?_, ?_, fun _ => rfl, fun hn => absurd h hn⟩
    · rw [min_eq_left (le_of_lt h)]
      simp only
      linarith
    · rw [max_eq_right (le_of_lt h)]
      simp only
      linarith
  · rw [if_neg h]
    have hle : v ≤ d.envelope := not_lt.mp h
    have hpos : 0 ≤ d.envelope - v := by linarith
    have h1 := mul_nonneg hr0 hpos
    have h2 := mul_le_mul_of_nonneg_right hr1 hpos
    refine ⟨?_, ?_, fun hp => absurd hp h, fun _ => rfl⟩
    · rw [min_eq_right hle]
      simp only
      linarith
    · rw [max_eq_left hle]
      simp only
      linarith

/-- Every `process` call is a follower step toward the instantaneous level, from a state
with the same envelope and coefficients. -/
lemma process_eq_follow (sqrt log10 : α → α) (d : LevelDetector α) (x : α) :
    ∃ d1 : LevelDetector α, d1.envelope = d.envelope ∧ d1.attackCoeff = d.attackCoeff ∧
      d1.releaseCoeff = d.releaseCoeff ∧
      (d.process sqrt log10 x).1
        = d1.follow (match d.mode with
            | Mode.RMS => (LevelDetector.accumulateRms sqrt d (x * x)).2
            | _ => |x|) := by
  unfold LevelDetector.process
  cases hm : d.mode
  · exact ⟨d, rfl, rfl, rfl, rfl⟩
  · refine ⟨(LevelDetector.accumulateRms sqrt d (x * x)).1, ?_, ?_, ?_, rfl⟩ <;>
    · unfold LevelDetector.accumulateRms
      simp only
      split_ifs <;> rfl
  · exact ⟨d, rfl, rfl, rfl, rfl⟩

/-- Every `processStereo` call is a follower step toward the instantaneous level, from a
state with the same envelope and coefficients. -/
lemma processStereo_eq_follow (sqrt log10 : α → α) (d : LevelDetector α) (l r : α) :
    ∃ d1 : LevelDetector α, d1.envelope = d.envelope ∧ d1.attackCoeff = d.attackCoeff ∧
      d1.releaseCoeff = d.releaseCoeff ∧
      (d.processStereo sqrt log10 l r).1
        = d1.follow (if d.mode = Mode.RMS then
            (LevelDetector.accumulateRms sqrt d ((l * l + r * r) * 0.5)).2
          else max |l| |r|) := by
  unfold LevelDetector.processStereo
  by_cases hm : d.mode = Mode.RMS
  · simp only [hm, if_true]
    refine ⟨(LevelDetector.accumulateRms sqrt d ((l * l + r * r) * 0.5)).1, ?_, ?_, ?_, rfl⟩ <;>
    · unfold LevelDetector.accumulateRms
      simp only
      split_ifs <;> rfl
  · simp only [hm, if_false, jmax_eq_max]
    exact ⟨d, rfl, rfl, rfl, rfl⟩

/-- C26: each detector step moves the envelope toward the instantaneous detected level
without overshoot: with attack and release coefficients in `(0, 1]`, the envelope after
`process` or `processStereo` lies in the closed interval between the previous envelope and
the instantaneous level, and it is the previous envelope plus the attack coefficient times
the distance when the level is above the envelope, plus the release coefficient times the
distance otherwise. -/
theorem envelope_moves_toward_level (sqrt log10 : α → α) (d : LevelDetector α) (x l r : α)
    (ha0 : 0 < d.attackCoeff) (ha1 : d.attackCoeff ≤ 1)
    (hr0 : 0 < d.releaseCoeff) (hr1 : d.releaseCoeff ≤ 1) :
    (min d.envelope (match d.mode with
          | Mode.RMS => (LevelDetector.accumulateRms sqrt d (x * x)).2
          | _ => |x|) ≤ (d.process sqrt log10 x).1.envelope ∧
      (d.process sqrt log10 x).1.envelope ≤ max d.envelope (match d.mode with
          | Mode.RMS => (LevelDetector.accumulateRms sqrt d (x * x)).2
          | _ => |x|) ∧
      ((match d.mode with
          | Mode.RMS => (LevelDetector.accumulateRms sqrt d (x * x)).2
          | _ => |x|) > d.envelope →
        (d.process sqrt log10 x).1.envelope
          = d.envelope + d.attackCoeff * ((match d.mode with
              | Mode.RMS => (LevelDetector.accumulateRms sqrt d (x * x)).2
              | _ => |x|) - d.envelope)) ∧
      (¬ (match d.mode with
          | Mode.RMS => (LevelDetector.accumulateRms sqrt d (x * x)).2
          | _ => |x|) > d.envelope →
        (d.process sqrt log10 x).1.envelope
          = d.envelope + d.releaseCoeff * ((match d.mode with
              | Mode.RMS => (LevelDetector.accumulateRms sqrt d (x * x)).2
              | _ => |x|) - d.envelope))) ∧
    (min d.envelope (if d.mode = Mode.RMS then
          (LevelDetector.accumulateRms sqrt d ((l * l + r * r) * 0.5)).2
        else max |l| |r|) ≤ (d.processStereo sqrt log10 l r).1.envelope ∧
      (d.processStereo sqrt log10 l r).1.envelope ≤ max d.envelope (if d.mode = Mode.RMS then
          (LevelDetector.accumulateRms sqrt d ((l * l + r * r) * 0.5)).2
        else max |l| |r|) ∧
      ((if d.mode = Mode.RMS then
          (LevelDetector.accumulateRms sqrt d ((l * l + r * r) * 0.5)).2
        else max |l| |r|) > d.envelope →
        (d.processStereo sqrt log10 l r).1.envelope
          = d.envelope + d.attackCoeff * ((if d.mode = Mode.RMS then
              (LevelDetector.accumulateRms sqrt d ((l * l + r * r) * 0.5)).2
            else max |l| |r|) - d.envelope)) ∧
      (¬ (if d.mode = Mode.RMS then
          (LevelDetector.accumulateRms sqrt d ((l * l + r * r) * 0.5)).2
        else max |l| |r|) > d.envelope →
        (d.processStereo sqrt log10 l r).1.envelope
          = d.envelope + d.releaseCoeff * ((if d.mode = Mode.RMS then
              (LevelDetector.accumulateRms sqrt d ((l * l + r * r) * 0.5)).2
            else max |l| |r|) - d.envelope))) := by
  obtain ⟨d1, he, ha, hr, hp⟩ := process_eq_follow sqrt log10 d x
  obtain ⟨d2, he2, ha2, hr2, hp2⟩ := processStereo_eq_follow sqrt log10 d l r
  constructor
  · have hb := follow_between d1 (match d.mode with
          | Mode.RMS => (LevelDetector.accumulateRms sqrt d (x * x)).2
          | _ => |x|)
      (by rw [ha]; exact le_of_lt ha0) (by rw [ha]; exact ha1)
      (by rw [hr]; exact le_of_lt hr0) (by rw [hr]; exact hr1)
    rw [he, ha, hr, ← hp] at hb
    exact hb
  · have hb := follow_between d2 (if d.mode = Mode.RMS then
          (LevelDetector.accumulateRms sqrt d ((l * l + r * r) * 0.5)).2
        else max |l| |r|)
      (by rw [ha2]; exact le_of_lt ha0) (by rw [ha2]; exact ha1)
      (by rw [hr2]; exact le_of_lt hr0) (by rw [hr2]; exact hr1)
    rw [he2, ha2, hr2, ← hp2] at hb
    exact hb

/-- C26 in Peak mode with envelope 1/2, attack coefficient 1/4 and the sample -1: the new
envelope 5/8 lies between 1/2 and 1. -/
theorem envelope_moves_toward_level_witness :
    (1 / 2 : ℚ) ≤ (LevelDetector.process (fun y : ℚ => y) (fun y => y)
      ({ sampleRate := 44100, mode := Mode.Peak, envelope := 1 / 2, attackCoeff := 1 / 4,
         releaseCoeff := 1 / 8, rmsSum := 0, rmsCount := 0 } : LevelDetector ℚ)
      (-1)).1.envelope ∧
    (LevelDetector.process (fun y : ℚ => y) (fun y => y)
      ({ sampleRate := 44100, mode := Mode.Peak, envelope := 1 / 2, attackCoeff := 1 / 4,
         releaseCoeff := 1 / 8, rmsSum := 0, rmsCount := 0 } : LevelDetector ℚ)
      (-1)).1.envelope ≤ 1 := by
  have h := (envelope_moves_toward_level (fun y : ℚ => y) (fun y => y)
    ({ sampleRate := 44100, mode := Mode.Peak, envelope := 1 / 2, attackCoeff := 1 / 4,
       releaseCoeff := 1 / 8, rmsSum := 0, rmsCount := 0 } : LevelDetector ℚ)
    (-1) 0 0 (by norm_num) (by norm_num) (by norm_num) (by norm_num)).1
  simp only [abs_neg, abs_one] at h
  have hmin : min (1 / 2 : ℚ) 1 = 1 / 2 := min_eq_left (by norm_num)
  have hmax : max (1 / 2 : ℚ) 1 = 1 := max_eq_right (by norm_num)
  rw [hmin, hmax] at h
  exact ⟨h.1, h.2.1⟩

/-- C30: mono detection agrees with stereo detection of a duplicated channel: for every
detector state, mode and sample `x`, `processStereo x x` returns the same level and leaves
the same state as `process x`. -/
theorem processStereo_duplicate_eq_process (sqrt log10 : α → α) (d : LevelDetector α)
    (x : α) :
    d.processStereo sqrt log10 x x = d.process sqrt log10 x := by
  have hsq : (x * x + x * x) * 0.5 = x * x := by
    have h : (0.5 : α) = 1 / 2 := by norm_num
    rw [h]
    ring
  unfold LevelDetector.processStereo LevelDetector.process
  cases hm : d.mode
  · simp [jmax]
  · simp [hsq]
  · simp [jmax]

end HoldAndFollower

/-! ## Sign of the modified gain reduction and shape of the transfer curve -/

section TransferCurve

variable {α : Type} [LinearOrderedField α]

/-- The full-ratio line written as the input minus the compressed share of the overshoot. -/
lemma ratio_line_eq (t r x : α) :
    t + (x - t) / r = x - (1 - 1 / r) * (x - t) := by
  ring

/-- For a ratio of at least 1 the raw gain reduction is at most 0. -/
lemma computeGainReduction_le_zero (g : GainComputer α) (x : α) (hratio : 1 ≤ g.ratio) :
    g.computeGainReduction x ≤ 0 := by
  have hr : 0 < g.ratio := lt_of_lt_of_le one_pos hratio
  have hinv : 1 / g.ratio ≤ 1 := by
    rw [div_le_one hr]
    exact hratio
  have hc : 0 ≤ 1 - 1 / g.ratio := by linarith
  simp only [GainComputer.computeGainReduction]
  split_ifs with h1 h2 h3 h4
  · simp
  · rw [ratio_line_eq]
    have := mul_nonneg hc (by linarith : 0 ≤ x - g.threshold)
    linarith
  · have hq : 0 ≤ (1 - 1 / g.ratio) * (x - g.threshold + g.kneeWidth / 2) *
        (x - g.threshold + g.kneeWidth / 2) / (2 * g.kneeWidth) := by
      apply div_nonneg _ (by linarith)
      rw [mul_assoc]
      exact mul_nonneg hc (mul_self_nonneg _)
    linarith
  · rw [ratio_line_eq]
    have := mul_nonneg hc (by linarith : 0 ≤ x - g.threshold)
    linarith
  · simp

/-- In exact arithmetic the gain reduction stays at most 0 after the character modifier: for
every character, threshold, ratio of at least 1, knee width of at least 0 and input level
`x`, `applyModelCharacter (computeGainReduction x) x ≤ 0`. -/
theorem applyModelCharacter_nonpos (c : CompressorCore α) (x : α)
    (hratio : 1 ≤ c.gainComputer.ratio) (_hknee : 0 ≤ c.gainComputer.kneeWidth) :
    c.applyModelCharacter (c.gainComputer.computeGainReduction x) x ≤ 0 := by
  have hgr := computeGainReduction_le_zero c.gainComputer x hratio
  unfold CompressorCore.applyModelCharacter
  cases c.coreMaterial
  · exact hgr
  · simp only
    rw [jmax_eq_max]
    have hmax : (0 : α) ≤ max 0 (x - c.gainComputer.threshold) := le_max_left _ _
    have hfac : (0 : α) ≤ 1 + max 0 (x - c.gainComputer.threshold) * 0.02 := by
      have := mul_nonneg hmax (by norm_num : (0 : α) ≤ 0.02)
      linarith
    exact mul_nonpos_iff.mpr (Or.inr ⟨hgr, hfac⟩)
  · simp only
    rw [jlimit_eq_max_min 0.7 1.0 _ (by norm_num)]
    have hfac : (0 : α) ≤ max 0.7 (min 1.0 (jmap x (c.gainComputer.threshold - 20)
        (c.gainComputer.threshold + 20) 0.7 1.0)) :=
      le_trans (by norm_num) (le_max_left _ _)
    exact mul_nonpos_iff.mpr (Or.inr ⟨hgr, hfac⟩)

/-- The exact-arithmetic target for the FET character at threshold -18, ratio 4, knee 6 and
input -6. -/
theorem applyModelCharacter_nonpos_witness :
    CompressorCore.applyModelCharacter
        ((CompressorCore.init : CompressorCore ℚ).setCoreMaterial CoreMaterial.FET)
        (GainComputer.computeGainReduction
          ((CompressorCore.init : CompressorCore ℚ).setCoreMaterial
            CoreMaterial.FET).gainComputer (-6))
        (-6) ≤ 0 :=
  applyModelCharacter_nonpos
    ((CompressorCore.init : CompressorCore ℚ).setCoreMaterial CoreMaterial.FET) (-6)
    (by
      show (1 : ℚ) ≤ 4
      norm_num)
    (by
      show (0 : ℚ) ≤ 6
      norm_num)

/-- A share `c` in `[0, 1]` of an amount that is at most the step is at most the step. -/
lemma share_le_step (c B D : α) (hc0 : 0 ≤ c) (hc1 : c ≤ 1) (hB : B ≤ D) (hD : 0 ≤ D) :
    c * B ≤ D := by
  have h1 := mul_le_mul_of_nonneg_left hB hc0
  have h2 := mul_le_mul_of_nonneg_right hc1 hD
  linarith

/-- The output level in the three regions of the soft knee, as the input minus the
compressed share. -/
lemma computeOutputLevel_soft (g : GainComputer α) (hk : 0 < g.kneeWidth) (x : α) :
    (x ≤ g.threshold - g.kneeWidth / 2 → g.computeOutputLevel x = x) ∧
    (g.threshold - g.kneeWidth / 2 < x → x < g.threshold + g.kneeWidth / 2 →
      g.computeOutputLevel x = x - (1 - 1 / g.ratio) *
        ((x - g.threshold + g.kneeWidth / 2) * (x - g.threshold + g.kneeWidth / 2)
          / (2 * g.kneeWidth))) ∧
    (g.threshold + g.kneeWidth / 2 ≤ x →
      g.computeOutputLevel x = x - (1 - 1 / g.ratio) * (x - g.threshold)) := by
  refine ⟨fun h => ?_, fun h1 h2 => ?_, fun h => ?_⟩
  · simp [GainComputer.computeOutputLevel, GainComputer.computeGainReduction, hk, h]
  · simp only [GainComputer.computeOutputLevel, GainComputer.computeGainReduction,
      gt_iff_lt, ge_iff_le, hk, if_true, not_le.mpr h1, not_le.mpr h2, if_false]
    ring
  · have hlo : ¬ x ≤ g.threshold - g.kneeWidth / 2 := by
      intro h'
      linarith
    simp only [GainComputer.computeOutputLevel, GainComputer.computeGainReduction,
      gt_iff_lt, ge_iff_le, hk, if_true, hlo, if_false, h]
    ring

/-- The output level on the two sides of a hard knee. -/
lemma computeOutputLevel_hard (g : GainComputer α) (hk : ¬ 0 < g.kneeWidth) (x : α) :
    (x ≤ g.threshold → g.computeOutputLevel x = x) ∧
    (g.threshold < x →
      g.computeOutputLevel x = x - (1 - 1 / g.ratio) * (x - g.threshold)) := by
  refine ⟨fun h => ?_, fun h => ?_⟩
  · simp [GainComputer.computeOutputLevel, GainComputer.computeGainReduction, hk,
      not_lt.mpr h]
  · simp only [GainComputer.computeOutputLevel, GainComputer.computeGainReduction,
      gt_iff_lt, hk, if_false, h, if_true]
    ring

/-- Inside the knee the quadratic term is at least 0, at most the distance from the knee
start, and at least the overshoot above the threshold. -/
lemma knee_term_bounds (t k x : α) (hk : 0 < k) (h1 : t - k / 2 < x) (h2 : x < t + k / 2) :
    0 ≤ (x - t + k / 2) * (x - t + k / 2) / (2 * k) ∧
    (x - t + k / 2) * (x - t + k / 2) / (2 * k) ≤ x - (t - k / 2) ∧
    x - t ≤ (x - t + k / 2) * (x - t + k / 2) / (2 * k) := by
  have h2k : 0 < 2 * k := by linarith
  refine ⟨div_nonneg (mul_self_nonneg _) (le_of_lt h2k), ?_, ?_⟩
  · rw [div_le_iff₀ h2k]
    nlinarith
  · rw [le_div_iff₀ h2k]
    nlinarith [sq_nonneg (x - t - k / 2)]

/-- Between two points of the knee the quadratic term grows by at most the step. -/
lemma knee_term_step (t k x y : α) (hk : 0 < k) (_hx : t - k / 2 < x) (hxy : x ≤ y)
    (hy : y < t + k / 2) :
    (y - t + k / 2) * (y - t + k / 2) / (2 * k)
      - (x - t + k / 2) * (x - t + k / 2) / (2 * k) ≤ y - x := by
  have h2k : 0 < 2 * k := by linarith
  rw [← sub_div, div_le_iff₀ h2k]
  nlinarith

/-- In exact arithmetic the static transfer curve is monotone: for every threshold, ratio of
at least 1 and knee width of at least 0, `x ≤ y` gives
`computeOutputLevel x ≤ computeOutputLevel y`, across the below-knee, in-knee and above-knee
regions. -/
theorem computeOutputLevel_monotone (g : GainComputer α) (x y : α)
    (hratio : 1 ≤ g.ratio) (hknee : 0 ≤ g.kneeWidth) (hxy : x ≤ y) :
    g.computeOutputLevel x ≤ g.computeOutputLevel y := by
  have hr : 0 < g.ratio := lt_of_lt_of_le one_pos hratio
  have hinv : 1 / g.ratio ≤ 1 := by
    rw [div_le_one hr]
    exact hratio
  have hinv0 : 0 < 1 / g.ratio := div_pos one_pos hr
  have hc0 : 0 ≤ 1 - 1 / g.ratio := by linarith
  have hc1 : 1 - 1 / g.ratio ≤ 1 := by linarith
  have hD : 0 ≤ y - x := by linarith
  by_cases hk : 0 < g.kneeWidth
  · obtain ⟨xb, xk, xa⟩ := computeOutputLevel_soft g hk x
    obtain ⟨yb, yk, ya⟩ := computeOutputLevel_soft g hk y
    rcases le_or_lt x (g.threshold - g.kneeWidth / 2) with hx1 | hx1
    · rw [xb hx1]
      rcases le_or_lt y (g.threshold - g.kneeWidth / 2) with hy1 | hy1
      · rw [yb hy1]
        exact hxy
      · rcases lt_or_le y (g.threshold + g.kneeWidth / 2) with hy2 | hy2
        · rw [yk hy1 hy2]
          have hb := knee_term_bounds g.threshold g.kneeWidth y hk hy1 hy2
          have := share_le_step (1 - 1 / g.ratio) _ (y - x) hc0 hc1
            (le_trans hb.2.1 (by linarith)) hD
          linarith
        · rw [ya hy2]
          have := share_le_step (1 - 1 / g.ratio) (y - g.threshold) (y - x) hc0 hc1
            (by linarith) hD
          linarith
    · rcases lt_or_le x (g.threshold + g.kneeWidth / 2) with hx2 | hx2
      · rw [xk hx1 hx2]
        have hbx := knee_term_bounds g.threshold g.kneeWidth x hk hx1 hx2
        rcases lt_or_le y (g.threshold + g.kneeWidth / 2) with hy2 | hy2
        · rw [yk (lt_of_lt_of_le hx1 hxy) hy2]
          have hstep := knee_term_step g.threshold g.kneeWidth x y hk hx1 hxy hy2
          have := share_le_step (1 - 1 / g.ratio) _ (y - x) hc0 hc1 hstep hD
          linarith
        · rw [ya hy2]
          have := share_le_step (1 - 1 / g.ratio)
            ((y - g.threshold) - (x - g.threshold + g.kneeWidth / 2)
              * (x - g.threshold + g.kneeWidth / 2) / (2 * g.kneeWidth))
            (y - x) hc0 hc1 (by linarith [hbx.2.2]) hD
          linarith
      · rw [xa hx2, ya (le_trans hx2 hxy)]
        have := share_le_step (1 - 1 / g.ratio)
          ((y - g.threshold) - (x - g.threshold)) (y - x) hc0 hc1 (by linarith) hD
        linarith
  · obtain ⟨xb, xa⟩ := computeOutputLevel_hard g hk x
    obtain ⟨yb, ya⟩ := computeOutputLevel_hard g hk y
    have hk0 : g.kneeWidth = 0 := le_antisymm (not_lt.mp hk) hknee
    rcases le_or_lt x g.threshold with hx1 | hx1
    · rw [xb hx1]
      rcases le_or_lt y g.threshold with hy1 | hy1
      · rw [yb hy1]
        exact hxy
      · rw [ya hy1]
        have := share_le_step (1 - 1 / g.ratio) (y - g.threshold) (y - x) hc0 hc1
          (by linarith) hD
        linarith
    · rw [xa hx1, ya (lt_of_lt_of_le hx1 hxy)]
      have := share_le_step (1 - 1 / g.ratio)
        ((y - g.threshold) - (x - g.threshold)) (y - x) hc0 hc1 (by linarith) hD
      linarith

/-- The exact-arithmetic curve at threshold -18, ratio 4, knee 6 between -19 (inside the
knee) and -10 (above). -/
theorem computeOutputLevel_monotone_witness :
    GainComputer.computeOutputLevel
        ({ threshold := -18, ratio := 4, kneeWidth := 6 } : GainComputer ℚ) (-19)
      ≤ GainComputer.computeOutputLevel
        ({ threshold := -18, ratio := 4, kneeWidth := 6 } : GainComputer ℚ) (-10) :=
  computeOutputLevel_monotone
    ({ threshold := -18, ratio := 4, kneeWidth := 6 } : GainComputer ℚ) (-19) (-10)
    (by norm_num) (by norm_num) (by norm_num)

end TransferCurve

/-! ## Buffer access -/

section BufferLemmas

/-- Reading a list after `set`. -/
lemma getD_set_list {β : Type} (l : List β) (i i' : Nat) (v d : β) :
    (l.set i v).getD i' d = if i' = i ∧ i < l.length then v else l.getD i' d := by
  simp only [List.getD_eq_getElem?_getD, List.getElem?_set]
  by_cases h : i = i'
  · subst h
    by_cases hlt : i < l.length
    · simp [hlt]
    · simp [hlt, List.getElem?_eq_none (not_lt.mp hlt)]
  · simp [h, Ne.symm h]

/-- Reading a channel after `set`, when a write beyond the last channel writes `[]`. -/
lemma getD_set_chan {β : Type} (b : List (List β)) (ch ch' : Nat) (x : List β)
    (hx : ¬ ch < b.length → x = []) :
    (b.set ch x).getD ch' [] = if ch' = ch then x else b.getD ch' [] := by
  simp only [List.getD_eq_getElem?_getD, List.getElem?_set]
  by_cases h : ch = ch'
  · subst h
    by_cases hlt : ch < b.length
    · simp [hlt]
    · simp [hlt, hx hlt]
  · simp [h, Ne.symm h]

variable {α : Type} [LinearOrderedField α]

/-- The channels of a buffer after `setSample`. -/
lemma getD_setSample {β : Type} (b : AudioBuffer β) (ch i : Nat) (v : β) (ch' : Nat) :
    (setSample b ch i v).getD ch' []
      = if ch' = ch then (b.getD ch []).set i v else b.getD ch' [] := by
  unfold setSample
  apply getD_set_chan
  intro hlt
  have hnone : b.getD ch [] = [] := by
    simp [List.getD_eq_getElem?_getD, List.getElem?_eq_none (not_lt.mp hlt)]
  rw [hnone]
  rfl

/-- A sample read back after `setSample`. -/
lemma getSample_setSample (b : AudioBuffer α) (ch i : Nat) (v : α) (ch' i' : Nat) :
    getSample (setSample b ch i v) ch' i'
      = if ch' = ch ∧ i' = i ∧ i < (b.getD ch []).length then v else getSample b ch' i' := by
  unfold getSample
  rw [getD_setSample]
  by_cases h : ch' = ch
  · subst h
    rw [if_pos rfl, getD_set_list]
    simp only [true_and]
  · rw [if_neg h, if_neg (fun hc => h hc.1)]

/-- The shape of a buffer is unchanged by `setSample`. -/
lemma shape_setSample {β : Type} (b : AudioBuffer β) (ch i : Nat) (v : β) :
    (setSample b ch i v).length = b.length ∧
    ∀ ch' : Nat, ((setSample b ch i v).getD ch' []).length = (b.getD ch' []).length := by
  refine ⟨by simp [setSample], fun ch' => ?_⟩
  rw [getD_setSample]
  split_ifs with h
  · rw [List.length_set, h]
  · rfl

end BufferLemmas

/-! ## The sample loop of the compressor core -/

section SampleLoop

variable {α : Type} [LinearOrderedField α]

/-- The saturation depends on the core only through its character. -/
lemma applyModelSaturation_congr (tanh : α → α) (c c' : CompressorCore α)
    (h : c.coreMaterial = c'.coreMaterial) (x : α) :
    c.applyModelSaturation tanh x = c'.applyModelSaturation tanh x := by
  unfold CompressorCore.applyModelSaturation
  rw [h]

/-- The channel loop after its first `k` channels: the shape is kept, and exactly the
samples at index `sample` of those channels are replaced by the saturated product. -/
lemma applyGain_fold (tanh : α → α) (c : CompressorCore α) (g : α) (sample : Nat)
    (b : AudioBuffer α) (k : Nat) :
    ((List.range k).foldl
        (fun b' ch => setSample b' ch sample
          (c.applyModelSaturation tanh (getSample b' ch sample * g))) b).length = b.length ∧
    (∀ ch : Nat, (((List.range k).foldl
        (fun b' ch => setSample b' ch sample
          (c.applyModelSaturation tanh (getSample b' ch sample * g))) b).getD ch []).length
      = (b.getD ch []).length) ∧
    (∀ ch i : Nat, getSample ((List.range k).foldl
        (fun b' ch => setSample b' ch sample
          (c.applyModelSaturation tanh (getSample b' ch sample * g))) b) ch i
      = if ch < k ∧ i = sample ∧ sample < (b.getD ch []).length then
          c.applyModelSaturation tanh (getSample b ch sample * g)
        else getSample b ch i) := by
  induction k with
  | zero =>
    refine ⟨rfl, fun _ => rfl, fun ch i => ?_⟩
    simp
  | succ k ih =>
    obtain ⟨hlen, hchan, hget⟩ := ih
    rw [List.range_succ, List.foldl_append]
    simp only [List.foldl_cons, List.foldl_nil]
    have hshape := shape_setSample ((List.range k).foldl
        (fun b' ch => setSample b' ch sample
          (c.applyModelSaturation tanh (getSample b' ch sample * g))) b) k sample
        (c.applyModelSaturation tanh (getSample ((List.range k).foldl
        (fun b' ch => setSample b' ch sample
          (c.applyModelSaturation tanh (getSample b' ch sample * g))) b) k sample * g))
    refine ⟨hshape.1.trans hlen, fun ch => (hshape.2 ch).trans (hchan ch), fun ch i => ?_⟩
    rw [getSample_setSample, hchan k, hget k sample, hget ch i]
    have hkk : ¬ (k < k ∧ sample = sample ∧ sample < (b.getD k []).length) :=
      fun h => lt_irrefl k h.1
    rw [if_neg hkk]
    by_cases hck : ch = k
    · subst hck
      by_cases hcond : i = sample ∧ sample < (b.getD ch []).length
      · rw [if_pos ⟨rfl, hcond⟩, if_pos ⟨Nat.lt_succ_self ch, hcond⟩]
      · rw [if_neg (fun h => hcond h.2), if_neg (fun h => lt_irrefl ch h.1),
          if_neg (fun h => hcond h.2)]
    · rw [if_neg (fun h => hck h.1)]
      by_cases hlt : ch < k
      · by_cases hcond : i = sample ∧ sample < (b.getD ch []).length
        · rw [if_pos ⟨hlt, hcond⟩, if_pos ⟨Nat.lt_succ_of_lt hlt, hcond⟩]
        · rw [if_neg (fun h => hcond h.2), if_neg (fun h => hcond h.2)]
      · have hnot : ¬ ch < k + 1 := by omega
        rw [if_neg (fun h => hlt h.1), if_neg (fun h => hnot h.1)]

/-- The channel loop: the shape is kept, and exactly the samples at index `sample` are
replaced by the saturated product of the sample and the gain. -/
lemma applyGain_spec (tanh : α → α) (c : CompressorCore α) (g : α) (sample : Nat)
    (b : AudioBuffer α) :
    (CompressorCore.applyGain tanh c g sample b).length = b.length ∧
    (∀ ch : Nat, ((CompressorCore.applyGain tanh c g sample b).getD ch []).length
      = (b.getD ch []).length) ∧
    (∀ ch i : Nat, getSample (CompressorCore.applyGain tanh c g sample b) ch i
      = if i = sample ∧ sample < (b.getD ch []).length then
          c.applyModelSaturation tanh (getSample b ch sample * g)
        else getSample b ch i) := by
  obtain ⟨hlen, hchan, hget⟩ := applyGain_fold tanh c g sample b (getNumChannels b)
  refine ⟨hlen, hchan, fun ch i => ?_⟩
  have h := hget ch i
  unfold CompressorCore.applyGain
  simp only at h ⊢
  rw [h]
  by_cases hcond : i = sample ∧ sample < (b.getD ch []).length
  · have hch : ch < getNumChannels b := by
      unfold getNumChannels
      by_contra hge
      have hnone : b.getD ch [] = [] := by
        simp [List.getD_eq_getElem?_getD, List.getElem?_eq_none (not_lt.mp hge)]
      rw [hnone] at hcond
      exact Nat.not_lt_zero _ hcond.2
    rw [if_pos ⟨hch, hcond⟩, if_pos hcond]
  · rw [if_neg (fun h' => hcond h'.2), if_neg hcond]

/-- The detector input reads only the channel count and the samples at its own index. -/
lemma detectorInput_congr (b b' : AudioBuffer α) (sc : Option (AudioBuffer α)) (i : Nat)
    (hlen : b'.length = b.length) (hget : ∀ ch : Nat, getSample b' ch i = getSample b ch i) :
    CompressorCore.detectorInput b' sc i = CompressorCore.detectorInput b sc i := by
  unfold CompressorCore.detectorInput getNumChannels
  simp only [hlen, hget]

end SampleLoop

section SampleLoopRun

variable {α : Type} [LinearOrderedField α] [FloorRing α]

/-- The sample loop after one more index. -/
lemma run_succ (sqrt log10 tanh : α → α) (pow : α → α → α)
    (sc : Option (AudioBuffer α)) (c : CompressorCore α) (b : AudioBuffer α) (n : Nat) :
    (List.range (n + 1)).foldl (CompressorCore.processSample sqrt log10 tanh pow sc) (c, b)
      = CompressorCore.processSample sqrt log10 tanh pow sc
          ((List.range n).foldl (CompressorCore.processSample sqrt log10 tanh pow sc) (c, b))
          n := by
  rw [List.range_succ, List.foldl_append]
  rfl

/-- The state of the sample loop after its first `n` indices: character and shape are
kept; the samples from index `n` on are still the input; the samples before `n` are the
saturated product of the input sample and the gain of their index; and the detector has
been stepped once per index, in order, on the detector inputs of the original buffers. -/
lemma run_state (sqrt log10 tanh : α → α) (pow : α → α → α)
    (sc : Option (AudioBuffer α)) (c : CompressorCore α) (b : AudioBuffer α) (n : Nat) :
    ((List.range n).foldl (CompressorCore.processSample sqrt log10 tanh pow sc)
        (c, b)).1.coreMaterial = c.coreMaterial ∧
    ((List.range n).foldl (CompressorCore.processSample sqrt log10 tanh pow sc)
        (c, b)).2.length = b.length ∧
    (∀ ch : Nat, (((List.range n).foldl
        (CompressorCore.processSample sqrt log10 tanh pow sc) (c, b)).2.getD ch []).length
      = (b.getD ch []).length) ∧
    (∀ ch i : Nat, n ≤ i →
      getSample ((List.range n).foldl
        (CompressorCore.processSample sqrt log10 tanh pow sc) (c, b)).2 ch i
        = getSample b ch i) ∧
    (∀ ch i : Nat, i < n → i < (b.getD ch []).length →
      getSample ((List.range n).foldl
        (CompressorCore.processSample sqrt log10 tanh pow sc) (c, b)).2 ch i
        = c.applyModelSaturation tanh (getSample b ch i * decibelsToGain pow
            ((List.range (i + 1)).foldl
              (CompressorCore.processSample sqrt log10 tanh pow sc)
              (c, b)).1.currentGainReductionDb)) ∧
    ((List.range n).foldl (CompressorCore.processSample sqrt log10 tanh pow sc)
        (c, b)).1.levelDetector
      = ((List.range n).map (CompressorCore.detectorInput b sc)).foldl
          (fun d p => (d.processStereo sqrt log10 p.1 p.2).1) c.levelDetector := by
  induction n with
  | zero =>
    refine ⟨rfl, rfl, fun _ => rfl, fun _ _ _ => rfl, fun ch i hi => ?_, rfl⟩
    exact absurd hi (Nat.not_lt_zero i)
  | succ n ih =>
    obtain ⟨hmat, hlen, hchan, hlater, hdone, hdet⟩ := ih
    have hsucc := run_succ sqrt log10 tanh pow sc c b n
    have hbuf : (CompressorCore.processSample sqrt log10 tanh pow sc
        ((List.range n).foldl (CompressorCore.processSample sqrt log10 tanh pow sc) (c, b))
        n).2
        = CompressorCore.applyGain tanh
            (CompressorCore.processSample sqrt log10 tanh pow sc
              ((List.range n).foldl (CompressorCore.processSample sqrt log10 tanh pow sc)
                (c, b)) n).1
            (decibelsToGain pow (CompressorCore.processSample sqrt log10 tanh pow sc
              ((List.range n).foldl (CompressorCore.processSample sqrt log10 tanh pow sc)
                (c, b)) n).1.currentGainReductionDb)
            n
            ((List.range n).foldl (CompressorCore.processSample sqrt log10 tanh pow sc)
              (c, b)).2 := rfl
    have hmat1 : (CompressorCore.processSample sqrt log10 tanh pow sc
        ((List.range n).foldl (CompressorCore.processSample sqrt log10 tanh pow sc) (c, b))
        n).1.coreMaterial = c.coreMaterial := hmat
    have hdet1 : (CompressorCore.processSample sqrt log10 tanh pow sc
        ((List.range n).foldl (CompressorCore.processSample sqrt log10 tanh pow sc) (c, b))
        n).1.levelDetector
        = (((List.range n).foldl (CompressorCore.processSample sqrt log10 tanh pow sc)
              (c, b)).1.levelDetector.processStereo sqrt log10
            (CompressorCore.detectorInput ((List.range n).foldl
              (CompressorCore.processSample sqrt log10 tanh pow sc) (c, b)).2 sc n).1
            (CompressorCore.detectorInput ((List.range n).foldl
              (CompressorCore.processSample sqrt log10 tanh pow sc) (c, b)).2 sc n).2).1 :=
      rfl
    obtain ⟨glen, gchan, gget⟩ := applyGain_spec tanh
      (CompressorCore.processSample sqrt log10 tanh pow sc
        ((List.range n).foldl (CompressorCore.processSample sqrt log10 tanh pow sc) (c, b))
        n).1
      (decibelsToGain pow (CompressorCore.processSample sqrt log10 tanh pow sc
        ((List.range n).foldl (CompressorCore.processSample sqrt log10 tanh pow sc) (c, b))
        n).1.currentGainReductionDb)
      n
      ((List.range n).foldl (CompressorCore.processSample sqrt log10 tanh pow sc) (c, b)).2
    rw [← hbuf] at glen gchan gget
    refine ⟨?_, ?_, ?_, ?_, ?_, ?_⟩
    · rw [hsucc]
      exact hmat1
    · rw [hsucc]
      exact glen.trans hlen
    · intro ch
      rw [hsucc]
      exact (gchan ch).trans (hchan ch)
    · intro ch i hi
      rw [hsucc, gget ch i, if_neg (fun h => by omega)]
      exact hlater ch i (by omega)
    · intro ch i hi hin
      rw [hsucc, gget ch i]
      by_cases hin' : i = n
      · subst hin'
        rw [if_pos ⟨rfl, by rw [hchan ch]; exact hin⟩, hlater ch i (le_refl i), hsucc]
        exact applyModelSaturation_congr tanh _ c hmat1 _
      · rw [if_neg (fun h => hin' h.1)]
        exact hdone ch i (by omega) hin
    · rw [hsucc, hdet1, hdet, List.range_succ, List.map_append, List.foldl_append,
        detectorInput_congr b _ sc n hlen (fun ch => hlater ch n (le_refl n))]
      rfl

/-- C22: in `process`, for every sample index `i`, the detector input is taken from the
sidechain buffer (channel 0, and channel 1 or channel 0 again when it is mono) exactly
when a sidechain buffer is supplied and has more than `i` samples; otherwise it is the
main signal's own channels 0 and 1 (channel 0 twice when mono).  The input is read
before index `i` is overwritten (the buffer the loop holds at index `i` gives the same
detector input as the buffer passed in), and no index is skipped: over the whole call the
detector is stepped once per index, in order, on these inputs. -/
theorem detector_input_selection (sqrt log10 tanh : α → α) (pow : α → α → α)
    (c : CompressorCore α) (buffer : AudioBuffer α) (sc : Option (AudioBuffer α))
    (i : Nat) :
    (∀ s : AudioBuffer α, sc = some s → getNumSamples s > i →
      CompressorCore.detectorInput buffer sc i
        = (getSample s 0 i,
            if getNumChannels s > 1 then getSample s 1 i else getSample s 0 i)) ∧
    (∀ s : AudioBuffer α, sc = some s → ¬ getNumSamples s > i →
      CompressorCore.detectorInput buffer sc i
        = (getSample buffer 0 i,
            if getNumChannels buffer > 1 then getSample buffer 1 i
            else getSample buffer 0 i)) ∧
    (sc = none →
      CompressorCore.detectorInput buffer sc i
        = (getSample buffer 0 i,
            if getNumChannels buffer > 1 then getSample buffer 1 i
            else getSample buffer 0 i)) ∧
    CompressorCore.detectorInput
        ((List.range i).foldl (CompressorCore.processSample sqrt log10 tanh pow sc)
          (c, buffer)).2 sc i
      = CompressorCore.detectorInput buffer sc i ∧
    (CompressorCore.processSample sqrt log10 tanh pow sc
        ((List.range i).foldl (CompressorCore.processSample sqrt log10 tanh pow sc)
          (c, buffer)) i).1.levelDetector
      = (((List.range i).foldl (CompressorCore.processSample sqrt log10 tanh pow sc)
            (c, buffer)).1.levelDetector.processStereo sqrt log10
          (CompressorCore.detectorInput buffer sc i).1
          (CompressorCore.detectorInput buffer sc i).2).1 ∧
    (c.process sqrt log10 tanh pow buffer sc).1.levelDetector
      = ((List.range (getNumSamples buffer)).map
            (CompressorCore.detectorInput buffer sc)).foldl
          (fun d p => (d.processStereo sqrt log10 p.1 p.2).1) c.levelDetector := by
  obtain ⟨_, hlen, _, hlater, _, _⟩ := run_state sqrt log10 tanh pow sc c buffer i
  have hcongr := detectorInput_congr buffer
    ((List.range i).foldl (CompressorCore.processSample sqrt log10 tanh pow sc)
      (c, buffer)).2 sc i hlen (fun ch => hlater ch i (le_refl i))
  refine ⟨fun s hs hgt => ?_, fun s hs hle => ?_, fun hs => ?_, hcongr, ?_,
    (run_state sqrt log10 tanh pow sc c buffer (getNumSamples buffer)).2.2.2.2.2⟩
  · subst hs
    simp only [CompressorCore.detectorInput, hgt, if_true]
  · subst hs
    simp only [CompressorCore.detectorInput, hle, if_false]
  · subst hs
    simp only [CompressorCore.detectorInput]
  · rw [← hcongr]
    rfl

/-- C23: in `process`, for every sample index `i` of the buffer there is a single linear
gain, `decibelsToGain` of the smoothed gain reduction of that sample, such that on every
channel `ch` (any channel index) the output sample is the saturation of the input sample
times that gain; two channels with equal input at `i` have equal output at `i`; and the
value stored for `getGainReductionDb` at that sample is that same smoothed gain
reduction, the next value of the smoother after its target is set to the modified gain
reduction. -/
theorem shared_gain_per_sample (sqrt log10 tanh : α → α) (pow : α → α → α)
    (c : CompressorCore α) (buffer : AudioBuffer α) (sc : Option (AudioBuffer α))
    (i ch ch' : Nat) (hi : i < getNumSamples buffer)
    (hch : i < (buffer.getD ch []).length) (hch' : i < (buffer.getD ch' []).length) :
    getSample (c.process sqrt log10 tanh pow buffer sc).2 ch i
      = c.applyModelSaturation tanh (getSample buffer ch i * decibelsToGain pow
          ((List.range (i + 1)).foldl (CompressorCore.processSample sqrt log10 tanh pow sc)
            (c, buffer)).1.getGainReductionDb) ∧
    getSample (c.process sqrt log10 tanh pow buffer sc).2 ch' i
      = c.applyModelSaturation tanh (getSample buffer ch' i * decibelsToGain pow
          ((List.range (i + 1)).foldl (CompressorCore.processSample sqrt log10 tanh pow sc)
            (c, buffer)).1.getGainReductionDb) ∧
    (getSample buffer ch i = getSample buffer ch' i →
      getSample (c.process sqrt log10 tanh pow buffer sc).2 ch i
        = getSample (c.process sqrt log10 tanh pow buffer sc).2 ch' i) ∧
    ((List.range (i + 1)).foldl (CompressorCore.processSample sqrt log10 tanh pow sc)
        (c, buffer)).1.getGainReductionDb
      = ((((List.range i).foldl (CompressorCore.processSample sqrt log10 tanh pow sc)
            (c, buffer)).1.smoothedGainReduction.setTargetValue
          (((List.range i).foldl (CompressorCore.processSample sqrt log10 tanh pow sc)
            (c, buffer)).1.applyModelCharacter
            (((List.range i).foldl (CompressorCore.processSample sqrt log10 tanh pow sc)
              (c, buffer)).1.gainComputer.computeGainReduction
              (((List.range i).foldl (CompressorCore.processSample sqrt log10 tanh pow sc)
                (c, buffer)).1.levelDetector.processStereo sqrt log10
                (CompressorCore.detectorInput buffer sc i).1
                (CompressorCore.detectorInput buffer sc i).2).2)
            (((List.range i).foldl (CompressorCore.processSample sqrt log10 tanh pow sc)
              (c, buffer)).1.levelDetector.processStereo sqrt log10
              (CompressorCore.detectorInput buffer sc i).1
              (CompressorCore.detectorInput buffer sc i).2).2)).getNextValue).2 := by
  obtain ⟨_, _, _, _, hdone, _⟩ :=
    run_state sqrt log10 tanh pow sc c buffer (getNumSamples buffer)
  have h1 : getSample (c.process sqrt log10 tanh pow buffer sc).2 ch i
      = c.applyModelSaturation tanh (getSample buffer ch i * decibelsToGain pow
          ((List.range (i + 1)).foldl (CompressorCore.processSample sqrt log10 tanh pow sc)
            (c, buffer)).1.getGainReductionDb) := hdone ch i hi hch
  have h2 : getSample (c.process sqrt log10 tanh pow buffer sc).2 ch' i
      = c.applyModelSaturation tanh (getSample buffer ch' i * decibelsToGain pow
          ((List.range (i + 1)).foldl (CompressorCore.processSample sqrt log10 tanh pow sc)
            (c, buffer)).1.getGainReductionDb) := hdone ch' i hi hch'
  obtain ⟨_, hlen, _, hlater, _, _⟩ := run_state sqrt log10 tanh pow sc c buffer i
  have hcongr := detectorInput_congr buffer
    ((List.range i).foldl (CompressorCore.processSample sqrt log10 tanh pow sc)
      (c, buffer)).2 sc i hlen (fun k => hlater k i (le_refl i))
  refine ⟨h1, h2, fun heq => ?_, ?_⟩
  · rw [h1, h2, heq]
  · rw [run_succ, ← hcongr]
    rfl

/-- C23 on a two-channel buffer of two samples with equal first samples, VCA character
and stand-ins for the library functions: both channels give the same output at index 0. -/
theorem shared_gain_per_sample_witness :
    getSample (CompressorCore.process (fun y : ℚ => y) (fun y => y) (fun y => y)
        (fun _ y => 1 + y) CompressorCore.init [[1 / 2, 1], [1 / 2, -1]] none).2 0 0
      = getSample (CompressorCore.process (fun y : ℚ => y) (fun y => y) (fun y => y)
        (fun _ y => 1 + y) CompressorCore.init [[1 / 2, 1], [1 / 2, -1]] none).2 1 0 :=
  (shared_gain_per_sample (fun y : ℚ => y) (fun y => y) (fun y => y) (fun _ y => 1 + y)
    CompressorCore.init [[1 / 2, 1], [1 / 2, -1]] none 0 0 1
    (by decide) (by decide) (by decide)).2.2.1 rfl

end SampleLoopRun

/-! ## Non-negative envelope and the junction of the soft clipper -/

section EnvelopeNonneg

/-- A follower step from an envelope at or above 0 toward a level at or above 0 ends at
or above 0. -/
lemma follow_nonneg (d : LevelDetector ℝ) (v : ℝ)
    (ha0 : 0 ≤ d.attackCoeff) (ha1 : d.attackCoeff ≤ 1)
    (hr0 : 0 ≤ d.releaseCoeff) (hr1 : d.releaseCoeff ≤ 1) (henv : 0 ≤ d.envelope)
    (hv : 0 ≤ v) : 0 ≤ (d.follow v).envelope :=
  le_trans (le_min henv hv) (follow_between d v ha0 ha1 hr0 hr1).1

/-- One call keeps the coefficients, and keeps the envelope at or above 0 when the
coefficients lie in `[0, 1]`. -/
lemma step_invariant (d : LevelDetector ℝ) (call : DetectorCall ℝ)
    (ha0 : 0 ≤ d.attackCoeff) (ha1 : d.attackCoeff ≤ 1)
    (hr0 : 0 ≤ d.releaseCoeff) (hr1 : d.releaseCoeff ≤ 1) (henv : 0 ≤ d.envelope) :
    (d.step Real.sqrt (Real.logb 10) call).attackCoeff = d.attackCoeff ∧
    (d.step Real.sqrt (Real.logb 10) call).releaseCoeff = d.releaseCoeff ∧
    0 ≤ (d.step Real.sqrt (Real.logb 10) call).envelope := by
  cases call with
  | process x =>
    obtain ⟨d1, he, ha, hr, hp⟩ := process_eq_follow Real.sqrt (Real.logb 10) d x
    have hlvl : 0 ≤ (match d.mode with
        | Mode.RMS => (LevelDetector.accumulateRms Real.sqrt d (x * x)).2
        | _ => |x|) := by
      cases d.mode
      · exact abs_nonneg x
      · simp only [LevelDetector.accumulateRms]
        split_ifs
        · exact Real.sqrt_nonneg _
        · exact henv
      · exact abs_nonneg x
    have hfr := follow_frame d1 (match d.mode with
        | Mode.RMS => (LevelDetector.accumulateRms Real.sqrt d (x * x)).2
        | _ => |x|)
    simp only [LevelDetector.step]
    rw [hp]
    exact ⟨hfr.2.1.trans ha, hfr.2.2.1.trans hr,
      follow_nonneg d1 _ (by rw [ha]; exact ha0) (by rw [ha]; exact ha1)
        (by rw [hr]; exact hr0) (by rw [hr]; exact hr1) (by rw [he]; exact henv) hlvl⟩
  | processStereo l r =>
    obtain ⟨d1, he, ha, hr, hp⟩ := processStereo_eq_follow Real.sqrt (Real.logb 10) d l r
    have hlvl : 0 ≤ (if d.mode = Mode.RMS then
          (LevelDetector.accumulateRms Real.sqrt d ((l * l + r * r) * 0.5)).2
        else max |l| |r|) := by
      split_ifs
      · simp only [LevelDetector.accumulateRms]
        split_ifs
        · exact Real.sqrt_nonneg _
        · exact henv
      · exact le_trans (abs_nonneg l) (le_max_left _ _)
    have hfr := follow_frame d1 (if d.mode = Mode.RMS then
          (LevelDetector.accumulateRms Real.sqrt d ((l * l + r * r) * 0.5)).2
        else max |l| |r|)
    simp only [LevelDetector.step]
    rw [hp]
    exact ⟨hfr.2.1.trans ha, hfr.2.2.1.trans hr,
      follow_nonneg d1 _ (by rw [ha]; exact ha0) (by rw [ha]; exact ha1)
        (by rw [hr]; exact hr0) (by rw [hr]; exact hr1) (by rw [he]; exact henv) hlvl⟩
  | setMode m => exact ⟨rfl, rfl, henv⟩

/-- A sequence of calls keeps the envelope at or above 0. -/
lemma run_envelope_nonneg (calls : List (DetectorCall ℝ)) :
    ∀ d : LevelDetector ℝ, 0 ≤ d.attackCoeff → d.attackCoeff ≤ 1 →
      0 ≤ d.releaseCoeff → d.releaseCoeff ≤ 1 → 0 ≤ d.envelope →
      0 ≤ (d.run Real.sqrt (Real.logb 10) calls).envelope := by
  induction calls with
  | nil =>
    intro d _ _ _ _ henv
    exact henv
  | cons call rest ih =>
    intro d ha0 ha1 hr0 hr1 henv
    obtain ⟨ha, hr, he⟩ := step_invariant d call ha0 ha1 hr0 hr1 henv
    have h := ih (d.step Real.sqrt (Real.logb 10) call) (by rw [ha]; exact ha0)
      (by rw [ha]; exact ha1) (by rw [hr]; exact hr0) (by rw [hr]; exact hr1) he
    exact h

/-- C27: the detector envelope is at least 0 in every reachable state: starting from
reset, after any sequence of `process` and `processStereo` calls in any mode, with any
mode changes in between, and with attack and release coefficients in `(0, 1]`. -/
theorem envelope_nonneg_reachable (d : LevelDetector ℝ) (calls : List (DetectorCall ℝ))
    (ha0 : 0 < d.attackCoeff) (ha1 : d.attackCoeff ≤ 1)
    (hr0 : 0 < d.releaseCoeff) (hr1 : d.releaseCoeff ≤ 1) :
    0 ≤ (d.reset.run Real.sqrt (Real.logb 10) calls).envelope :=
  run_envelope_nonneg calls d.reset (le_of_lt ha0) ha1 (le_of_lt hr0) hr1 (le_refl 0)

/-- C27 on a new detector: a mono sample, a switch to RMS mode, a stereo sample and a
switch to TruePeak mode. -/
theorem envelope_nonneg_reachable_witness :
    0 ≤ (LevelDetector.run Real.sqrt (Real.logb 10)
      (LevelDetector.init : LevelDetector ℝ).reset
      [DetectorCall.process (-1), DetectorCall.setMode Mode.RMS,
        DetectorCall.processStereo 1 (-2), DetectorCall.setMode Mode.TruePeak]).envelope :=
  envelope_nonneg_reachable (LevelDetector.init : LevelDetector ℝ)
    [DetectorCall.process (-1), DetectorCall.setMode Mode.RMS,
      DetectorCall.processStereo 1 (-2), DetectorCall.setMode Mode.TruePeak]
    (by
      show (0 : ℝ) < 0.01
      norm_num)
    (by
      show (0.01 : ℝ) ≤ 1
      norm_num)
    (by
      show (0 : ℝ) < 0.001
      norm_num)
    (by
      show (0.001 : ℝ) ≤ 1
      norm_num)

end EnvelopeNonneg

section SoftClipJunction

/-- Upper bound on `tanh 1`, from `e < 2.72`. -/
lemma tanh_one_lt : Real.tanh 1 < 0.77 := by
  have he2 : Real.exp 1 < (2.72 : ℝ) := by
    have := Real.exp_one_lt_d9
    linarith
  have hEpos : 0 < Real.exp 1 := Real.exp_pos 1
  have hinv : Real.exp (-1) = (Real.exp 1)⁻¹ := Real.exp_neg 1
  have hinvlo : (1 / 2.72 : ℝ) < (Real.exp 1)⁻¹ := by
    rw [one_div]
    exact inv_strictAnti₀ hEpos he2
  have hden : 0 < Real.exp 1 + (Real.exp 1)⁻¹ := by
    have := inv_pos.mpr hEpos
    linarith
  have ht : Real.tanh 1 = (Real.exp 1 - (Real.exp 1)⁻¹) / (Real.exp 1 + (Real.exp 1)⁻¹) := by
    rw [Real.tanh_eq_sinh_div_cosh, Real.sinh_eq, Real.cosh_eq, hinv]
    field_simp
  rw [ht, div_lt_iff₀ hden]
  norm_num at hinvlo ⊢
  linarith

/-- C24 fails on the code: `softClip` jumps at 1.  Just below 1 the cubic branch is within
0.001 of 1 (its limit from below is 1), while at 1 the `tanh` branch returns `tanh 1`,
which is below 0.77: a drop of more than 0.22. -/
theorem softClip_jump_at_one :
    HeatSink.softClip Real.tanh 1 = Real.tanh 1 ∧
    HeatSink.softClip Real.tanh 1 < 0.77 ∧
    (∀ y : ℝ, 0.99 ≤ y → y < 1 → 0.999 < HeatSink.softClip Real.tanh y) ∧
    Filter.Tendsto (HeatSink.softClip Real.tanh) (nhdsWithin 1 (Set.Iio 1)) (nhds 1) ∧
    0.22 < 1 - HeatSink.softClip Real.tanh 1 := by
  have h1 : HeatSink.softClip Real.tanh 1 = Real.tanh 1 := by
    simp [HeatSink.softClip]
  have hcubic : ∀ y : ℝ, |y| < 1 →
      HeatSink.softClip Real.tanh y = y * (1.5 - 0.5 * (y * y)) := by
    intro y hy
    simp only [HeatSink.softClip, hy, if_true]
  have hlim : Filter.Tendsto (fun y : ℝ => y * (1.5 - 0.5 * (y * y)))
      (nhdsWithin 1 (Set.Iio 1)) (nhds 1) := by
    have hcont : Continuous (fun y : ℝ => y * (1.5 - 0.5 * (y * y))) := by fun_prop
    have h := (hcont.tendsto 1).mono_left (nhdsWithin_le_nhds (s := Set.Iio (1 : ℝ)))
    have hval : (1 : ℝ) * (1.5 - 0.5 * (1 * 1)) = 1 := by norm_num
    rw [hval] at h
    exact h
  have hmem : Set.Ioo (0 : ℝ) 1 ∈ nhdsWithin (1 : ℝ) (Set.Iio 1) :=
    Ioo_mem_nhdsWithin_Iio ⟨by norm_num, le_refl 1⟩
  refine ⟨h1, by rw [h1]; exact tanh_one_lt, fun y hlo hhi => ?_, ?_, ?_⟩
  · rw [hcubic y (abs_lt.mpr ⟨by linarith, hhi⟩)]
    nlinarith [mul_nonneg (sq_nonneg (y - 1)) (by linarith : (0 : ℝ) ≤ y + 2)]
  · refine hlim.congr' ?_
    filter_upwards [hmem] with y hy
    exact (hcubic y (abs_lt.mpr ⟨by linarith [hy.1], hy.2⟩)).symm
  · rw [h1]
    linarith [tanh_one_lt]

end SoftClipJunction

/-! ## Properties that depend on `float` rounding -/

section Rounding

lemma roundHalfEven_cases (q : ℚ) :
    roundHalfEven q = ⌊q⌋ ∨ roundHalfEven q = ⌊q⌋ + 1 := by
  unfold roundHalfEven
  split_ifs <;> simp

lemma abs_roundHalfEven_sub_le (q : ℚ) : |(roundHalfEven q : ℚ) - q| ≤ 1 / 2 := by
  have h1 := Int.floor_le q
  have h2 := Int.lt_floor_add_one q
  unfold roundHalfEven
  rw [abs_le]
  split_ifs <;> push_cast <;> constructor <;> linarith

lemma roundHalfEven_intCast (n : ℤ) : roundHalfEven (n : ℚ) = n := by
  unfold roundHalfEven
  simp

lemma roundHalfEven_mono {a b : ℚ} (h : a ≤ b) : roundHalfEven a ≤ roundHalfEven b := by
  have hfl : ⌊a⌋ ≤ ⌊b⌋ := Int.floor_mono h
  rcases lt_or_eq_of_le hfl with hlt | heq
  · have ha : roundHalfEven a ≤ ⌊a⌋ + 1 := by
      rcases roundHalfEven_cases a with h1 | h1 <;> omega
    have hb : ⌊b⌋ ≤ roundHalfEven b := by
      rcases roundHalfEven_cases b with h1 | h1 <;> omega
    omega
  · unfold roundHalfEven
    rw [heq]
    split_ifs <;> first | omega | (exfalso; linarith)

lemma le_roundHalfEven {n : ℤ} {q : ℚ} (h : (n : ℚ) ≤ q) : n ≤ roundHalfEven q := by
  have := roundHalfEven_mono h
  rwa [roundHalfEven_intCast] at this

lemma roundHalfEven_le {n : ℤ} {q : ℚ} (h : q ≤ (n : ℚ)) : roundHalfEven q ≤ n := by
  have := roundHalfEven_mono h
  rwa [roundHalfEven_intCast] at this

lemma two_zpow_pos (k : ℤ) : (0 : ℚ) < 2 ^ k :=
  zpow_pos (by norm_num) k

lemma two_zpow_le {m n : ℤ} (h : m ≤ n) : (2 : ℚ) ^ m ≤ 2 ^ n :=
  zpow_le_zpow_right₀ (by norm_num) h

lemma two_zpow_succ (k : ℤ) : (2 : ℚ) ^ (k + 1) = 2 ^ k * 2 := by
  rw [zpow_add₀ (by norm_num : (2 : ℚ) ≠ 0), zpow_one]

lemma two_zpow_log_le {q : ℚ} (hq : 0 < q) : (2 : ℚ) ^ Int.log 2 q ≤ q := by
  have h := Int.zpow_log_le_self (b := 2) (by norm_num) hq
  rwa [Nat.cast_ofNat] at h

lemma lt_two_zpow_log_succ (q : ℚ) : q < (2 : ℚ) ^ (Int.log 2 q + 1) := by
  have h := Int.lt_zpow_succ_log_self (b := 2) (by norm_num) q
  rwa [Nat.cast_ofNat] at h

lemma log_le_expF32 (q : ℚ) : Int.log 2 q ≤ expF32 q :=
  le_max_left _ _

lemma expF32_ge (q : ℚ) : -126 ≤ expF32 q :=
  le_max_right _ _

lemma lt_two_zpow_expF32_succ (q : ℚ) : q < (2 : ℚ) ^ (expF32 q + 1) :=
  lt_of_lt_of_le (lt_two_zpow_log_succ q) (two_zpow_le (by linarith [log_le_expF32 q]))

lemma expF32_mono {a b : ℚ} (ha : 0 < a) (h : a ≤ b) : expF32 a ≤ expF32 b :=
  max_le_max (Int.log_mono_right ha h) (le_refl _)

/-- The grid spacing times `2 ^ 24` is the top of the binade. -/
lemma grid_mul (e : ℤ) : (2 : ℚ) ^ (e - 23) * 16777216 = 2 ^ (e + 1) := by
  have h : (16777216 : ℚ) = 2 ^ (24 : ℤ) := by norm_num
  rw [h, ← zpow_add₀ (by norm_num : (2 : ℚ) ≠ 0)]
  congr 1
  ring

lemma grid_mul' (e : ℤ) : (2 : ℚ) ^ (e - 23) * 8388608 = 2 ^ e := by
  have h : (8388608 : ℚ) = 2 ^ (23 : ℤ) := by norm_num
  rw [h, ← zpow_add₀ (by norm_num : (2 : ℚ) ≠ 0)]
  congr 1
  ring

lemma roundMagF32_nonneg {q : ℚ} (hq : 0 ≤ q) : 0 ≤ roundMagF32 q := by
  unfold roundMagF32
  have hg := two_zpow_pos (expF32 q - 23)
  have h0 : (0 : ℤ) ≤ roundHalfEven (q / 2 ^ (expF32 q - 23)) :=
    le_roundHalfEven (by
      push_cast
      exact div_nonneg hq (le_of_lt hg))
  exact mul_nonneg (by exact_mod_cast h0) (le_of_lt hg)

lemma roundMagF32_le_top (q : ℚ) : roundMagF32 q ≤ 2 ^ (expF32 q + 1) := by
  unfold roundMagF32
  have hg := two_zpow_pos (expF32 q - 23)
  have hlt := lt_two_zpow_expF32_succ q
  have h1 : roundHalfEven (q / 2 ^ (expF32 q - 23)) ≤ (16777216 : ℤ) :=
    roundHalfEven_le (by
      push_cast
      rw [div_le_iff₀ hg, mul_comm, grid_mul]
      exact le_of_lt hlt)
  have h2 : (roundHalfEven (q / 2 ^ (expF32 q - 23)) : ℚ) ≤ 16777216 := by exact_mod_cast h1
  calc (roundHalfEven (q / 2 ^ (expF32 q - 23)) : ℚ) * 2 ^ (expF32 q - 23)
      ≤ 16777216 * 2 ^ (expF32 q - 23) := mul_le_mul_of_nonneg_right h2 (le_of_lt hg)
    _ = 2 ^ (expF32 q + 1) := by rw [mul_comm, grid_mul]

lemma bottom_le_roundMagF32 {q : ℚ} (h : (2 : ℚ) ^ expF32 q ≤ q) :
    (2 : ℚ) ^ expF32 q ≤ roundMagF32 q := by
  unfold roundMagF32
  have hg := two_zpow_pos (expF32 q - 23)
  have h1 : (8388608 : ℤ) ≤ roundHalfEven (q / 2 ^ (expF32 q - 23)) :=
    le_roundHalfEven (by
      push_cast
      rw [le_div_iff₀ hg, mul_comm, grid_mul']
      exact h)
  have h2 : (8388608 : ℚ) ≤ roundHalfEven (q / 2 ^ (expF32 q - 23)) := by exact_mod_cast h1
  calc (2 : ℚ) ^ expF32 q = 8388608 * 2 ^ (expF32 q - 23) := by rw [mul_comm, grid_mul']
    _ ≤ roundHalfEven (q / 2 ^ (expF32 q - 23)) * 2 ^ (expF32 q - 23) :=
      mul_le_mul_of_nonneg_right h2 (le_of_lt hg)

lemma roundMagF32_mono {a b : ℚ} (ha : 0 < a) (h : a ≤ b) :
    roundMagF32 a ≤ roundMagF32 b := by
  have hb : 0 < b := lt_of_lt_of_le ha h
  rcases lt_or_eq_of_le (expF32_mono ha h) with hlt | heq
  · have hlog : expF32 b = Int.log 2 b := by
      unfold expF32
      apply max_eq_left
      have := expF32_ge a
      by_contra hc
      push_neg at hc
      have : expF32 b = -126 := by
        unfold expF32
        exact max_eq_right (le_of_lt hc)
      omega
    have hbot : (2 : ℚ) ^ expF32 b ≤ b := by
      rw [hlog]
      exact two_zpow_log_le hb
    calc roundMagF32 a ≤ 2 ^ (expF32 a + 1) := roundMagF32_le_top a
      _ ≤ 2 ^ expF32 b := two_zpow_le (by omega)
      _ ≤ roundMagF32 b := bottom_le_roundMagF32 hbot
  · unfold roundMagF32
    rw [heq]
    have hg := two_zpow_pos (expF32 b - 23)
    have h1 : roundHalfEven (a / 2 ^ (expF32 b - 23)) ≤ roundHalfEven (b / 2 ^ (expF32 b - 23)) :=
      roundHalfEven_mono (div_le_div_of_nonneg_right h (le_of_lt hg))
    exact mul_le_mul_of_nonneg_right (by exact_mod_cast h1) (le_of_lt hg)

lemma roundHalfEven_eq_of_lt {q : ℚ} {m : ℤ} (h1 : (m : ℚ) - 1 / 2 < q)
    (h2 : q < (m : ℚ) + 1 / 2) : roundHalfEven q = m := by
  by_cases hq : q < m
  · have hfl : ⌊q⌋ = m - 1 := by
      rw [Int.floor_eq_iff]
      push_cast
      constructor <;> linarith
    unfold roundHalfEven
    rw [hfl]
    push_cast
    rw [if_neg (by linarith), if_pos (by linarith)]
    ring
  · have hfl : ⌊q⌋ = m := by
      rw [Int.floor_eq_iff]
      constructor <;> linarith
    unfold roundHalfEven
    rw [hfl, if_pos (by linarith)]

lemma roundMagF32_zero : roundMagF32 0 = 0 := by
  unfold roundMagF32
  rw [zero_div]
  have : roundHalfEven (0 : ℚ) = 0 := by
    have := roundHalfEven_intCast 0
    simpa using this
  rw [this]
  simp

lemma abs_roundMagF32_sub_le_grid (q : ℚ) :
    |roundMagF32 q - q| ≤ 2 ^ (expF32 q - 23) / 2 := by
  unfold roundMagF32
  have hg := two_zpow_pos (expF32 q - 23)
  have h := abs_roundHalfEven_sub_le (q / 2 ^ (expF32 q - 23))
  have heq : (roundHalfEven (q / 2 ^ (expF32 q - 23)) : ℚ) * 2 ^ (expF32 q - 23) - q
      = ((roundHalfEven (q / 2 ^ (expF32 q - 23)) : ℚ) - q / 2 ^ (expF32 q - 23))
        * 2 ^ (expF32 q - 23) := by
    field_simp
  rw [heq, abs_mul, abs_of_pos hg]
  calc |(roundHalfEven (q / 2 ^ (expF32 q - 23)) : ℚ) - q / 2 ^ (expF32 q - 23)|
        * 2 ^ (expF32 q - 23)
      ≤ 1 / 2 * 2 ^ (expF32 q - 23) := mul_le_mul_of_nonneg_right h (le_of_lt hg)
    _ = 2 ^ (expF32 q - 23) / 2 := by ring

lemma abs_roundMagF32_sub_le {q : ℚ} (hq : 0 ≤ q) :
    |roundMagF32 q - q| ≤ q / 16777216 + 2 ^ (-150 : ℤ) := by
  have hη : (0 : ℚ) < 2 ^ (-150 : ℤ) := two_zpow_pos _
  rcases lt_or_eq_of_le hq with hq0 | hq0
  swap
  · rw [← hq0, roundMagF32_zero, sub_zero, abs_zero, zero_div, zero_add]
    exact le_of_lt hη
  have h := abs_roundMagF32_sub_le_grid q
  by_cases hlog : -126 ≤ Int.log 2 q
  · have he : expF32 q = Int.log 2 q := max_eq_left hlog
    have hbot := two_zpow_log_le hq0
    rw [he] at h
    have hgrid : (2 : ℚ) ^ (Int.log 2 q - 23) * 8388608 = 2 ^ Int.log 2 q := grid_mul' _
    have : (2 : ℚ) ^ (Int.log 2 q - 23) / 2 ≤ q / 16777216 := by
      rw [← hgrid] at hbot
      linarith
    linarith
  · have he : expF32 q = -126 := max_eq_right (by omega)
    rw [he] at h
    have hgrid : (2 : ℚ) ^ ((-126 : ℤ) - 23) / 2 = 2 ^ (-150 : ℤ) := by
      norm_num
    rw [hgrid] at h
    have : 0 ≤ q / 16777216 := div_nonneg hq (by norm_num)
    exact le_trans h (le_add_of_nonneg_left this)

lemma roundMagF32_of_lt (m : ℕ) (k : ℤ) (hm : m < 16777216) (hk : -149 ≤ k) :
    roundMagF32 ((m : ℚ) * 2 ^ k) = (m : ℚ) * 2 ^ k := by
  rcases Nat.eq_zero_or_pos m with h0 | hpos
  · rw [h0]
    simp [roundMagF32_zero]
  have hk2 := two_zpow_pos k
  have hq : (0 : ℚ) < (m : ℚ) * 2 ^ k := mul_pos (by exact_mod_cast hpos) hk2
  have hlt : (m : ℚ) * 2 ^ k < 2 ^ (k + 24) := by
    have h24 : (2 : ℚ) ^ (k + 24) = 16777216 * 2 ^ k := by
      rw [zpow_add₀ (by norm_num : (2 : ℚ) ≠ 0)]
      norm_num
      ring
    rw [h24]
    exact mul_lt_mul_of_pos_right (by exact_mod_cast hm) hk2
  have hlog : Int.log 2 ((m : ℚ) * 2 ^ k) < k + 24 := by
    have h := (Int.lt_zpow_iff_log_lt (b := 2) (by norm_num) hq (x := k + 24)).mp (by
      rw [Nat.cast_ofNat]
      exact hlt)
    exact h
  have he : expF32 ((m : ℚ) * 2 ^ k) - 23 ≤ k := by
    unfold expF32
    have : max (Int.log 2 ((m : ℚ) * 2 ^ k)) (-126) ≤ k + 23 := max_le (by omega) (by omega)
    omega
  obtain ⟨n, hn⟩ := Int.eq_ofNat_of_zero_le (sub_nonneg.mpr he)
  have hsplit : (2 : ℚ) ^ k
      = 2 ^ n * 2 ^ (expF32 ((m : ℚ) * 2 ^ k) - 23) := by
    rw [← zpow_natCast, ← zpow_add₀ (by norm_num : (2 : ℚ) ≠ 0), ← hn]
    congr 1
    ring
  have hg := two_zpow_pos (expF32 ((m : ℚ) * 2 ^ k) - 23)
  have hdiv : (m : ℚ) * 2 ^ k / 2 ^ (expF32 ((m : ℚ) * 2 ^ k) - 23)
      = (((m * 2 ^ n : ℕ) : ℤ) : ℚ) := by
    rw [div_eq_iff (ne_of_gt hg)]
    push_cast
    rw [mul_assoc, ← hsplit]
  unfold roundMagF32
  rw [hdiv, roundHalfEven_intCast]
  push_cast
  rw [mul_assoc, ← hsplit]

lemma roundMagF32_of_rep (m : ℕ) (k : ℤ) (hm : m ≤ 16777216) (hk : -149 ≤ k) :
    roundMagF32 ((m : ℚ) * 2 ^ k) = (m : ℚ) * 2 ^ k := by
  rcases lt_or_eq_of_le hm with hlt | heq
  · exact roundMagF32_of_lt m k hlt hk
  · have h : ((m : ℚ)) * 2 ^ k = ((8388608 : ℕ) : ℚ) * 2 ^ (k + 1) := by
      rw [heq, two_zpow_succ]
      push_cast
      ring
    rw [h]
    exact roundMagF32_of_lt 8388608 (k + 1) (by norm_num) (by omega)

/-- The rounded magnitude is a multiple, by at most `2 ^ 24`, of a grid step. -/
lemma roundMagF32_is_rep {q : ℚ} (hq : 0 ≤ q) :
    ∃ (m : ℕ) (k : ℤ), m ≤ 16777216 ∧ -149 ≤ k ∧ roundMagF32 q = (m : ℚ) * 2 ^ k := by
  have hg := two_zpow_pos (expF32 q - 23)
  have h0 : (0 : ℤ) ≤ roundHalfEven (q / 2 ^ (expF32 q - 23)) :=
    le_roundHalfEven (by
      push_cast
      exact div_nonneg hq (le_of_lt hg))
  have h1 : roundHalfEven (q / 2 ^ (expF32 q - 23)) ≤ (16777216 : ℤ) :=
    roundHalfEven_le (by
      push_cast
      rw [div_le_iff₀ hg, mul_comm, grid_mul]
      exact le_of_lt (lt_two_zpow_expF32_succ q))
  obtain ⟨n, hn⟩ := Int.eq_ofNat_of_zero_le h0
  refine ⟨n, expF32 q - 23, by omega, by have := expF32_ge q; omega, ?_⟩
  unfold roundMagF32
  rw [hn]
  push_cast
  rfl

lemma roundMagF32_idem {q : ℚ} (hq : 0 ≤ q) : roundMagF32 (roundMagF32 q) = roundMagF32 q := by
  obtain ⟨m, k, hm, hk, h⟩ := roundMagF32_is_rep hq
  rw [h]
  exact roundMagF32_of_rep m k hm hk

lemma roundMagF32_mono' {a b : ℚ} (ha : 0 ≤ a) (h : a ≤ b) :
    roundMagF32 a ≤ roundMagF32 b := by
  rcases lt_or_eq_of_le ha with h0 | h0
  · exact roundMagF32_mono h0 h
  · rw [← h0, roundMagF32_zero]
    exact roundMagF32_nonneg (le_trans ha h)

/-! ### The signed rounding -/

lemma roundF32_of_nonneg {q : ℚ} (hq : 0 ≤ q) : roundF32 q = roundMagF32 q := by
  unfold roundF32
  rw [if_pos hq]

lemma roundF32_of_neg {q : ℚ} (hq : q < 0) : roundF32 q = -roundMagF32 (-q) := by
  unfold roundF32
  rw [if_neg (not_le.mpr hq)]

lemma roundF32_zero : roundF32 0 = 0 := by
  rw [roundF32_of_nonneg (le_refl 0), roundMagF32_zero]

lemma roundF32_neg (q : ℚ) : roundF32 (-q) = -roundF32 q := by
  rcases lt_trichotomy q 0 with h | h | h
  · rw [roundF32_of_neg h, roundF32_of_nonneg (by linarith), neg_neg]
  · rw [h, neg_zero, roundF32_zero, neg_zero]
  · rw [roundF32_of_neg (by linarith : -q < 0), roundF32_of_nonneg (le_of_lt h), neg_neg]

lemma roundF32_nonneg {q : ℚ} (hq : 0 ≤ q) : 0 ≤ roundF32 q := by
  rw [roundF32_of_nonneg hq]
  exact roundMagF32_nonneg hq

lemma roundF32_nonpos {q : ℚ} (hq : q ≤ 0) : roundF32 q ≤ 0 := by
  have h := roundF32_nonneg (by linarith : 0 ≤ -q)
  rw [roundF32_neg] at h
  linarith

lemma roundF32_mono {a b : ℚ} (h : a ≤ b) : roundF32 a ≤ roundF32 b := by
  by_cases ha : 0 ≤ a
  · rw [roundF32_of_nonneg ha, roundF32_of_nonneg (le_trans ha h)]
    exact roundMagF32_mono' ha h
  · push_neg at ha
    by_cases hb : 0 ≤ b
    · exact le_trans (roundF32_nonpos (le_of_lt ha)) (roundF32_nonneg hb)
    · push_neg at hb
      rw [roundF32_of_neg ha, roundF32_of_neg hb]
      have := roundMagF32_mono' (by linarith : 0 ≤ -b) (by linarith : -b ≤ -a)
      linarith

lemma abs_roundF32_sub_le' (q : ℚ) :
    |roundF32 q - q| ≤ |q| / 16777216 + 2 ^ (-150 : ℤ) := by
  by_cases hq : 0 ≤ q
  · rw [roundF32_of_nonneg hq, abs_of_nonneg hq]
    exact abs_roundMagF32_sub_le hq
  · push_neg at hq
    rw [roundF32_of_neg hq, abs_of_neg hq]
    have h := abs_roundMagF32_sub_le (by linarith : 0 ≤ -q)
    have heq : -roundMagF32 (-q) - q = -(roundMagF32 (-q) - -q) := by ring
    rw [heq, abs_neg]
    exact h

lemma roundF32_idem (q : ℚ) : roundF32 (roundF32 q) = roundF32 q := by
  by_cases hq : 0 ≤ q
  · rw [roundF32_of_nonneg hq, roundF32_of_nonneg (roundMagF32_nonneg hq)]
    exact roundMagF32_idem hq
  · push_neg at hq
    rw [roundF32_of_neg hq, roundF32_neg,
      roundF32_of_nonneg (roundMagF32_nonneg (by linarith : 0 ≤ -q)),
      roundMagF32_idem (by linarith : 0 ≤ -q)]

lemma roundF32_of_rep (m : ℤ) (k : ℤ) (hm : |m| ≤ 16777216) (hk : -149 ≤ k) :
    roundF32 ((m : ℚ) * 2 ^ k) = (m : ℚ) * 2 ^ k := by
  have hk2 := two_zpow_pos k
  by_cases h0 : 0 ≤ m
  · obtain ⟨n, hn⟩ := Int.eq_ofNat_of_zero_le h0
    have hn' : n ≤ 16777216 := by
      rw [abs_of_nonneg h0] at hm
      omega
    rw [hn, roundF32_of_nonneg (mul_nonneg (by positivity) (le_of_lt hk2))]
    exact_mod_cast roundMagF32_of_rep n k hn' hk
  · push_neg at h0
    obtain ⟨n, hn⟩ := Int.eq_ofNat_of_zero_le (by omega : 0 ≤ -m)
    have hn' : n ≤ 16777216 := by
      rw [abs_of_neg h0] at hm
      omega
    have hm' : m = -(n : ℤ) := by omega
    rw [hm']
    push_cast
    rw [neg_mul, roundF32_neg,
      roundF32_of_nonneg (mul_nonneg (by positivity) (le_of_lt hk2))]
    rw [roundMagF32_of_rep n k hn' hk]

lemma roundF32_one : roundF32 1 = 1 := by
  have h := roundF32_of_rep 1 0 (by norm_num) (by norm_num)
  simpa using h

lemma expF32_eq {r : ℚ} {e : ℤ} (he : -126 ≤ e) (hlo : (2 : ℚ) ^ e ≤ r)
    (hhi : r < 2 ^ (e + 1)) : expF32 r = e := by
  have hr : 0 < r := lt_of_lt_of_le (two_zpow_pos e) hlo
  have h1 : e ≤ Int.log 2 r :=
    (Int.zpow_le_iff_le_log (b := 2) (by norm_num) hr).mp (by
      rw [Nat.cast_ofNat]
      exact hlo)
  have h2 : Int.log 2 r < e + 1 :=
    (Int.lt_zpow_iff_log_lt (b := 2) (by norm_num) hr).mp (by
      rw [Nat.cast_ofNat]
      exact hhi)
  unfold expF32
  rw [max_eq_left (by omega)]
  omega

lemma roundF32_eq_of_bounds {q : ℚ} (e m : ℤ) (he : -126 ≤ e)
    (hlo : (2 : ℚ) ^ e ≤ |q|) (hhi : |q| < 2 ^ (e + 1))
    (h1 : ((m : ℚ) - 1 / 2) * 2 ^ (e - 23) < q)
    (h2 : q < ((m : ℚ) + 1 / 2) * 2 ^ (e - 23)) :
    roundF32 q = (m : ℚ) * 2 ^ (e - 23) := by
  have hg := two_zpow_pos (e - 23)
  have hexp := expF32_eq he hlo hhi
  by_cases hq : 0 ≤ q
  · rw [abs_of_nonneg hq] at hexp
    rw [roundF32_of_nonneg hq]
    unfold roundMagF32
    rw [hexp, roundHalfEven_eq_of_lt (m := m) (by rwa [lt_div_iff₀ hg])
      (by rwa [div_lt_iff₀ hg])]
  · push_neg at hq
    rw [abs_of_neg hq] at hexp
    rw [roundF32_of_neg hq]
    unfold roundMagF32
    rw [hexp, roundHalfEven_eq_of_lt (m := -m)
      (by
        rw [lt_div_iff₀ hg]
        push_cast
        linarith)
      (by
        rw [div_lt_iff₀ hg]
        push_cast
        linarith)]
    push_cast
    ring

lemma roundF32_eq_self {q : ℚ} (m k : ℤ) (hm : |m| ≤ 16777216) (hk : -149 ≤ k)
    (h : q = (m : ℚ) * 2 ^ k) : roundF32 q = q := by
  rw [h]
  exact roundF32_of_rep m k hm hk



lemma abs_roundF32_sub_le (q : ℚ) :
    |roundF32 q - q| ≤ |q| / 16777216 + 1 / 2 ^ 150 := by
  have h := abs_roundF32_sub_le' q
  have h2 : (2 : ℚ) ^ (-150 : ℤ) = 1 / 2 ^ 150 := by
    rw [zpow_neg, one_div]
    norm_cast
  rwa [h2] at h

/-- The residue of recomputing `x` as `T + (x - T)` in rounded arithmetic. -/
lemma abs_residue_le (x T : ℚ) :
    |roundF32 (roundF32 (T + roundF32 (x - T)) - x)|
      ≤ (|x| + |T|) / 4194304 + 1 / 2 ^ 148 := by
  have h1 := abs_roundF32_sub_le (x - T)
  have h2 := abs_roundF32_sub_le (T + roundF32 (x - T))
  have h3 := abs_roundF32_sub_le (roundF32 (T + roundF32 (x - T)) - x)
  have hS : |x - T| ≤ |x| + |T| := abs_sub x T
  have hTa : |T + roundF32 (x - T)| ≤ |x| + |roundF32 (x - T) - (x - T)| := by
    have : T + roundF32 (x - T) = x + (roundF32 (x - T) - (x - T)) := by ring
    rw [this]
    exact abs_add _ _
  have ho : |roundF32 (T + roundF32 (x - T)) - x|
      ≤ |roundF32 (x - T) - (x - T)|
        + |roundF32 (T + roundF32 (x - T)) - (T + roundF32 (x - T))| := by
    have : roundF32 (T + roundF32 (x - T)) - x
        = (roundF32 (x - T) - (x - T))
          + (roundF32 (T + roundF32 (x - T)) - (T + roundF32 (x - T))) := by ring
    rw [this]
    exact abs_add _ _
  have hρ : |roundF32 (roundF32 (T + roundF32 (x - T)) - x)|
      ≤ |roundF32 (T + roundF32 (x - T)) - x|
        + |roundF32 (roundF32 (T + roundF32 (x - T)) - x)
            - (roundF32 (T + roundF32 (x - T)) - x)| := by
    have : roundF32 (roundF32 (T + roundF32 (x - T)) - x)
        = (roundF32 (T + roundF32 (x - T)) - x)
          + (roundF32 (roundF32 (T + roundF32 (x - T)) - x)
            - (roundF32 (T + roundF32 (x - T)) - x)) := by ring
    rw [this]
    refine le_trans (abs_add _ _) ?_
    rw [← this]
  have hx0 := abs_nonneg x
  have hT0 := abs_nonneg T
  have e150 : (1 : ℚ) / 2 ^ 148 = 4 * (1 / 2 ^ 150) := by norm_num
  have hη : (0 : ℚ) ≤ 1 / 2 ^ 150 := by positivity
  rw [e150]
  generalize (1 : ℚ) / 2 ^ 150 = η at *
  generalize |roundF32 (x - T) - (x - T)| = d1 at *
  generalize |roundF32 (T + roundF32 (x - T)) - (T + roundF32 (x - T))| = d2 at *
  generalize |roundF32 (roundF32 (T + roundF32 (x - T)) - x)
            - (roundF32 (T + roundF32 (x - T)) - x)| = d3 at *
  generalize |roundF32 (T + roundF32 (x - T)) - x| = b at *
  generalize |T + roundF32 (x - T)| = c at *
  generalize |x - T| = a at *
  linarith

end Rounding


section RoundedGain

/-- The three ways the rounded method can go: the input is returned as the output level,
the in-knee arc, or the ratio line. -/
lemma rounded_cgr_cases (g : GainComputer ℚ) (x : ℚ) :
    Rounded.computeGainReduction roundF32 g x = roundF32 (x - x) ∨
    (0 < g.kneeWidth ∧
      Rounded.computeGainReduction roundF32 g x
        = roundF32 (roundF32 (x - roundF32 (roundF32 (roundF32
            (roundF32 (1 - roundF32 (1 / g.ratio)) *
              roundF32 (roundF32 (x - g.threshold) + roundF32 (g.kneeWidth / 2))) *
              roundF32 (roundF32 (x - g.threshold) + roundF32 (g.kneeWidth / 2))) /
              roundF32 (2 * g.kneeWidth))) - x)) ∨
    ((0 < g.kneeWidth → roundF32 (g.threshold + roundF32 (g.kneeWidth / 2)) ≤ x) ∧
      (¬ 0 < g.kneeWidth → g.threshold < x) ∧
      Rounded.computeGainReduction roundF32 g x
        = roundF32 (roundF32 (g.threshold
            + roundF32 (roundF32 (x - g.threshold) / g.ratio)) - x)) := by
  unfold Rounded.computeGainReduction
  by_cases hk : g.kneeWidth > 0
  · by_cases h1 : x ≤ roundF32 (g.threshold - roundF32 (g.kneeWidth / 2))
    · left
      simp only [hk, h1, if_true]
    · by_cases h2 : x ≥ roundF32 (g.threshold + roundF32 (g.kneeWidth / 2))
      · right; right
        refine ⟨fun _ => h2, fun h => absurd hk h, ?_⟩
        simp only [hk, h1, h2, if_true, if_false]
      · right; left
        refine ⟨hk, ?_⟩
        simp only [hk, h1, h2, if_true, if_false]
  · by_cases h1 : x > g.threshold
    · right; right
      refine ⟨fun h => absurd h hk, fun _ => h1, ?_⟩
      simp only [hk, h1, if_true, if_false]
    · left
      simp only [hk, h1, if_false]

/-- Under the knee end (soft knee) or at or under the threshold (hard knee) the ratio line
is not taken. -/
lemma rounded_cgr_cases_low (g : GainComputer ℚ) (x : ℚ)
    (hsoft : 0 < g.kneeWidth → x < roundF32 (g.threshold + roundF32 (g.kneeWidth / 2)))
    (hhard : ¬ 0 < g.kneeWidth → x ≤ g.threshold) :
    Rounded.computeGainReduction roundF32 g x = roundF32 (x - x) ∨
    (0 < g.kneeWidth ∧
      Rounded.computeGainReduction roundF32 g x
        = roundF32 (roundF32 (x - roundF32 (roundF32 (roundF32
            (roundF32 (1 - roundF32 (1 / g.ratio)) *
              roundF32 (roundF32 (x - g.threshold) + roundF32 (g.kneeWidth / 2))) *
              roundF32 (roundF32 (x - g.threshold) + roundF32 (g.kneeWidth / 2))) /
              roundF32 (2 * g.kneeWidth))) - x)) := by
  rcases rounded_cgr_cases g x with h | h | ⟨h1, h2, _⟩
  · exact Or.inl h
  · exact Or.inr h
  · exfalso
    by_cases hk : 0 < g.kneeWidth
    · exact absurd (h1 hk) (not_le.mpr (hsoft hk))
    · exact absurd (h2 hk) (not_lt.mpr (hhard hk))

/-- The in-knee arc at ratio 1 returns 0. -/
lemma rounded_knee_ratio_one (x s d : ℚ) (hx : roundF32 x = x) :
    roundF32 (roundF32 (x - roundF32 (roundF32 (roundF32
      (roundF32 (1 - roundF32 (1 / 1)) * s) * s) / d)) - x) = 0 := by
  have h1 : roundF32 (1 - roundF32 (1 / 1)) = 0 := by
    rw [div_one, roundF32_one, sub_self, roundF32_zero]
  rw [h1, zero_mul, roundF32_zero, zero_mul, roundF32_zero, zero_div, roundF32_zero,
    sub_zero, hx, sub_self, roundF32_zero]

end RoundedGain


section RoundedGainClaims

lemma rounded_cgr_ratio_one_cases (g : GainComputer ℚ) (x : ℚ) (hratio : g.ratio = 1)
    (hx : roundF32 x = x) :
    Rounded.computeGainReduction roundF32 g x = 0 ∨
    ((0 < g.kneeWidth → roundF32 (g.threshold + roundF32 (g.kneeWidth / 2)) ≤ x) ∧
      (¬ 0 < g.kneeWidth → g.threshold < x) ∧
      Rounded.computeGainReduction roundF32 g x
        = roundF32 (roundF32 (g.threshold + roundF32 (x - g.threshold)) - x)) := by
  rcases rounded_cgr_cases g x with h | ⟨_, h⟩ | ⟨h1, h2, h⟩
  · left
    rw [h, sub_self, roundF32_zero]
  · left
    rw [h, hratio]
    exact rounded_knee_ratio_one x _ _ hx
  · right
    refine ⟨h1, h2, ?_⟩
    rw [h, hratio, div_one, roundF32_idem]

/-- C1, as amended: with a ratio of 1 the gain reduction is 0 up to `float` rounding.  In
exact arithmetic it is 0.  In binary32 arithmetic, for every threshold, every knee width
and every `float` input `x`: it is exactly 0 for `x` under the knee end (soft knee) or at or
under the threshold (hard knee); above, it is 0 or the residue
`fl (fl (T + fl (x - T)) - x)` of recomputing `x`; and its magnitude is at most
`(|x| + |T|) / 2^22 + 2^-148`. -/
theorem computeGainReduction_ratio_one_rounded (g : GainComputer ℚ) (x : ℚ)
    (hratio : g.ratio = 1) (hx : roundF32 x = x) :
    g.computeGainReduction x = 0 ∧
    ((0 < g.kneeWidth → x < roundF32 (g.threshold + roundF32 (g.kneeWidth / 2))) →
      (g.kneeWidth ≤ 0 → x ≤ g.threshold) →
      Rounded.computeGainReduction roundF32 g x = 0) ∧
    (Rounded.computeGainReduction roundF32 g x = 0 ∨
      Rounded.computeGainReduction roundF32 g x
        = roundF32 (roundF32 (g.threshold + roundF32 (x - g.threshold)) - x)) ∧
    |Rounded.computeGainReduction roundF32 g x|
      ≤ (|x| + |g.threshold|) / 4194304 + 1 / 2 ^ 148 := by
  have hexact : g.computeGainReduction x = 0 := by
    simp only [GainComputer.computeGainReduction, hratio]
    split_ifs <;> ring
  have hcases := rounded_cgr_ratio_one_cases g x hratio hx
  refine ⟨hexact, fun hsoft hhard => ?_, ?_, ?_⟩
  · rcases hcases with h | ⟨h1, h2, _⟩
    · exact h
    · exfalso
      by_cases hk : 0 < g.kneeWidth
      · exact absurd (h1 hk) (not_le.mpr (hsoft hk))
      · exact absurd (h2 hk) (not_lt.mpr (hhard (not_lt.mp hk)))
  · rcases hcases with h | ⟨_, _, h⟩
    · exact Or.inl h
    · exact Or.inr h
  · rcases hcases with h | ⟨_, _, h⟩
    · rw [h, abs_zero]
      have := abs_nonneg x
      have := abs_nonneg g.threshold
      positivity
    · rw [h]
      exact abs_residue_le x g.threshold

/-- The `float` nearest to -0.3 is `-5033165 / 2^24`. -/
lemma f32_x : roundF32 (-5033165 / 16777216) = -5033165 / 16777216 :=
  roundF32_eq_self (-5033165) (-24) (by norm_num) (by norm_num) (by norm_num)

/-- The rounded method at threshold -18, ratio 1, knee 6 and the `float` nearest to -0.3,
operation by operation. -/
lemma cgr_ratio_one_eval :
    Rounded.computeGainReduction roundF32 { threshold := -18, ratio := 1, kneeWidth := 6 }
      (-5033165 / 16777216) = 13 / 16777216 := by
  have h3 : roundF32 3 = 3 := roundF32_eq_self 3 0 (by norm_num) (by norm_num) (by norm_num)
  have h21 : roundF32 (-21) = -21 :=
    roundF32_eq_self (-21) 0 (by norm_num) (by norm_num) (by norm_num)
  have h15 : roundF32 (-15) = -15 :=
    roundF32_eq_self (-15) 0 (by norm_num) (by norm_num) (by norm_num)
  have ha : roundF32 (296956723 / 16777216) = 4639949 / 262144 := by
    rw [roundF32_eq_of_bounds 4 9279898 (by norm_num) (by norm_num [abs_of_pos])
      (by norm_num [abs_of_pos]) (by norm_num) (by norm_num)]
    norm_num
  have ha' : roundF32 (4639949 / 262144) = 4639949 / 262144 :=
    roundF32_eq_self 4639949 (-18) (by norm_num) (by norm_num) (by norm_num)
  have ho : roundF32 (-(78643 / 262144)) = -(78643 / 262144) :=
    roundF32_eq_self (-78643) (-18) (by norm_num) (by norm_num) (by norm_num)
  have hr : roundF32 (13 / 16777216) = 13 / 16777216 :=
    roundF32_eq_self 13 (-24) (by norm_num) (by norm_num) (by norm_num)
  norm_num [Rounded.computeGainReduction, h3, h21, h15, ha, ha', ho, hr]

/-- C1, as amended, at threshold -18, ratio 1, knee 6 and the `float` nearest to -0.3. -/
theorem computeGainReduction_ratio_one_rounded_witness :
    |Rounded.computeGainReduction roundF32
        ({ threshold := -18, ratio := 1, kneeWidth := 6 } : GainComputer ℚ)
        (-5033165 / 16777216)|
      ≤ (|(-5033165 / 16777216 : ℚ)| + |(-18 : ℚ)|) / 4194304 + 1 / 2 ^ 148 :=
  (computeGainReduction_ratio_one_rounded
    ({ threshold := -18, ratio := 1, kneeWidth := 6 } : GainComputer ℚ)
    (-5033165 / 16777216) rfl f32_x).2.2.2

/-- C1 as stated fails in `float` arithmetic: at threshold -18, ratio 1, knee 6 and the
`float` nearest to -0.3 the method returns `13 / 2^24`, about `7.7e-7`, not 0. -/
theorem computeGainReduction_ratio_one_residue :
    Rounded.computeGainReduction roundF32
        ({ threshold := -18, ratio := 1, kneeWidth := 6 } : GainComputer ℚ)
        (-5033165 / 16777216) = 13 / 16777216 ∧
    Rounded.computeGainReduction roundF32
        ({ threshold := -18, ratio := 1, kneeWidth := 6 } : GainComputer ℚ)
        (-5033165 / 16777216) ≠ 0 := by
  rw [cgr_ratio_one_eval]
  constructor
  · rfl
  · norm_num

end RoundedGainClaims


section RoundedNonpos

end RoundedNonpos

section RoundedCharacter

end RoundedCharacter


section RoundingNearest

lemma roundHalfEven_nearest (w : ℚ) (n : ℤ) :
    |(roundHalfEven w : ℚ) - w| ≤ |(n : ℚ) - w| := by
  by_cases h : |(n : ℚ) - w| < 1 / 2
  · have hb := abs_lt.mp h
    have : roundHalfEven w = n :=
      roundHalfEven_eq_of_lt (by linarith [hb.2]) (by linarith [hb.1])
    rw [this]
  · push_neg at h
    exact le_trans (abs_roundHalfEven_sub_le w) h

/-- The rounded magnitude is at least as near as every point of its own grid. -/
lemma roundMagF32_nearest_grid (z : ℚ) (n : ℤ) :
    |roundMagF32 z - z| ≤ |(n : ℚ) * 2 ^ (expF32 z - 23) - z| := by
  have hg := two_zpow_pos (expF32 z - 23)
  have h := roundHalfEven_nearest (z / 2 ^ (expF32 z - 23)) n
  have e1 : roundMagF32 z - z
      = ((roundHalfEven (z / 2 ^ (expF32 z - 23)) : ℚ) - z / 2 ^ (expF32 z - 23))
        * 2 ^ (expF32 z - 23) := by
    unfold roundMagF32
    field_simp
  have e2 : (n : ℚ) * 2 ^ (expF32 z - 23) - z
      = ((n : ℚ) - z / 2 ^ (expF32 z - 23)) * 2 ^ (expF32 z - 23) := by
    field_simp
  rw [e1, e2, abs_mul, abs_mul, abs_of_pos hg]
  exact mul_le_mul_of_nonneg_right h (le_of_lt hg)

lemma roundMagF32_nearest {z : ℚ} (hz : 0 < z) (m : ℕ) (j : ℤ) (hm : m ≤ 16777216)
    (hj : -149 ≤ j) : |roundMagF32 z - z| ≤ |(m : ℚ) * 2 ^ j - z| := by
  have hg := two_zpow_pos (expF32 z - 23)
  have htop := lt_two_zpow_expF32_succ z
  by_cases h1 : (2 : ℚ) ^ (expF32 z + 1) ≤ (m : ℚ) * 2 ^ j
  · -- the float is above the binade: the top of the binade is nearer
    have h := roundMagF32_nearest_grid z 16777216
    have e : ((16777216 : ℤ) : ℚ) * 2 ^ (expF32 z - 23) = 2 ^ (expF32 z + 1) := by
      push_cast
      rw [mul_comm, grid_mul]
    rw [e] at h
    rw [abs_of_nonneg (by linarith : 0 ≤ (2 : ℚ) ^ (expF32 z + 1) - z)] at h
    rw [abs_of_nonneg (by linarith : 0 ≤ (m : ℚ) * 2 ^ j - z)]
    linarith
  · push_neg at h1
    by_cases h2 : expF32 z - 23 ≤ j
    · -- the float lies on the grid
      obtain ⟨n, hn⟩ := Int.eq_ofNat_of_zero_le (sub_nonneg.mpr h2)
      have hsplit : (2 : ℚ) ^ j = 2 ^ n * 2 ^ (expF32 z - 23) := by
        rw [← zpow_natCast, ← zpow_add₀ (by norm_num : (2 : ℚ) ≠ 0), ← hn]
        congr 1
        ring
      have h := roundMagF32_nearest_grid z ((m * 2 ^ n : ℕ) : ℤ)
      have e : (((m * 2 ^ n : ℕ) : ℤ) : ℚ) * 2 ^ (expF32 z - 23) = (m : ℚ) * 2 ^ j := by
        push_cast
        rw [mul_assoc, ← hsplit]
      rwa [e] at h
    · -- the float is below the binade: the bottom of the binade is nearer
      push_neg at h2
      have hE : -126 < expF32 z := by omega
      have hlog : expF32 z = Int.log 2 z := by
        unfold expF32 at hE ⊢
        rcases le_total (Int.log 2 z) (-126) with hc | hc
        · rw [max_eq_right hc] at hE
          omega
        · exact max_eq_left hc
      have hbot : (2 : ℚ) ^ expF32 z ≤ z := by
        rw [hlog]
        exact two_zpow_log_le hz
      have hle : (m : ℚ) * 2 ^ j ≤ 2 ^ expF32 z := by
        have h24 : (2 : ℚ) ^ j * 16777216 = 2 ^ (j + 24) := by
          have h := grid_mul (j + 23)
          have e1 : j + 23 - 23 = j := by ring
          have e2 : j + 23 + 1 = j + 24 := by ring
          rwa [e1, e2] at h
        calc (m : ℚ) * 2 ^ j ≤ 16777216 * 2 ^ j :=
              mul_le_mul_of_nonneg_right (by exact_mod_cast hm) (le_of_lt (two_zpow_pos j))
          _ = 2 ^ (j + 24) := by rw [mul_comm, h24]
          _ ≤ 2 ^ expF32 z := two_zpow_le (by omega)
      have h := roundMagF32_nearest_grid z 8388608
      have e : ((8388608 : ℤ) : ℚ) * 2 ^ (expF32 z - 23) = 2 ^ expF32 z := by
        push_cast
        rw [mul_comm, grid_mul']
      rw [e] at h
      rw [abs_of_nonpos (by linarith : (2 : ℚ) ^ expF32 z - z ≤ 0)] at h
      rw [abs_of_nonpos (by linarith : (m : ℚ) * 2 ^ j - z ≤ 0)]
      linarith

lemma roundF32_is_rep (z : ℚ) :
    ∃ (m : ℤ) (k : ℤ), |m| ≤ 16777216 ∧ -149 ≤ k ∧ roundF32 z = (m : ℚ) * 2 ^ k := by
  by_cases hz : 0 ≤ z
  · obtain ⟨m, k, hm, hk, h⟩ := roundMagF32_is_rep hz
    refine ⟨m, k, ?_, hk, ?_⟩
    · rw [abs_of_nonneg (by positivity)]
      exact_mod_cast hm
    · rw [roundF32_of_nonneg hz, h]
      norm_cast
  · push_neg at hz
    obtain ⟨m, k, hm, hk, h⟩ := roundMagF32_is_rep (by linarith : 0 ≤ -z)
    refine ⟨-(m : ℤ), k, ?_, hk, ?_⟩
    · rw [abs_neg, abs_of_nonneg (by positivity)]
      exact_mod_cast hm
    · rw [roundF32_of_neg hz, h]
      push_cast
      ring

/-- Rounding goes to a nearest float: no float is nearer to `z` than `roundF32 z`. -/
lemma roundF32_nearest (z t : ℚ) (ht : roundF32 t = t) :
    |roundF32 z - z| ≤ |t - z| := by
  -- positive arguments first
  have hpos : ∀ z t : ℚ, 0 < z → roundF32 t = t → |roundF32 z - z| ≤ |t - z| := by
    intro z t hz ht
    rw [roundF32_of_nonneg (le_of_lt hz)]
    by_cases ht0 : 0 < t
    · obtain ⟨m, k, hm, hk, h⟩ := roundMagF32_is_rep (le_of_lt ht0)
      rw [← roundF32_of_nonneg (le_of_lt ht0), ht] at h
      rw [h]
      exact roundMagF32_nearest hz m k hm hk
    · push_neg at ht0
      have h := roundMagF32_nearest hz 0 0 (by norm_num) (by norm_num)
      rw [Nat.cast_zero, zero_mul, zero_sub, abs_neg, abs_of_pos hz] at h
      rw [abs_of_nonpos (by linarith : t - z ≤ 0)]
      linarith
  rcases lt_trichotomy z 0 with hz | hz | hz
  · have h := hpos (-z) (-t) (by linarith) (by rw [roundF32_neg, ht])
    rw [roundF32_neg] at h
    have e1 : -roundF32 z - -z = -(roundF32 z - z) := by ring
    have e2 : -t - -z = -(t - z) := by ring
    rwa [e1, e2, abs_neg, abs_neg] at h
  · rw [hz, roundF32_zero, sub_zero, abs_zero]
    exact abs_nonneg _
  · exact hpos z t hz ht

lemma abs_roundF32_le_two (z : ℚ) : |roundF32 z - z| ≤ |z| := by
  have h := roundF32_nearest z 0 roundF32_zero
  rwa [zero_sub, abs_neg] at h

lemma roundF32_two_mul {t : ℚ} (ht : roundF32 t = t) : roundF32 (2 * t) = 2 * t := by
  obtain ⟨m, k, hm, hk, h⟩ := roundF32_is_rep t
  rw [ht] at h
  have e : 2 * t = (m : ℚ) * 2 ^ (k + 1) := by
    rw [h, two_zpow_succ]
    ring
  rw [e]
  exact roundF32_of_rep m (k + 1) hm (by omega)

lemma abs_roundF32_le {z b : ℚ} (hb : roundF32 b = b) (h : |z| ≤ b) : |roundF32 z| ≤ b := by
  have hz := abs_le.mp h
  have h1 := roundF32_mono hz.1
  have h2 := roundF32_mono hz.2
  rw [roundF32_neg, hb] at h1
  rw [hb] at h2
  exact abs_le.mpr ⟨h1, h2⟩

end RoundingNearest

section KneeArithmetic

/-- How far the rounded in-knee term can be from the exact one, times `2 * k`. -/
lemma knee_arith (k c cf s sf p1 p2 qf γ Δ ε1 ε2 ε3 : ℚ) (hk : 0 < k)
    (hc0 : 0 ≤ c) (hc1 : c ≤ 1)
    (hγ : |cf - c| ≤ γ) (hΔ : |sf - s| ≤ Δ) (hs : |s| ≤ 5 / 2 * k) (hsf : |sf| ≤ 4 * k)
    (h1 : |p1 - cf * sf| ≤ ε1) (h2 : |p2 - p1 * sf| ≤ ε2)
    (h3 : |qf - p2 / (2 * k)| ≤ ε3) :
    |qf - c * (s * s / (2 * k))| * (2 * k)
      ≤ ε3 * (2 * k) + ε2 + ε1 * (4 * k) + γ * (16 * k * k) + Δ * (13 / 2 * k) := by
  have h2k : 0 < 2 * k := by linarith
  have hid : (qf - c * (s * s / (2 * k))) * (2 * k)
      = (qf - p2 / (2 * k)) * (2 * k) + (p2 - p1 * sf) + (p1 - cf * sf) * sf
        + (cf - c) * (sf * sf) + c * ((sf - s) * (sf + s)) := by
    field_simp
    ring
  have hγ0 : 0 ≤ γ := le_trans (abs_nonneg _) hγ
  have hΔ0 : 0 ≤ Δ := le_trans (abs_nonneg _) hΔ
  have hε1 : 0 ≤ ε1 := le_trans (abs_nonneg _) h1
  have t1 : |(qf - p2 / (2 * k)) * (2 * k)| ≤ ε3 * (2 * k) := by
    rw [abs_mul, abs_of_pos h2k]
    exact mul_le_mul_of_nonneg_right h3 (le_of_lt h2k)
  have t3 : |(p1 - cf * sf) * sf| ≤ ε1 * (4 * k) := by
    rw [abs_mul]
    exact mul_le_mul h1 hsf (abs_nonneg _) hε1
  have t4 : |(cf - c) * (sf * sf)| ≤ γ * (16 * k * k) := by
    rw [abs_mul, abs_mul]
    have : |sf| * |sf| ≤ 4 * k * (4 * k) :=
      mul_le_mul hsf hsf (abs_nonneg _) (by linarith)
    calc |cf - c| * (|sf| * |sf|) ≤ γ * (4 * k * (4 * k)) :=
          mul_le_mul hγ this (mul_nonneg (abs_nonneg _) (abs_nonneg _)) hγ0
      _ = γ * (16 * k * k) := by ring
  have t5 : |c * ((sf - s) * (sf + s))| ≤ Δ * (13 / 2 * k) := by
    rw [abs_mul, abs_mul, abs_of_nonneg hc0]
    have hsum : |sf + s| ≤ 13 / 2 * k := by
      refine le_trans (abs_add _ _) ?_
      linarith
    have h5 : |sf - s| * |sf + s| ≤ Δ * (13 / 2 * k) :=
      mul_le_mul hΔ hsum (abs_nonneg _) hΔ0
    calc c * (|sf - s| * |sf + s|) ≤ 1 * (|sf - s| * |sf + s|) :=
          mul_le_mul_of_nonneg_right hc1 (mul_nonneg (abs_nonneg _) (abs_nonneg _))
      _ ≤ Δ * (13 / 2 * k) := by
          rw [one_mul]
          exact h5
  have hm : |qf - c * (s * s / (2 * k))| * (2 * k)
      = |(qf - c * (s * s / (2 * k))) * (2 * k)| := by
    rw [abs_mul, abs_of_pos h2k]
  rw [hm, hid]
  have a1 := abs_add ((qf - p2 / (2 * k)) * (2 * k) + (p2 - p1 * sf) + (p1 - cf * sf) * sf
        + (cf - c) * (sf * sf)) (c * ((sf - s) * (sf + s)))
  have a2 := abs_add ((qf - p2 / (2 * k)) * (2 * k) + (p2 - p1 * sf) + (p1 - cf * sf) * sf)
        ((cf - c) * (sf * sf))
  have a3 := abs_add ((qf - p2 / (2 * k)) * (2 * k) + (p2 - p1 * sf)) ((p1 - cf * sf) * sf)
  have a4 := abs_add ((qf - p2 / (2 * k)) * (2 * k)) (p2 - p1 * sf)
  linarith

end KneeArithmetic

section KneeFloats

/-- The rounded half knee width. -/
lemma half_knee_bounds (k : ℚ) (hk : 0 ≤ k) (hkf : roundF32 k = k) :
    0 ≤ roundF32 (k / 2) ∧ roundF32 (k / 2) ≤ k ∧
    |roundF32 (k / 2) - k / 2| ≤ k / 33554432 + 1 / 2 ^ 150 := by
  refine ⟨roundF32_nonneg (by linarith), ?_, ?_⟩
  · have := roundF32_mono (by linarith : k / 2 ≤ k)
    rwa [hkf] at this
  · have h := abs_roundF32_sub_le (k / 2)
    rw [abs_of_nonneg (by linarith : 0 ≤ k / 2)] at h
    have e : k / 2 / 16777216 = k / 33554432 := by ring
    rwa [e] at h

/-- The rounded knee ends stay within `2 * k` of the threshold and within rounding of the
exact knee ends. -/
lemma knee_end_bounds (T k : ℚ) (hk : 0 ≤ k) (hT : roundF32 T = T) (hkf : roundF32 k = k) :
    T - 2 * k ≤ roundF32 (T - roundF32 (k / 2)) ∧
    roundF32 (T + roundF32 (k / 2)) ≤ T + 2 * k ∧
    |roundF32 (T - roundF32 (k / 2)) - (T - k / 2)|
      ≤ (|T| + 3 / 2 * k) / 16777216 + 2 * (1 / 2 ^ 150) ∧
    |roundF32 (T + roundF32 (k / 2)) - (T + k / 2)|
      ≤ (|T| + 3 / 2 * k) / 16777216 + 2 * (1 / 2 ^ 150) := by
  obtain ⟨hh0, hhk, hherr⟩ := half_knee_bounds k hk hkf
  have n1 := roundF32_nearest (T - roundF32 (k / 2)) T hT
  have n2 := roundF32_nearest (T + roundF32 (k / 2)) T hT
  have e1 : T - (T - roundF32 (k / 2)) = roundF32 (k / 2) := by ring
  have e2 : T - (T + roundF32 (k / 2)) = -roundF32 (k / 2) := by ring
  rw [e1, abs_of_nonneg hh0] at n1
  rw [e2, abs_neg, abs_of_nonneg hh0] at n2
  have b1 := abs_le.mp n1
  have b2 := abs_le.mp n2
  have r1 := abs_roundF32_sub_le (T - roundF32 (k / 2))
  have r2 := abs_roundF32_sub_le (T + roundF32 (k / 2))
  have m1 : |T - roundF32 (k / 2)| ≤ |T| + k := by
    refine le_trans (abs_sub _ _) ?_
    rw [abs_of_nonneg hh0]
    linarith
  have m2 : |T + roundF32 (k / 2)| ≤ |T| + k := by
    refine le_trans (abs_add _ _) ?_
    rw [abs_of_nonneg hh0]
    linarith
  have c1 : |roundF32 (T - roundF32 (k / 2)) - (T - k / 2)|
      ≤ |roundF32 (T - roundF32 (k / 2)) - (T - roundF32 (k / 2))|
        + |roundF32 (k / 2) - k / 2| := by
    have : roundF32 (T - roundF32 (k / 2)) - (T - k / 2)
        = (roundF32 (T - roundF32 (k / 2)) - (T - roundF32 (k / 2)))
          + -(roundF32 (k / 2) - k / 2) := by ring
    rw [this]
    refine le_trans (abs_add _ _) ?_
    rw [abs_neg]
  have c2 : |roundF32 (T + roundF32 (k / 2)) - (T + k / 2)|
      ≤ |roundF32 (T + roundF32 (k / 2)) - (T + roundF32 (k / 2))|
        + |roundF32 (k / 2) - k / 2| := by
    have : roundF32 (T + roundF32 (k / 2)) - (T + k / 2)
        = (roundF32 (T + roundF32 (k / 2)) - (T + roundF32 (k / 2)))
          + (roundF32 (k / 2) - k / 2) := by ring
    rw [this]
    exact abs_add _ _
  refine ⟨by linarith [b1.1], by linarith [b2.2], ?_, ?_⟩
  · linarith
  · linarith

/-- The rounded compressed share `1 - 1 / ratio`. -/
lemma share_bounds (R : ℚ) (hR : 1 ≤ R) :
    0 ≤ roundF32 (1 - roundF32 (1 / R)) ∧ roundF32 (1 - roundF32 (1 / R)) ≤ 1 ∧
    |roundF32 (1 - roundF32 (1 / R)) - (1 - 1 / R)|
      ≤ 2 / 16777216 + 2 * (1 / 2 ^ 150) := by
  have hR0 : 0 < R := lt_of_lt_of_le one_pos hR
  have hinv : 1 / R ≤ 1 := by
    rw [div_le_one hR0]
    exact hR
  have hinv0 : 0 ≤ 1 / R := le_of_lt (div_pos one_pos hR0)
  have hr1 : roundF32 (1 / R) ≤ 1 := by
    have := roundF32_mono hinv
    rwa [roundF32_one] at this
  have hr0 : 0 ≤ roundF32 (1 / R) := roundF32_nonneg hinv0
  have e1 := abs_roundF32_sub_le (1 / R)
  rw [abs_of_nonneg hinv0] at e1
  have e2 := abs_roundF32_sub_le (1 - roundF32 (1 / R))
  rw [abs_of_nonneg (by linarith : 0 ≤ 1 - roundF32 (1 / R))] at e2
  refine ⟨roundF32_nonneg (by linarith), ?_, ?_⟩
  · have := roundF32_mono (by linarith : 1 - roundF32 (1 / R) ≤ 1)
    rwa [roundF32_one] at this
  · have c : |roundF32 (1 - roundF32 (1 / R)) - (1 - 1 / R)|
        ≤ |roundF32 (1 - roundF32 (1 / R)) - (1 - roundF32 (1 / R))|
          + |roundF32 (1 / R) - 1 / R| := by
      have : roundF32 (1 - roundF32 (1 / R)) - (1 - 1 / R)
          = (roundF32 (1 - roundF32 (1 / R)) - (1 - roundF32 (1 / R)))
            + -(roundF32 (1 / R) - 1 / R) := by ring
      rw [this]
      refine le_trans (abs_add _ _) ?_
      rw [abs_neg]
    linarith

end KneeFloats

section KneeTerm

lemma roundF32_four_mul {t : ℚ} (ht : roundF32 t = t) : roundF32 (4 * t) = 4 * t := by
  have h := roundF32_two_mul (roundF32_two_mul ht)
  have e : 2 * (2 * t) = 4 * t := by ring
  rwa [e] at h

lemma roundF32_sixteen_mul {t : ℚ} (ht : roundF32 t = t) : roundF32 (16 * t) = 16 * t := by
  have h := roundF32_four_mul (roundF32_four_mul ht)
  have e : 4 * (4 * t) = 16 * t := by ring
  rwa [e] at h

/-- Inside the rounded knee: the rounded distance from the knee start. -/
lemma knee_arg_bounds (x T k : ℚ) (hk : 0 < k)
    (hT : roundF32 T = T) (hkf : roundF32 k = k)
    (hlo : roundF32 (T - roundF32 (k / 2)) < x)
    (hhi : x < roundF32 (T + roundF32 (k / 2))) :
    |x - T + k / 2| ≤ 5 / 2 * k ∧
    |roundF32 (roundF32 (x - T) + roundF32 (k / 2))| ≤ 4 * k ∧
    |roundF32 (roundF32 (x - T) + roundF32 (k / 2)) - (x - T + k / 2)|
      ≤ 11 / 2 * k / 16777216 + 3 * (1 / 2 ^ 150) := by
  obtain ⟨hh0, hhk, hherr⟩ := half_knee_bounds k (le_of_lt hk) hkf
  obtain ⟨ks, ke, _, _⟩ := knee_end_bounds T k (le_of_lt hk) hT hkf
  have hd : |x - T| ≤ 2 * k := abs_le.mpr ⟨by linarith, by linarith⟩
  have h2k := roundF32_two_mul hkf
  have h4k := roundF32_four_mul hkf
  have ha : |roundF32 (x - T)| ≤ 2 * k := abs_roundF32_le h2k hd
  have haerr := abs_roundF32_sub_le (x - T)
  have hah : |roundF32 (x - T) + roundF32 (k / 2)| ≤ 3 * k := by
    refine le_trans (abs_add _ _) ?_
    rw [abs_of_nonneg hh0]
    linarith
  have hsf : |roundF32 (roundF32 (x - T) + roundF32 (k / 2))| ≤ 4 * k :=
    abs_roundF32_le h4k (by linarith)
  have hsferr := abs_roundF32_sub_le (roundF32 (x - T) + roundF32 (k / 2))
  have hs : |x - T + k / 2| ≤ 5 / 2 * k := by
    refine le_trans (abs_add _ _) ?_
    rw [abs_of_pos (by linarith : 0 < k / 2)]
    linarith
  refine ⟨hs, hsf, ?_⟩
  have c : |roundF32 (roundF32 (x - T) + roundF32 (k / 2)) - (x - T + k / 2)|
      ≤ |roundF32 (roundF32 (x - T) + roundF32 (k / 2))
          - (roundF32 (x - T) + roundF32 (k / 2))|
        + |roundF32 (x - T) - (x - T)| + |roundF32 (k / 2) - k / 2| := by
    have : roundF32 (roundF32 (x - T) + roundF32 (k / 2)) - (x - T + k / 2)
        = (roundF32 (roundF32 (x - T) + roundF32 (k / 2))
            - (roundF32 (x - T) + roundF32 (k / 2)))
          + (roundF32 (x - T) - (x - T)) + (roundF32 (k / 2) - k / 2) := by ring
    rw [this]
    exact abs_add_three _ _ _
  linarith

/-- Inside the rounded knee the rounded quadratic term is within rounding of the exact
quadratic term. -/
lemma knee_term_close (x T k R : ℚ) (hk : 0 < k) (hR : 1 ≤ R)
    (hT : roundF32 T = T) (hkf : roundF32 k = k)
    (hlo : roundF32 (T - roundF32 (k / 2)) < x)
    (hhi : x < roundF32 (T + roundF32 (k / 2))) :
    |roundF32 (roundF32 (roundF32 (roundF32 (1 - roundF32 (1 / R)) *
          roundF32 (roundF32 (x - T) + roundF32 (k / 2))) *
          roundF32 (roundF32 (x - T) + roundF32 (k / 2))) / roundF32 (2 * k))
        - (1 - 1 / R) * ((x - T + k / 2) * (x - T + k / 2) / (2 * k))|
      ≤ 67 * k / 16777216 + 1 / 2 ^ 70 ∧
    |roundF32 (roundF32 (roundF32 (roundF32 (1 - roundF32 (1 / R)) *
          roundF32 (roundF32 (x - T) + roundF32 (k / 2))) *
          roundF32 (roundF32 (x - T) + roundF32 (k / 2))) / roundF32 (2 * k))| ≤ 16 * k := by
  obtain ⟨hs, hsf, hΔ⟩ := knee_arg_bounds x T k hk hT hkf hlo hhi
  obtain ⟨hcf0, hcf1, hγ⟩ := share_bounds R hR
  have hR0 : 0 < R := lt_of_lt_of_le one_pos hR
  have hc1 : 1 - 1 / R ≤ 1 := by
    have : 0 < 1 / R := div_pos one_pos hR0
    linarith
  have hc0 : 0 ≤ 1 - 1 / R := by
    have : 1 / R ≤ 1 := by
      rw [div_le_one hR0]
      exact hR
    linarith
  have h2k := roundF32_two_mul hkf
  have h4k := roundF32_four_mul hkf
  have h16k := roundF32_sixteen_mul hkf
  rw [h2k]
  set sf := roundF32 (roundF32 (x - T) + roundF32 (k / 2)) with hsf_def
  set cf := roundF32 (1 - roundF32 (1 / R)) with hcf_def
  set s := x - T + k / 2 with hs_def
  -- first product
  have hcs : |cf * sf| ≤ 4 * k := by
    rw [abs_mul, abs_of_nonneg hcf0]
    calc cf * |sf| ≤ 1 * |sf| := mul_le_mul_of_nonneg_right hcf1 (abs_nonneg _)
      _ ≤ 4 * k := by rw [one_mul]; exact hsf
  have hp1 : |roundF32 (cf * sf)| ≤ 4 * k := abs_roundF32_le h4k hcs
  have hp1err := abs_roundF32_sub_le (cf * sf)
  -- second product
  have hps : |roundF32 (cf * sf) * sf| ≤ 16 * k * k := by
    rw [abs_mul]
    calc |roundF32 (cf * sf)| * |sf| ≤ 4 * k * (4 * k) :=
          mul_le_mul hp1 hsf (abs_nonneg _) (by linarith)
      _ = 16 * k * k := by ring
  have hp2err := abs_roundF32_sub_le (roundF32 (cf * sf) * sf)
  have hp2err' := abs_roundF32_le_two (roundF32 (cf * sf) * sf)
  have hp2 : |roundF32 (roundF32 (cf * sf) * sf)| ≤ 32 * k * k := by
    have : roundF32 (roundF32 (cf * sf) * sf)
        = roundF32 (cf * sf) * sf
          + (roundF32 (roundF32 (cf * sf) * sf) - roundF32 (cf * sf) * sf) := by ring
    rw [this]
    refine le_trans (abs_add _ _) ?_
    linarith
  -- the quotient
  have h2kpos : 0 < 2 * k := by linarith
  have hquot : |roundF32 (roundF32 (cf * sf) * sf) / (2 * k)| ≤ 16 * k := by
    rw [abs_div, abs_of_pos h2kpos, div_le_iff₀ h2kpos]
    calc |roundF32 (roundF32 (cf * sf) * sf)| ≤ 32 * k * k := hp2
      _ = 16 * k * (2 * k) := by ring
  have hq : |roundF32 (roundF32 (roundF32 (cf * sf) * sf) / (2 * k))| ≤ 16 * k :=
    abs_roundF32_le h16k hquot
  have hqerr := abs_roundF32_sub_le (roundF32 (roundF32 (cf * sf) * sf) / (2 * k))
  refine ⟨?_, hq⟩
  have hkk : 0 ≤ k * k := mul_nonneg (le_of_lt hk) (le_of_lt hk)
  apply le_of_mul_le_mul_right _ h2kpos
  by_cases hbig : (1 : ℚ) / 2 ^ 80 ≤ k
  · have key := knee_arith k (1 - 1 / R) cf s sf (roundF32 (cf * sf))
      (roundF32 (roundF32 (cf * sf) * sf))
      (roundF32 (roundF32 (roundF32 (cf * sf) * sf) / (2 * k)))
      (2 / 16777216 + 2 * (1 / 2 ^ 150))
      (11 / 2 * k / 16777216 + 3 * (1 / 2 ^ 150))
      (4 * k / 16777216 + 1 / 2 ^ 150)
      (16 * k * k / 16777216 + 1 / 2 ^ 150)
      (16 * k / 16777216 + 1 / 2 ^ 150)
      hk hc0 hc1 hγ hΔ hs hsf (by linarith) (by linarith) (by linarith)
    refine le_trans key ?_
    have hη : (1 : ℚ) / 2 ^ 150 ≤ 1 / 2 ^ 70 * k := by
      have : (1 : ℚ) / 2 ^ 150 = 1 / 2 ^ 70 * (1 / 2 ^ 80) := by norm_num
      rw [this]
      exact mul_le_mul_of_nonneg_left hbig (by positivity)
    linarith
  · push_neg at hbig
    have key := knee_arith k (1 - 1 / R) cf s sf (roundF32 (cf * sf))
      (roundF32 (roundF32 (cf * sf) * sf))
      (roundF32 (roundF32 (roundF32 (cf * sf) * sf) / (2 * k)))
      (2 / 16777216 + 2 * (1 / 2 ^ 150))
      (11 / 2 * k / 16777216 + 3 * (1 / 2 ^ 150))
      (4 * k / 16777216 + 1 / 2 ^ 150)
      (16 * k * k)
      (16 * k / 16777216 + 1 / 2 ^ 150)
      hk hc0 hc1 hγ hΔ hs hsf (by linarith) (by linarith) (by linarith)
    refine le_trans key ?_
    have hsmall : k * k ≤ 1 / 2 ^ 80 * k :=
      mul_le_mul_of_nonneg_right (le_of_lt hbig) (le_of_lt hk)
    linarith

end KneeTerm

section CurveCloseness

/-- The rounded ratio line is within rounding of the exact ratio line. -/
lemma line_close (x T R : ℚ) (hR : 1 ≤ R) :
    |roundF32 (T + roundF32 (roundF32 (x - T) / R)) - (T + (x - T) / R)|
      ≤ 5 * (|x| + |T|) / 16777216 + 4 * (1 / 2 ^ 150) := by
  have hR0 : 0 < R := lt_of_lt_of_le one_pos hR
  have hS : |x - T| ≤ |x| + |T| := abs_sub x T
  have e1 := abs_roundF32_sub_le (x - T)
  have e2 := abs_roundF32_sub_le (roundF32 (x - T) / R)
  have e3 := abs_roundF32_sub_le (T + roundF32 (roundF32 (x - T) / R))
  have hA : |roundF32 (x - T)| ≤ |x - T| + |roundF32 (x - T) - (x - T)| := by
    have : roundF32 (x - T) = (x - T) + (roundF32 (x - T) - (x - T)) := by ring
    rw [this]
    refine le_trans (abs_add _ _) ?_
    rw [← this]
  have hdiv : ∀ w : ℚ, |w / R| ≤ |w| := by
    intro w
    rw [abs_div, abs_of_pos hR0]
    exact div_le_self (abs_nonneg w) hR
  have hAR := hdiv (roundF32 (x - T))
  have hQ : |roundF32 (roundF32 (x - T) / R)|
      ≤ |roundF32 (x - T) / R|
        + |roundF32 (roundF32 (x - T) / R) - roundF32 (x - T) / R| := by
    have : roundF32 (roundF32 (x - T) / R)
        = roundF32 (x - T) / R
          + (roundF32 (roundF32 (x - T) / R) - roundF32 (x - T) / R) := by ring
    rw [this]
    refine le_trans (abs_add _ _) ?_
    rw [← this]
  have hTQ : |T + roundF32 (roundF32 (x - T) / R)|
      ≤ |T| + |roundF32 (roundF32 (x - T) / R)| := abs_add _ _
  have hdec : |roundF32 (T + roundF32 (roundF32 (x - T) / R)) - (T + (x - T) / R)|
      ≤ |roundF32 (T + roundF32 (roundF32 (x - T) / R))
          - (T + roundF32 (roundF32 (x - T) / R))|
        + |roundF32 (roundF32 (x - T) / R) - roundF32 (x - T) / R|
        + |(roundF32 (x - T) - (x - T)) / R| := by
    have : roundF32 (T + roundF32 (roundF32 (x - T) / R)) - (T + (x - T) / R)
        = (roundF32 (T + roundF32 (roundF32 (x - T) / R))
            - (T + roundF32 (roundF32 (x - T) / R)))
          + (roundF32 (roundF32 (x - T) / R) - roundF32 (x - T) / R)
          + (roundF32 (x - T) - (x - T)) / R := by
      field_simp
      ring
    rw [this]
    exact abs_add_three _ _ _
  have hlast := hdiv (roundF32 (x - T) - (x - T))
  have hx0 := abs_nonneg x
  have hT0 := abs_nonneg T
  have hη : (0 : ℚ) ≤ 1 / 2 ^ 150 := by positivity
  generalize (1 : ℚ) / 2 ^ 150 = η at *
  generalize |roundF32 (T + roundF32 (roundF32 (x - T) / R))
          - (T + roundF32 (roundF32 (x - T) / R))| = d3 at *
  generalize |roundF32 (roundF32 (x - T) / R) - roundF32 (x - T) / R| = d2 at *
  generalize |(roundF32 (x - T) - (x - T)) / R| = d1' at *
  generalize |roundF32 (x - T) - (x - T)| = d1 at *
  generalize |T + roundF32 (roundF32 (x - T) / R)| = tq at *
  generalize |roundF32 (roundF32 (x - T) / R)| = q at *
  generalize |roundF32 (x - T) / R| = ar at *
  generalize |roundF32 (x - T)| = a at *
  generalize |x - T| = d at *
  linarith

/-- The exact output level is within `|x| + |T| + k` of the input. -/
lemma abs_col_sub_le (g : GainComputer ℚ) (x : ℚ) (hR : 1 ≤ g.ratio)
    (hk : 0 ≤ g.kneeWidth) :
    |g.computeOutputLevel x - x| ≤ |x| + |g.threshold| + g.kneeWidth := by
  have hR0 : 0 < g.ratio := lt_of_lt_of_le one_pos hR
  have hc1 : 1 - 1 / g.ratio ≤ 1 := by
    have : 0 < 1 / g.ratio := div_pos one_pos hR0
    linarith
  have hc0 : 0 ≤ 1 - 1 / g.ratio := by
    have : 1 / g.ratio ≤ 1 := by
      rw [div_le_one hR0]
      exact hR
    linarith
  have hx1 := neg_abs_le x
  have hx2 := le_abs_self x
  have hT1 := neg_abs_le g.threshold
  have hT2 := le_abs_self g.threshold
  have habove : ∀ d : ℚ, 0 ≤ d → d ≤ |x| + |g.threshold| + g.kneeWidth →
      |x - (1 - 1 / g.ratio) * d - x| ≤ |x| + |g.threshold| + g.kneeWidth := by
    intro d hd hdle
    have e : x - (1 - 1 / g.ratio) * d - x = -((1 - 1 / g.ratio) * d) := by ring
    rw [e, abs_neg, abs_of_nonneg (mul_nonneg hc0 hd)]
    calc (1 - 1 / g.ratio) * d ≤ 1 * d := mul_le_mul_of_nonneg_right hc1 hd
      _ ≤ |x| + |g.threshold| + g.kneeWidth := by rw [one_mul]; exact hdle
  have hzero : |x - x| ≤ |x| + |g.threshold| + g.kneeWidth := by
    rw [sub_self, abs_zero]
    have := abs_nonneg x
    have := abs_nonneg g.threshold
    linarith
  by_cases hkpos : 0 < g.kneeWidth
  · obtain ⟨hb, hkn, ha⟩ := computeOutputLevel_soft g hkpos x
    rcases le_or_lt x (g.threshold - g.kneeWidth / 2) with h1 | h1
    · rw [hb h1]
      exact hzero
    · rcases lt_or_le x (g.threshold + g.kneeWidth / 2) with h2 | h2
      · rw [hkn h1 h2]
        obtain ⟨t0, t1, _⟩ := knee_term_bounds g.threshold g.kneeWidth x hkpos h1 h2
        exact habove _ t0 (by linarith)
      · rw [ha h2]
        exact habove _ (by linarith) (by linarith)
  · obtain ⟨hb, ha⟩ := computeOutputLevel_hard g hkpos x
    rcases le_or_lt x g.threshold with h1 | h1
    · rw [hb h1]
      exact hzero
    · rw [ha h1]
      exact habove _ (by linarith) (by linarith)

end CurveCloseness

section BranchCloseness

/-- Under the rounded knee start the exact curve is within rounding of the identity. -/
lemma soft_below_close (g : GainComputer ℚ) (x : ℚ) (hR : 1 ≤ g.ratio)
    (hk : 0 < g.kneeWidth) (hT : roundF32 g.threshold = g.threshold)
    (hkf : roundF32 g.kneeWidth = g.kneeWidth)
    (hlo : x ≤ roundF32 (g.threshold - roundF32 (g.kneeWidth / 2))) :
    |x - g.computeOutputLevel x|
      ≤ (|g.threshold| + 3 / 2 * g.kneeWidth) / 16777216 + 2 * (1 / 2 ^ 150) := by
  have hR0 : 0 < g.ratio := lt_of_lt_of_le one_pos hR
  have hc1 : 1 - 1 / g.ratio ≤ 1 := by
    have : 0 < 1 / g.ratio := div_pos one_pos hR0
    linarith
  have hc0 : 0 ≤ 1 - 1 / g.ratio := by
    have : 1 / g.ratio ≤ 1 := by
      rw [div_le_one hR0]
      exact hR
    linarith
  obtain ⟨_, _, hs, _⟩ := knee_end_bounds g.threshold g.kneeWidth (le_of_lt hk) hT hkf
  have hsb := (abs_le.mp hs).2
  have hδ : 0 ≤ (|g.threshold| + 3 / 2 * g.kneeWidth) / 16777216 + 2 * (1 / 2 ^ 150) :=
    le_trans (abs_nonneg _) hs
  have hshare : ∀ d : ℚ, 0 ≤ d →
      d ≤ (|g.threshold| + 3 / 2 * g.kneeWidth) / 16777216 + 2 * (1 / 2 ^ 150) →
      |x - (x - (1 - 1 / g.ratio) * d)|
        ≤ (|g.threshold| + 3 / 2 * g.kneeWidth) / 16777216 + 2 * (1 / 2 ^ 150) := by
    intro d hd hdle
    have e : x - (x - (1 - 1 / g.ratio) * d) = (1 - 1 / g.ratio) * d := by ring
    rw [e, abs_of_nonneg (mul_nonneg hc0 hd)]
    calc (1 - 1 / g.ratio) * d ≤ 1 * d := mul_le_mul_of_nonneg_right hc1 hd
      _ ≤ _ := by rw [one_mul]; exact hdle
  obtain ⟨hb, hkn, ha⟩ := computeOutputLevel_soft g hk x
  rcases le_or_lt x (g.threshold - g.kneeWidth / 2) with h1 | h1
  · rw [hb h1, sub_self, abs_zero]
    exact hδ
  · rcases lt_or_le x (g.threshold + g.kneeWidth / 2) with h2 | h2
    · rw [hkn h1 h2]
      obtain ⟨t0, t1, _⟩ := knee_term_bounds g.threshold g.kneeWidth x hk h1 h2
      exact hshare _ t0 (by linarith)
    · rw [ha h2]
      exact hshare _ (by linarith) (by linarith)

/-- At or over the rounded knee end the exact curve is within rounding of the exact ratio
line. -/
lemma soft_above_close (g : GainComputer ℚ) (x : ℚ) (hR : 1 ≤ g.ratio)
    (hk : 0 < g.kneeWidth) (hT : roundF32 g.threshold = g.threshold)
    (hkf : roundF32 g.kneeWidth = g.kneeWidth)
    (hhi : roundF32 (g.threshold + roundF32 (g.kneeWidth / 2)) ≤ x) :
    |g.threshold + (x - g.threshold) / g.ratio - g.computeOutputLevel x|
      ≤ (|g.threshold| + 3 / 2 * g.kneeWidth) / 16777216 + 2 * (1 / 2 ^ 150) := by
  have hR0 : 0 < g.ratio := lt_of_lt_of_le one_pos hR
  have hc1 : 1 - 1 / g.ratio ≤ 1 := by
    have : 0 < 1 / g.ratio := div_pos one_pos hR0
    linarith
  have hc0 : 0 ≤ 1 - 1 / g.ratio := by
    have : 1 / g.ratio ≤ 1 := by
      rw [div_le_one hR0]
      exact hR
    linarith
  obtain ⟨_, _, _, he⟩ := knee_end_bounds g.threshold g.kneeWidth (le_of_lt hk) hT hkf
  have heb := (abs_le.mp he).1
  have hδ : 0 ≤ (|g.threshold| + 3 / 2 * g.kneeWidth) / 16777216 + 2 * (1 / 2 ^ 150) :=
    le_trans (abs_nonneg _) he
  have hshare : ∀ d : ℚ, 0 ≤ d →
      d ≤ (|g.threshold| + 3 / 2 * g.kneeWidth) / 16777216 + 2 * (1 / 2 ^ 150) →
      |(1 - 1 / g.ratio) * d|
        ≤ (|g.threshold| + 3 / 2 * g.kneeWidth) / 16777216 + 2 * (1 / 2 ^ 150) := by
    intro d hd hdle
    rw [abs_of_nonneg (mul_nonneg hc0 hd)]
    calc (1 - 1 / g.ratio) * d ≤ 1 * d := mul_le_mul_of_nonneg_right hc1 hd
      _ ≤ _ := by rw [one_mul]; exact hdle
  rw [ratio_line_eq]
  obtain ⟨hb, hkn, ha⟩ := computeOutputLevel_soft g hk x
  rcases le_or_lt x (g.threshold - g.kneeWidth / 2) with h1 | h1
  · rw [hb h1]
    have e' : x - (1 - 1 / g.ratio) * (x - g.threshold) - x
        = (1 - 1 / g.ratio) * (g.threshold - x) := by ring
    rw [e']
    exact hshare _ (by linarith) (by linarith)
  · rcases lt_or_le x (g.threshold + g.kneeWidth / 2) with h2 | h2
    · rw [hkn h1 h2]
      obtain ⟨_, _, t2⟩ := knee_term_bounds g.threshold g.kneeWidth x hk h1 h2
      have e : x - (1 - 1 / g.ratio) * (x - g.threshold)
          - (x - (1 - 1 / g.ratio) * ((x - g.threshold + g.kneeWidth / 2)
            * (x - g.threshold + g.kneeWidth / 2) / (2 * g.kneeWidth)))
          = (1 - 1 / g.ratio) * ((x - g.threshold + g.kneeWidth / 2)
            * (x - g.threshold + g.kneeWidth / 2) / (2 * g.kneeWidth)
              - (x - g.threshold)) := by ring
      rw [e]
      refine hshare _ (by linarith) ?_
      have h2k : 0 < 2 * g.kneeWidth := by linarith
      have hgap : (x - g.threshold + g.kneeWidth / 2)
            * (x - g.threshold + g.kneeWidth / 2) / (2 * g.kneeWidth) - (x - g.threshold)
          ≤ (g.threshold + g.kneeWidth / 2 - x) / 2 := by
        rw [sub_le_iff_le_add, div_le_iff₀ h2k]
        nlinarith
      linarith
    · rw [ha h2, sub_self, abs_zero]
      exact hδ

/-- Strictly inside the rounded knee the exact reduction is within rounding of the exact
quadratic term. -/
lemma soft_knee_close (g : GainComputer ℚ) (x : ℚ) (hR : 1 ≤ g.ratio)
    (hk : 0 < g.kneeWidth) (hT : roundF32 g.threshold = g.threshold)
    (hkf : roundF32 g.kneeWidth = g.kneeWidth)
    (hlo : roundF32 (g.threshold - roundF32 (g.kneeWidth / 2)) < x)
    (hhi : x < roundF32 (g.threshold + roundF32 (g.kneeWidth / 2))) :
    |(1 - 1 / g.ratio) * ((x - g.threshold + g.kneeWidth / 2)
          * (x - g.threshold + g.kneeWidth / 2) / (2 * g.kneeWidth))
        - (x - g.computeOutputLevel x)|
      ≤ 5 / 4 * ((|g.threshold| + 3 / 2 * g.kneeWidth) / 16777216 + 2 * (1 / 2 ^ 150)) := by
  have hR0 : 0 < g.ratio := lt_of_lt_of_le one_pos hR
  have hc1 : 1 - 1 / g.ratio ≤ 1 := by
    have : 0 < 1 / g.ratio := div_pos one_pos hR0
    linarith
  have hc0 : 0 ≤ 1 - 1 / g.ratio := by
    have : 1 / g.ratio ≤ 1 := by
      rw [div_le_one hR0]
      exact hR
    linarith
  obtain ⟨ks2, ke2, hs, he⟩ := knee_end_bounds g.threshold g.kneeWidth (le_of_lt hk) hT hkf
  have hsb := (abs_le.mp hs).1
  have heb := (abs_le.mp he).2
  have hδ : 0 ≤ (|g.threshold| + 3 / 2 * g.kneeWidth) / 16777216 + 2 * (1 / 2 ^ 150) :=
    le_trans (abs_nonneg _) hs
  have h2k : 0 < 2 * g.kneeWidth := by linarith
  have hshare : ∀ d : ℚ, 0 ≤ d →
      d ≤ 5 / 4 * ((|g.threshold| + 3 / 2 * g.kneeWidth) / 16777216 + 2 * (1 / 2 ^ 150)) →
      |(1 - 1 / g.ratio) * d|
        ≤ 5 / 4 * ((|g.threshold| + 3 / 2 * g.kneeWidth) / 16777216
          + 2 * (1 / 2 ^ 150)) := by
    intro d hd hdle
    rw [abs_of_nonneg (mul_nonneg hc0 hd)]
    calc (1 - 1 / g.ratio) * d ≤ 1 * d := mul_le_mul_of_nonneg_right hc1 hd
      _ ≤ _ := by rw [one_mul]; exact hdle
  obtain ⟨hb, hkn, ha⟩ := computeOutputLevel_soft g hk x
  generalize hδdef : (|g.threshold| + 3 / 2 * g.kneeWidth) / 16777216
    + 2 * (1 / 2 ^ 150) = δ at *
  rcases le_or_lt x (g.threshold - g.kneeWidth / 2) with h1 | h1
  · rw [hb h1, sub_self, sub_zero]
    refine hshare _ (div_nonneg (mul_self_nonneg _) (le_of_lt h2k)) ?_
    rw [div_le_iff₀ h2k]
    -- the distance from the knee start is in (-δ, 0] and at least -2.5 k
    have hs1 : -δ ≤ x - g.threshold + g.kneeWidth / 2 := by linarith
    have hs2 : x - g.threshold + g.kneeWidth / 2 ≤ 0 := by linarith
    have hs3 : -(5 / 2 * g.kneeWidth) ≤ x - g.threshold + g.kneeWidth / 2 := by linarith
    nlinarith
  · rcases lt_or_le x (g.threshold + g.kneeWidth / 2) with h2 | h2
    · rw [hkn h1 h2]
      have e : (1 - 1 / g.ratio) * ((x - g.threshold + g.kneeWidth / 2)
            * (x - g.threshold + g.kneeWidth / 2) / (2 * g.kneeWidth))
          - (x - (x - (1 - 1 / g.ratio) * ((x - g.threshold + g.kneeWidth / 2)
            * (x - g.threshold + g.kneeWidth / 2) / (2 * g.kneeWidth)))) = 0 := by ring
      rw [e, abs_zero]
      linarith
    · rw [ha h2]
      have e : (1 - 1 / g.ratio) * ((x - g.threshold + g.kneeWidth / 2)
            * (x - g.threshold + g.kneeWidth / 2) / (2 * g.kneeWidth))
          - (x - (x - (1 - 1 / g.ratio) * (x - g.threshold)))
          = (1 - 1 / g.ratio) * ((x - g.threshold + g.kneeWidth / 2)
            * (x - g.threshold + g.kneeWidth / 2) / (2 * g.kneeWidth)
              - (x - g.threshold)) := by ring
      rw [e]
      have hid : (x - g.threshold + g.kneeWidth / 2)
            * (x - g.threshold + g.kneeWidth / 2) / (2 * g.kneeWidth) - (x - g.threshold)
          = (x - g.threshold - g.kneeWidth / 2) * (x - g.threshold - g.kneeWidth / 2)
            / (2 * g.kneeWidth) := by
        field_simp
        ring
      rw [hid]
      refine hshare _ (div_nonneg (mul_self_nonneg _) (le_of_lt h2k)) ?_
      rw [div_le_iff₀ h2k]
      have hs1 : x - g.threshold - g.kneeWidth / 2 ≤ δ := by linarith
      have hs2 : 0 ≤ x - g.threshold - g.kneeWidth / 2 := by linarith
      have hs3 : x - g.threshold - g.kneeWidth / 2 ≤ 3 / 2 * g.kneeWidth := by linarith
      nlinarith

end BranchCloseness

section OutputCloseness

/-- The rounded method forms its reduction as the rounding of `out - x` for an output level
`out` that is within rounding of the exact output level. -/
lemma rounded_out_close (g : GainComputer ℚ) (x : ℚ) (hR : 1 ≤ g.ratio)
    (hT : roundF32 g.threshold = g.threshold)
    (hkf : roundF32 g.kneeWidth = g.kneeWidth) :
    ∃ out : ℚ, Rounded.computeGainReduction roundF32 g x = roundF32 (out - x) ∧
      |out - g.computeOutputLevel x|
        ≤ 85 * (|x| + |g.threshold| + |g.kneeWidth|) / 16777216 + 1 / 2 ^ 69 := by
  have hx0 := abs_nonneg x
  have hT0 := abs_nonneg g.threshold
  by_cases hkpos : g.kneeWidth > 0
  · have hkabs : |g.kneeWidth| = g.kneeWidth := abs_of_pos hkpos
    rw [hkabs]
    by_cases h1 : x ≤ roundF32 (g.threshold - roundF32 (g.kneeWidth / 2))
    · refine ⟨x, ?_, ?_⟩
      · simp only [Rounded.computeGainReduction, hkpos, h1, if_true]
      · have h := soft_below_close g x hR hkpos hT hkf h1
        linarith
    · by_cases h2 : x ≥ roundF32 (g.threshold + roundF32 (g.kneeWidth / 2))
      · refine ⟨roundF32 (g.threshold + roundF32 (roundF32 (x - g.threshold) / g.ratio)),
          ?_, ?_⟩
        · simp only [Rounded.computeGainReduction, hkpos, h1, h2, if_true, if_false]
        · have ha := soft_above_close g x hR hkpos hT hkf h2
          have hl := line_close x g.threshold g.ratio hR
          have hsum : |roundF32 (g.threshold
                + roundF32 (roundF32 (x - g.threshold) / g.ratio))
              - g.computeOutputLevel x|
              ≤ |roundF32 (g.threshold + roundF32 (roundF32 (x - g.threshold) / g.ratio))
                  - (g.threshold + (x - g.threshold) / g.ratio)|
                + |g.threshold + (x - g.threshold) / g.ratio - g.computeOutputLevel x| := by
            have : roundF32 (g.threshold
                  + roundF32 (roundF32 (x - g.threshold) / g.ratio))
                - g.computeOutputLevel x
                = (roundF32 (g.threshold
                    + roundF32 (roundF32 (x - g.threshold) / g.ratio))
                  - (g.threshold + (x - g.threshold) / g.ratio))
                  + (g.threshold + (x - g.threshold) / g.ratio
                    - g.computeOutputLevel x) := by ring
            rw [this]
            exact abs_add _ _
          linarith
      · push_neg at h1 h2
        obtain ⟨hq, hqabs⟩ := knee_term_close x g.threshold g.kneeWidth g.ratio hkpos hR
          hT hkf h1 h2
        have hp := soft_knee_close g x hR hkpos hT hkf h1 h2
        refine ⟨roundF32 (x - roundF32 (roundF32 (roundF32
            (roundF32 (1 - roundF32 (1 / g.ratio)) *
              roundF32 (roundF32 (x - g.threshold) + roundF32 (g.kneeWidth / 2))) *
              roundF32 (roundF32 (x - g.threshold) + roundF32 (g.kneeWidth / 2))) /
              roundF32 (2 * g.kneeWidth))), ?_, ?_⟩
        · simp only [Rounded.computeGainReduction, hkpos, not_le.mpr h1,
            ge_iff_le, not_le.mpr h2, if_true, if_false]
        · generalize roundF32 (roundF32 (roundF32
            (roundF32 (1 - roundF32 (1 / g.ratio)) *
              roundF32 (roundF32 (x - g.threshold) + roundF32 (g.kneeWidth / 2))) *
              roundF32 (roundF32 (x - g.threshold) + roundF32 (g.kneeWidth / 2))) /
              roundF32 (2 * g.kneeWidth)) = qf at *
          have herr := abs_roundF32_sub_le (x - qf)
          have hxq : |x - qf| ≤ |x| + |qf| := abs_sub _ _
          have hsum : |roundF32 (x - qf) - g.computeOutputLevel x|
              ≤ |roundF32 (x - qf) - (x - qf)|
                + |qf - (1 - 1 / g.ratio) * ((x - g.threshold + g.kneeWidth / 2)
                    * (x - g.threshold + g.kneeWidth / 2) / (2 * g.kneeWidth))|
                + |(1 - 1 / g.ratio) * ((x - g.threshold + g.kneeWidth / 2)
                    * (x - g.threshold + g.kneeWidth / 2) / (2 * g.kneeWidth))
                  - (x - g.computeOutputLevel x)| := by
            have : roundF32 (x - qf) - g.computeOutputLevel x
                = (roundF32 (x - qf) - (x - qf))
                  + -(qf - (1 - 1 / g.ratio) * ((x - g.threshold + g.kneeWidth / 2)
                    * (x - g.threshold + g.kneeWidth / 2) / (2 * g.kneeWidth)))
                  + -((1 - 1 / g.ratio) * ((x - g.threshold + g.kneeWidth / 2)
                    * (x - g.threshold + g.kneeWidth / 2) / (2 * g.kneeWidth))
                  - (x - g.computeOutputLevel x)) := by ring
            rw [this]
            refine le_trans (abs_add_three _ _ _) ?_
            rw [abs_neg, abs_neg]
          linarith
  · have hk0 := abs_nonneg g.kneeWidth
    obtain ⟨hb, ha⟩ := computeOutputLevel_hard g hkpos x
    by_cases h1 : x > g.threshold
    · refine ⟨roundF32 (g.threshold + roundF32 (roundF32 (x - g.threshold) / g.ratio)),
        ?_, ?_⟩
      · simp only [Rounded.computeGainReduction, hkpos, h1, if_true, if_false]
      · rw [ha h1, ← ratio_line_eq]
        have hl := line_close x g.threshold g.ratio hR
        linarith
    · refine ⟨x, ?_, ?_⟩
      · simp only [Rounded.computeGainReduction, hkpos, h1, if_false]
      · rw [hb (not_lt.mp h1), sub_self, abs_zero]
        positivity

/-- The rounded output level is within rounding of the exact output level. -/
lemma rounded_col_close (g : GainComputer ℚ) (x : ℚ) (hR : 1 ≤ g.ratio)
    (hk : 0 ≤ g.kneeWidth) (hT : roundF32 g.threshold = g.threshold)
    (hkf : roundF32 g.kneeWidth = g.kneeWidth) :
    |Rounded.computeOutputLevel roundF32 g x - g.computeOutputLevel x|
      ≤ (|x| + |g.threshold| + g.kneeWidth) / 131072 + 1 / 2 ^ 68 := by
  obtain ⟨out, hF, hout⟩ := rounded_out_close g x hR hT hkf
  rw [abs_of_nonneg hk] at hout
  have hf := abs_col_sub_le g x hR hk
  unfold Rounded.computeOutputLevel
  rw [hF]
  have e1 := abs_roundF32_sub_le (out - x)
  have e2 := abs_roundF32_sub_le (x + roundF32 (out - x))
  have hx0 := abs_nonneg x
  have hT0 := abs_nonneg g.threshold
  have hfabs : |g.computeOutputLevel x| ≤ |x| + |g.computeOutputLevel x - x| := by
    have : g.computeOutputLevel x = x + (g.computeOutputLevel x - x) := by ring
    rw [this]
    refine le_trans (abs_add _ _) ?_
    rw [← this]
  have houtabs : |out| ≤ |g.computeOutputLevel x| + |out - g.computeOutputLevel x| := by
    have : out = g.computeOutputLevel x + (out - g.computeOutputLevel x) := by ring
    rw [this]
    refine le_trans (abs_add _ _) ?_
    rw [← this]
  have hox : |out - x| ≤ |out| + |x| := abs_sub _ _
  have hxF : |x + roundF32 (out - x)| ≤ |out| + |roundF32 (out - x) - (out - x)| := by
    have : x + roundF32 (out - x) = out + (roundF32 (out - x) - (out - x)) := by ring
    rw [this]
    exact abs_add _ _
  have hsum : |roundF32 (x + roundF32 (out - x)) - g.computeOutputLevel x|
      ≤ |roundF32 (x + roundF32 (out - x)) - (x + roundF32 (out - x))|
        + |roundF32 (out - x) - (out - x)| + |out - g.computeOutputLevel x| := by
    have : roundF32 (x + roundF32 (out - x)) - g.computeOutputLevel x
        = (roundF32 (x + roundF32 (out - x)) - (x + roundF32 (out - x)))
          + (roundF32 (out - x) - (out - x)) + (out - g.computeOutputLevel x) := by ring
    rw [this]
    exact abs_add_three _ _ _
  have hη150 : (1 : ℚ) / 2 ^ 150 ≤ 1 / 2 ^ 69 / 16 := by norm_num
  have e68 : (1 : ℚ) / 2 ^ 68 = 2 * (1 / 2 ^ 69) := by norm_num
  have hη69 : (0 : ℚ) ≤ 1 / 2 ^ 69 := by positivity
  have hη : (0 : ℚ) ≤ 1 / 2 ^ 150 := by positivity
  rw [e68]
  generalize (1 : ℚ) / 2 ^ 150 = η at *
  generalize (1 : ℚ) / 2 ^ 69 = ν at *
  generalize |roundF32 (x + roundF32 (out - x)) - (x + roundF32 (out - x))| = a2 at *
  generalize |roundF32 (out - x) - (out - x)| = a1 at *
  generalize |out - g.computeOutputLevel x| = b at *
  generalize |x + roundF32 (out - x)| = w at *
  generalize |out - x| = v at *
  generalize |out| = o at *
  generalize |g.computeOutputLevel x - x| = fx at *
  generalize |g.computeOutputLevel x| = f at *
  linarith

end OutputCloseness

section Evaluation

lemma roundHalfEven_tie_even (f : ℤ) (hf : f % 2 = 0) :
    roundHalfEven ((f : ℚ) + 1 / 2) = f := by
  have hfl : ⌊(f : ℚ) + 1 / 2⌋ = f := by
    rw [Int.floor_eq_iff]
    constructor <;> linarith
  unfold roundHalfEven
  rw [hfl]
  have e : (f : ℚ) + 1 / 2 - f = 1 / 2 := by ring
  rw [e, if_neg (lt_irrefl _), if_neg (lt_irrefl _), if_pos hf]

lemma roundHalfEven_tie_odd (f : ℤ) (hf : f % 2 = 1) :
    roundHalfEven ((f : ℚ) + 1 / 2) = f + 1 := by
  have hfl : ⌊(f : ℚ) + 1 / 2⌋ = f := by
    rw [Int.floor_eq_iff]
    constructor <;> linarith
  unfold roundHalfEven
  rw [hfl]
  have e : (f : ℚ) + 1 / 2 - f = 1 / 2 := by ring
  rw [e, if_neg (lt_irrefl _), if_neg (lt_irrefl _), if_neg (by omega)]

/-- Evaluation of the rounding from the binade of the magnitude and the rounded
significand. -/
lemma roundF32_eq_of_significand {q : ℚ} (e m : ℤ) (he : -126 ≤ e)
    (hlo : (2 : ℚ) ^ e ≤ |q|) (hhi : |q| < 2 ^ (e + 1))
    (hm : roundHalfEven (|q| / 2 ^ (e - 23)) = m) :
    roundF32 q = (if 0 ≤ q then (m : ℚ) else -(m : ℚ)) * 2 ^ (e - 23) := by
  have hexp := expF32_eq he hlo hhi
  by_cases hq : 0 ≤ q
  · rw [abs_of_nonneg hq] at hexp hm
    rw [roundF32_of_nonneg hq, if_pos hq]
    unfold roundMagF32
    rw [hexp, hm]
  · rw [if_neg hq]
    push_neg at hq
    rw [abs_of_neg hq] at hexp hm
    rw [roundF32_of_neg hq]
    unfold roundMagF32
    rw [hexp, hm]
    ring


end Evaluation

section RoundedMonotone

/-- C29, as amended: the static transfer curve is monotone up to `float` rounding.  For every
`float` threshold and knee width of at least 0, every ratio of at least 1 and all inputs
`x ≤ y`: in exact arithmetic `computeOutputLevel x ≤ computeOutputLevel y`; the binary32
output level is within `(|x| + |T| + knee) / 2^17 + 2^-68` of the exact one at every input;
hence in binary32 arithmetic `computeOutputLevel x` exceeds `computeOutputLevel y` by at most
`(|x| + |y| + 2 |T| + 2 knee) / 2^17 + 2^-67`, across the below-knee, in-knee and above-knee
regions. -/
theorem computeOutputLevel_monotone_rounded (g : GainComputer ℚ) (x y : ℚ)
    (hratio : 1 ≤ g.ratio) (hknee : 0 ≤ g.kneeWidth)
    (hT : roundF32 g.threshold = g.threshold)
    (hk : roundF32 g.kneeWidth = g.kneeWidth) (hxy : x ≤ y) :
    g.computeOutputLevel x ≤ g.computeOutputLevel y ∧
    |Rounded.computeOutputLevel roundF32 g x - g.computeOutputLevel x|
      ≤ (|x| + |g.threshold| + g.kneeWidth) / 131072 + 1 / 2 ^ 68 ∧
    |Rounded.computeOutputLevel roundF32 g y - g.computeOutputLevel y|
      ≤ (|y| + |g.threshold| + g.kneeWidth) / 131072 + 1 / 2 ^ 68 ∧
    Rounded.computeOutputLevel roundF32 g x
      ≤ Rounded.computeOutputLevel roundF32 g y
        + ((|x| + |y| + 2 * |g.threshold| + 2 * g.kneeWidth) / 131072 + 1 / 2 ^ 67) := by
  have hmono := computeOutputLevel_monotone g x y hratio hknee hxy
  have hx := rounded_col_close g x hratio hknee hT hk
  have hy := rounded_col_close g y hratio hknee hT hk
  refine ⟨hmono, hx, hy, ?_⟩
  have bx := (abs_le.mp hx).2
  have hby := (abs_le.mp hy).1
  have e : (1 : ℚ) / 2 ^ 67 = 2 * (1 / 2 ^ 68) := by norm_num
  rw [e]
  linarith

/-- The rounded output level at the defaults and `x = -11568329 / 2^21`, operation by
operation (three of the roundings are ties). -/
lemma rounded_col_eval_lower :
    Rounded.computeOutputLevel roundF32 { threshold := -18, ratio := 4, kneeWidth := 6 }
      (-11568329 / 2097152) = -1950227 / 131072 := by
  have h1 : roundF32 3 = 3 :=
    roundF32_eq_self 3 0 (by norm_num) (by norm_num) (by norm_num)
  have h2 : roundF32 (-21) = -21 :=
    roundF32_eq_self (-21) 0 (by norm_num) (by norm_num) (by norm_num)
  have h3 : roundF32 (-15) = -15 :=
    roundF32_eq_self (-15) 0 (by norm_num) (by norm_num) (by norm_num)
  have h4 : roundF32 (26180407 / 2097152) = 3272551 / 262144 := by
    rw [roundF32_eq_of_significand 3 13090204 (by norm_num) (by norm_num [abs_of_pos])
      (by norm_num [abs_of_pos]) (by
        have e : |(26180407 / 2097152 : ℚ)| / 2 ^ ((3 : ℤ) - 23)
            = ((13090203 : ℤ) : ℚ) + 1 / 2 := by
          norm_num [abs_of_pos]
        rw [e]
        exact roundHalfEven_tie_odd 13090203 (by norm_num))]
    norm_num
  have h5 : roundF32 (3272551 / 1048576) = 3272551 / 1048576 :=
    roundF32_eq_self 3272551 (-20) (by norm_num) (by norm_num) (by norm_num)
  have h6 : roundF32 (-(15601817 / 1048576)) = -(15601817 / 1048576) :=
    roundF32_eq_self (-15601817) (-20) (by norm_num) (by norm_num) (by norm_num)
  have h7 : roundF32 (-(19635305 / 2097152)) = -(2454413 / 262144) := by
    rw [roundF32_eq_of_significand 3 9817652 (by norm_num) (by norm_num [abs_of_pos])
      (by norm_num [abs_of_pos]) (by
        have e : |(-(19635305 / 2097152) : ℚ)| / 2 ^ ((3 : ℤ) - 23)
            = ((9817652 : ℤ) : ℚ) + 1 / 2 := by
          norm_num [abs_of_pos]
        rw [e]
        exact roundHalfEven_tie_even 9817652 (by norm_num))]
    norm_num
  have h8 : roundF32 (-(31203633 / 2097152)) = -(1950227 / 131072) := by
    rw [roundF32_eq_of_significand 3 15601816 (by norm_num) (by norm_num [abs_of_pos])
      (by norm_num [abs_of_pos]) (by
        have e : |(-(31203633 / 2097152) : ℚ)| / 2 ^ ((3 : ℤ) - 23)
            = ((15601816 : ℤ) : ℚ) + 1 / 2 := by
          norm_num [abs_of_pos]
        rw [e]
        exact roundHalfEven_tie_even 15601816 (by norm_num))]
    norm_num
  norm_num [Rounded.computeOutputLevel, Rounded.computeGainReduction, h1, h2, h3, h4, h5,
    h6, h7, h8]

/-- The rounded output level at the defaults and `y = -1446041 / 2^18`, operation by
operation. -/
lemma rounded_col_eval_upper :
    Rounded.computeOutputLevel roundF32 { threshold := -18, ratio := 4, kneeWidth := 6 }
      (-1446041 / 262144) = -15601817 / 1048576 := by
  have h1 : roundF32 3 = 3 :=
    roundF32_eq_self 3 0 (by norm_num) (by norm_num) (by norm_num)
  have h2 : roundF32 (-21) = -21 :=
    roundF32_eq_self (-21) 0 (by norm_num) (by norm_num) (by norm_num)
  have h3 : roundF32 (-15) = -15 :=
    roundF32_eq_self (-15) 0 (by norm_num) (by norm_num) (by norm_num)
  have h4 : roundF32 (3272551 / 262144) = 3272551 / 262144 :=
    roundF32_eq_self 3272551 (-18) (by norm_num) (by norm_num) (by norm_num)
  have h5 : roundF32 (3272551 / 1048576) = 3272551 / 1048576 :=
    roundF32_eq_self 3272551 (-20) (by norm_num) (by norm_num) (by norm_num)
  have h6 : roundF32 (-(15601817 / 1048576)) = -(15601817 / 1048576) :=
    roundF32_eq_self (-15601817) (-20) (by norm_num) (by norm_num) (by norm_num)
  have h7 : roundF32 (-(9817653 / 1048576)) = -(9817653 / 1048576) :=
    roundF32_eq_self (-9817653) (-20) (by norm_num) (by norm_num) (by norm_num)
  norm_num [Rounded.computeOutputLevel, Rounded.computeGainReduction, h1, h2, h3, h4, h5,
    h6, h7]

/-- C29, as amended, at the defaults between -19 (inside the knee) and -10 (above). -/
theorem computeOutputLevel_monotone_rounded_witness :
    Rounded.computeOutputLevel roundF32
        ({ threshold := -18, ratio := 4, kneeWidth := 6 } : GainComputer ℚ) (-19)
      ≤ Rounded.computeOutputLevel roundF32
          ({ threshold := -18, ratio := 4, kneeWidth := 6 } : GainComputer ℚ) (-10)
        + ((|(-19 : ℚ)| + |(-10 : ℚ)| + 2 * |(-18 : ℚ)| + 2 * 6) / 131072 + 1 / 2 ^ 67) :=
  (computeOutputLevel_monotone_rounded
    ({ threshold := -18, ratio := 4, kneeWidth := 6 } : GainComputer ℚ) (-19) (-10)
    (by norm_num) (by norm_num)
    (roundF32_eq_self (-18) 0 (by norm_num) (by norm_num) (by norm_num))
    (roundF32_eq_self 6 0 (by norm_num) (by norm_num) (by norm_num))
    (by norm_num)).2.2.2

/-- C29 as stated fails in `float` arithmetic: at threshold -18, ratio 4, knee 6 the
`float` inputs `x = -11568329 / 2^21` and `y = -1446041 / 2^18` (about -5.5162, one
`float` apart, above the knee) satisfy `x < y`, yet the output level at `y`,
`-15601817 / 2^20`, is under the output level at `x`, `-1950227 / 2^17`. -/
theorem computeOutputLevel_rounded_not_monotone :
    (-11568329 / 2097152 : ℚ) < -1446041 / 262144 ∧
    Rounded.computeOutputLevel roundF32 { threshold := -18, ratio := 4, kneeWidth := 6 }
        (-1446041 / 262144)
      < Rounded.computeOutputLevel roundF32 { threshold := -18, ratio := 4, kneeWidth := 6 }
        (-11568329 / 2097152) := by
  rw [rounded_col_eval_lower, rounded_col_eval_upper]
  constructor <;> norm_num

end RoundedMonotone

end Reactor
